import Mathlib

/-!
# Cascaded shadow maps: a shallow embedding of `src/csm.cpp`

The C++ class `CSM` computes, per frame, the split planes, frustum corners,
crop / projection / texture matrices and far bounds of a cascaded shadow map.

Modelling conventions

* `float` is modelled by an arbitrary linearly ordered field `K` with a floor
  function (exact arithmetic: rounding error, NaN and infinities of IEEE
  arithmetic are outside the model).  Division by zero follows the field
  convention `x / 0 = 0`; a theorem states the non-degeneracy its conclusion
  depends on.
* `int` is modelled by `Int`.
* The libm functions `powf`, `sqrt` and `tan` are not code of the repository;
  they are passed in as a record `Libm K`, and the laws a theorem needs are
  stated as hypotheses (`PowfLaws`).
* glm (`glm::ortho`, `glm::lookAt`, ...) is an external library; its functions
  are transcribed from the glm sources with its default conventions
  (column-major storage, right-handed, clip depth in `[-1, 1]`).
* The fixed 8-slot arrays of the class are functions from `Int`; every
  subscript the code evaluates is checked against `0 ≤ i < 8` and the
  operation returns `none` when a subscript is out of range.
-/

namespace CascadedShadowMaps

/-! ## Vectors and matrices (glm) -/

/-- Three-component vector, `glm::vec3`. -/
@[ext]
structure Vec3 (K : Type) where
  x : K
  y : K
  z : K

/-- Four-component vector, `glm::vec4`. -/
@[ext]
structure Vec4 (K : Type) where
  x : K
  y : K
  z : K
  w : K

/-- Matrix `glm::mat4`, stored by columns: `m[c]` is column `c` and
`m[c][r]` is the entry in column `c`, row `r`. -/
@[ext]
structure Mat4 (K : Type) where
  c0 : Vec4 K
  c1 : Vec4 K
  c2 : Vec4 K
  c3 : Vec4 K

section Algebra

variable {K : Type} [LinearOrderedField K]

/-- Componentwise sum, `a + b` on `glm::vec3`. -/
def Vec3.add (a b : Vec3 K) : Vec3 K := ⟨a.x + b.x, a.y + b.y, a.z + b.z⟩

/-- Componentwise difference, `a - b` on `glm::vec3`. -/
def Vec3.sub (a b : Vec3 K) : Vec3 K := ⟨a.x - b.x, a.y - b.y, a.z - b.z⟩

/-- Unary minus on `glm::vec3`. -/
def Vec3.neg (a : Vec3 K) : Vec3 K := ⟨-a.x, -a.y, -a.z⟩

/-- Vector times scalar, `v * s` on `glm::vec3`. -/
def Vec3.scale (a : Vec3 K) (s : K) : Vec3 K := ⟨a.x * s, a.y * s, a.z * s⟩

/-- Vector divided by scalar, `v / s` on `glm::vec3`. -/
def Vec3.divs (a : Vec3 K) (s : K) : Vec3 K := ⟨a.x / s, a.y / s, a.z / s⟩

/-- Dot product `glm::dot`. -/
def glm_dot (a b : Vec3 K) : K := a.x * b.x + a.y * b.y + a.z * b.z

/-- Cross product `glm::cross`. -/
def glm_cross (a b : Vec3 K) : Vec3 K :=
  ⟨a.y * b.z - b.y * a.z, a.z * b.x - b.z * a.x, a.x * b.y - b.x * a.y⟩

/-- Constructor `glm::vec4(v, w)`. -/
def vec4_of (v : Vec3 K) (w : K) : Vec4 K := ⟨v.x, v.y, v.z, w⟩

/-- Componentwise sum on `glm::vec4`. -/
def Vec4.add (a b : Vec4 K) : Vec4 K := ⟨a.x + b.x, a.y + b.y, a.z + b.z, a.w + b.w⟩

/-- Componentwise difference on `glm::vec4`. -/
def Vec4.sub (a b : Vec4 K) : Vec4 K := ⟨a.x - b.x, a.y - b.y, a.z - b.z, a.w - b.w⟩

/-- Vector times scalar on `glm::vec4`. -/
def Vec4.scale (a : Vec4 K) (s : K) : Vec4 K := ⟨a.x * s, a.y * s, a.z * s, a.w * s⟩

/-- Vector divided by scalar on `glm::vec4`. -/
def Vec4.divs (a : Vec4 K) (s : K) : Vec4 K := ⟨a.x / s, a.y / s, a.z / s, a.w / s⟩

/-- Matrix times column vector: `m[0] * v.x + m[1] * v.y + m[2] * v.z + m[3] * v.w`. -/
def Mat4.mulVec (m : Mat4 K) (v : Vec4 K) : Vec4 K :=
  ⟨m.c0.x * v.x + m.c1.x * v.y + m.c2.x * v.z + m.c3.x * v.w,
   m.c0.y * v.x + m.c1.y * v.y + m.c2.y * v.z + m.c3.y * v.w,
   m.c0.z * v.x + m.c1.z * v.y + m.c2.z * v.z + m.c3.z * v.w,
   m.c0.w * v.x + m.c1.w * v.y + m.c2.w * v.z + m.c3.w * v.w⟩

/-- Matrix product `a * b`: column `j` of the result is `a * b[j]`. -/
def Mat4.mul (a b : Mat4 K) : Mat4 K :=
  ⟨a.mulVec b.c0, a.mulVec b.c1, a.mulVec b.c2, a.mulVec b.c3⟩

/-- Diagonal matrix `glm::mat4(d)`. -/
def mat4_diag (d : K) : Mat4 K :=
  ⟨⟨d, 0, 0, 0⟩, ⟨0, d, 0, 0⟩, ⟨0, 0, d, 0⟩, ⟨0, 0, 0, d⟩⟩

/-- Transposition `glm::transpose`. -/
def glm_transpose (m : Mat4 K) : Mat4 K :=
  ⟨⟨m.c0.x, m.c1.x, m.c2.x, m.c3.x⟩,
   ⟨m.c0.y, m.c1.y, m.c2.y, m.c3.y⟩,
   ⟨m.c0.z, m.c1.z, m.c2.z, m.c3.z⟩,
   ⟨m.c0.w, m.c1.w, m.c2.w, m.c3.w⟩⟩

/-- Orthographic projection `glm::ortho(left, right, bottom, top, zNear, zFar)`
(right-handed, depth range `[-1, 1]`).  With `right = left`, `top = bottom` or
`zFar = zNear` the code divides by zero (IEEE infinities and NaN); the model
then has the field value `x / 0 = 0` (see `glm_ortho_divisors`). -/
def glm_ortho (left right bottom top zNear zFar : K) : Mat4 K :=
  ⟨⟨2 / (right - left), 0, 0, 0⟩,
   ⟨0, 2 / (top - bottom), 0, 0⟩,
   ⟨0, 0, -(2 / (zFar - zNear)), 0⟩,
   ⟨-((right + left) / (right - left)), -((top + bottom) / (top - bottom)),
    -((zFar + zNear) / (zFar - zNear)), 1⟩⟩

/-- Perspective projection `glm::perspective(fovy, aspect, zNear, zFar)`
(right-handed, depth range `[-1, 1]`); `tanHalfFovy` is `tan(fovy / 2)`. -/
def glm_perspective (tanHalfFovy aspect zNear zFar : K) : Mat4 K :=
  ⟨⟨1 / (aspect * tanHalfFovy), 0, 0, 0⟩,
   ⟨0, 1 / tanHalfFovy, 0, 0⟩,
   ⟨0, 0, -((zFar + zNear) / (zFar - zNear)), -1⟩,
   ⟨0, 0, -((2 * zFar * zNear) / (zFar - zNear)), 0⟩⟩

end Algebra

section Project

variable {K : Type} [LinearOrderedField K]

/-- Image of the world point `p` under `m`, after the projective divide:
`m * vec4(p, 1)` divided by its `w`. -/
def project (m : Mat4 K) (p : Vec3 K) : Vec4 K :=
  let v := m.mulVec (vec4_of p 1)
  v.divs v.w

end Project

/-- The libm functions the code calls; they are not part of the repository. -/
structure Libm (K : Type) where
  powf : K → K → K
  sqrt : K → K
  tan : K → K

section Glm

variable {K : Type} [LinearOrderedField K]

/-- Euclidean length `glm::length(v) = sqrt(dot(v, v))`. -/
def glm_length (L : Libm K) (v : Vec3 K) : K := L.sqrt (glm_dot v v)

/-- Normalisation `glm::normalize(v) = v * inversesqrt(dot(v, v))`.  For the
zero vector the code multiplies `0` by `inversesqrt(0)` (an IEEE NaN); the
model then has the zero vector (`1 / 0 = 0`). -/
def glm_normalize (L : Libm K) (v : Vec3 K) : Vec3 K := v.scale (1 / L.sqrt (glm_dot v v))

/-- View matrix `glm::lookAt(eye, center, up)` (right-handed). -/
def glm_lookAt (L : Libm K) (eye center up : Vec3 K) : Mat4 K :=
  let f := glm_normalize L (center.sub eye)
  let s := glm_normalize L (glm_cross f up)
  let u := glm_cross s f
  ⟨⟨s.x, u.x, -f.x, 0⟩,
   ⟨s.y, u.y, -f.y, 0⟩,
   ⟨s.z, u.z, -f.z, 0⟩,
   ⟨-(glm_dot s eye), -(glm_dot u eye), glm_dot f eye, 1⟩⟩

end Glm

section Rounding

variable {K : Type} [LinearOrderedField K] [FloorRing K]

/-- Scalar `round` of C: nearest integer, halfway cases away from zero. -/
def roundf (x : K) : K :=
  if 0 ≤ x then ((⌊x + 1 / 2⌋ : Int) : K) else ((⌈x - 1 / 2⌉ : Int) : K)

/-- Componentwise `glm::round` on `glm::vec4`. -/
def glm_round (v : Vec4 K) : Vec4 K := ⟨roundf v.x, roundf v.y, roundf v.z, roundf v.w⟩

/-- Scalar `ceil` of C. -/
def ceilf (x : K) : K := ((⌈x⌉ : Int) : K)

end Rounding

/-! ## Data model (`csm.h`, `dw::Camera`) -/

/-- The fields of `dw::Camera` that `csm.cpp` reads. -/
structure Camera (K : Type) where
  m_position : Vec3 K
  m_forward : Vec3 K
  m_up : Vec3 K
  m_right : Vec3 K
  m_near : K
  m_far : K
  m_fov : K
  m_projection : Mat4 K

/-- One cascade, `FrustumSplit` of `csm.h`. -/
@[ext]
structure FrustumSplit (K : Type) where
  near_plane : K
  far_plane : K
  ratio : K
  fov : K
  center : Vec3 K
  corners : Fin 8 → Vec3 K

/-- Modelled from the spec: the number of slots of the per-split arrays
(`m_splits`, `m_proj_matrices`, `m_crop_matrices`, `m_texture_matrices`,
`m_far_bounds`), declared in `csm.h`, which is not among the sources; the
spec fixes it to 8. -/
def MAX_SPLITS : Int := 8

/-- The numeric members of class `CSM` (GPU resources are left out). -/
@[ext]
structure CSM (K : Type) where
  m_lambda : K
  m_near_offset : K
  m_split_count : Int
  m_shadow_map_size : Int
  m_stable_pssm : Bool
  m_bias : Mat4 K
  m_light_view : Mat4 K
  m_light_direction : Vec3 K
  m_splits : Int → FrustumSplit K
  m_proj_matrices : Int → Mat4 K
  m_crop_matrices : Int → Mat4 K
  m_texture_matrices : Int → Mat4 K
  m_far_bounds : Int → K

/-- A C loop `for (int i = lo; n iterations; i++) body`, where a body that
touches memory out of bounds aborts the whole computation. -/
def forLoop {σ : Type} (body : Int → σ → Option σ) : Int → Nat → σ → Option σ
  | _, 0, s => some s
  | i, n + 1, s =>
    match body i s with
    | none => none
    | some s1 => forLoop body (i + 1) n s1

/-- Subscript check of the fixed-size arrays. -/
def inBounds (i : Int) : Prop := 0 ≤ i ∧ i < MAX_SPLITS

instance (i : Int) : Decidable (inBounds i) := by
  unfold inBounds; infer_instance

section Model

variable {K : Type} [LinearOrderedField K]

/-- Assignment through `m_splits[i]` (a field of the slot is replaced). -/
def CSM.modifySplit (s : CSM K) (i : Int) (f : FrustumSplit K → FrustumSplit K) :
    Option (CSM K) :=
  if inBounds i then
    some { s with m_splits := Function.update s.m_splits i (f (s.m_splits i)) }
  else none

/-- The blended split distance of the practical split scheme,
`lambda * (nd * powf(ratio, si)) + (1 - lambda) * (nd + (fd - nd) * si)`
with `si = i / (float)m_split_count` and `ratio = fd / nd`.  With `nd = 0` the
code divides by zero (see `update_splits_divisors`); the model then has
`ratio = 0`. -/
def t_near (L : Libm K) (lambda nd fd : K) (split_count : Int) (i : Int) : K :=
  let ratio := fd / nd
  let si := (i : K) / (split_count : K)
  lambda * (nd * L.powf ratio si) + (1 - lambda) * (nd + (fd - nd) * si)

/-- Body of the loop of `CSM::update_splits`. -/
def update_splits_body (L : Libm K) (camera : Camera K) (i : Int) (s : CSM K) :
    Option (CSM K) :=
  let nd := camera.m_near
  let fd := camera.m_far
  let tn := t_near L s.m_lambda nd fd s.m_split_count i
  let tf := tn * 1.005
  (s.modifySplit i (fun f => { f with near_plane := tn })).bind
    (fun s1 => s1.modifySplit (i - 1) (fun f => { f with far_plane := tf }))

/-- The method `CSM::update_splits`. -/
def update_splits (L : Libm K) (camera : Camera K) (s : CSM K) : Option (CSM K) :=
  let nd := camera.m_near
  let fd := camera.m_far
  (s.modifySplit 0 (fun f => { f with near_plane := nd })).bind fun s0 =>
  (forLoop (update_splits_body L camera) 1 (s.m_split_count - 1).toNat s0).bind fun s1 =>
  s1.modifySplit (s.m_split_count - 1) (fun f => { f with far_plane := fd })

/-! ### `CSM::update_frustum_corners` -/

/-- The eight corners written by one iteration of `CSM::update_frustum_corners`
for a split with planes `near_plane`, `far_plane`, given the already
normalised `right` and `up` of that iteration. -/
def frustum_corners (L : Libm K) (center view_dir right up : Vec3 K) (t : FrustumSplit K) :
    Fin 8 → Vec3 K :=
  let fc := center.add (view_dir.scale t.far_plane)
  let nc := center.add (view_dir.scale t.near_plane)
  let near_height := L.tan (t.fov / 2) * t.near_plane
  let near_width := near_height * t.ratio
  let far_height := L.tan (t.fov / 2) * t.far_plane
  let far_width := far_height * t.ratio
  ![(nc.sub (up.scale near_height)).sub (right.scale near_width),
    (nc.add (up.scale near_height)).sub (right.scale near_width),
    (nc.add (up.scale near_height)).add (right.scale near_width),
    (nc.sub (up.scale near_height)).add (right.scale near_width),
    (fc.sub (up.scale far_height)).sub (right.scale far_width),
    (fc.add (up.scale far_height)).sub (right.scale far_width),
    (fc.add (up.scale far_height)).add (right.scale far_width),
    (fc.sub (up.scale far_height)).add (right.scale far_width)]

/-- Body of the loop of `CSM::update_frustum_corners`.  The loop carries the
local `right`, which is normalised again in every iteration; the local `up`
is overwritten before it is read, so it is not carried. -/
def update_frustum_corners_body (L : Libm K) (camera : Camera K) (i : Int)
    (st : CSM K × Vec3 K) : Option (CSM K × Vec3 K) :=
  let center := camera.m_position
  let view_dir := camera.m_forward
  let right := glm_normalize L st.2
  let up := glm_normalize L (glm_cross right view_dir)
  (st.1.modifySplit i
    (fun t => { t with corners := frustum_corners L center view_dir right up t })).map
    (fun s1 => (s1, right))

/-- The method `CSM::update_frustum_corners`. -/
def update_frustum_corners (L : Libm K) (camera : Camera K) (s : CSM K) : Option (CSM K) :=
  let view_dir := camera.m_forward
  let up : Vec3 K := ⟨0, 1, 0⟩
  let right := glm_cross view_dir up
  (forLoop (update_frustum_corners_body L camera) 0 s.m_split_count.toNat (s, right)).map
    Prod.fst

/-! ### `CSM::update_crop_matrices` -/

/-- Lines 232-241: the range `(tmin.z, tmax.z)` of the light-space depth of the
eight corners. -/
def light_z_range (t_modelview : Mat4 K) (corners : Fin 8 → Vec3 K) : K × K :=
  let z0 := (t_modelview.mulVec (vec4_of (corners 0) 1)).z
  (List.range 7).foldl
    (fun (r : K × K) (k : Nat) =>
      let z := (t_modelview.mulVec (vec4_of (corners (Fin.ofNat (k + 1))) 1)).z
      let tmaxz := if z > r.2 then z else r.2
      let tminz := if z < r.1 then z else r.1
      (tminz, tmaxz))
    (z0, z0)

/-- Lines 246-251: the mean of the eight corners. -/
def split_center (corners : Fin 8 → Vec3 K) : Vec3 K :=
  ((List.finRange 8).foldl (fun (c : Vec3 K) (j : Fin 8) => c.add (corners j)) ⟨0, 0, 0⟩).divs 8

/-- The x/y extents accumulated by lines 309-320; `tmax` starts at `-INFINITY`
(`⊥`) and `tmin` at `INFINITY` (`⊤`). -/
structure Extents (K : Type) where
  tmax_x : WithBot K
  tmin_x : WithTop K
  tmax_y : WithBot K
  tmin_y : WithTop K

/-- One iteration of the loop of lines 309-320. -/
def extents_step (t_shad_mvp : Mat4 K) (corners : Fin 8 → Vec3 K) (e : Extents K)
    (j : Fin 8) : Extents K :=
  let t_transf := t_shad_mvp.mulVec (vec4_of (corners j) 1)
  let x := t_transf.x / t_transf.w
  let y := t_transf.y / t_transf.w
  { tmax_x := if e.tmax_x < (x : WithBot K) then (x : WithBot K) else e.tmax_x
    tmin_x := if (x : WithTop K) < e.tmin_x then (x : WithTop K) else e.tmin_x
    tmax_y := if e.tmax_y < (y : WithBot K) then (y : WithBot K) else e.tmax_y
    tmin_y := if (y : WithTop K) < e.tmin_y then (y : WithTop K) else e.tmin_y }

/-- The loop of lines 309-320 over the eight corners. -/
def tight_extents (t_shad_mvp : Mat4 K) (corners : Fin 8 → Vec3 K) : Extents K :=
  (List.finRange 8).foldl (extents_step t_shad_mvp corners) ⟨⊥, ⊤, ⊥, ⊤⟩

/-- Line 305: `glm::ortho(-1, 1, -1, 1, -m_near_offset, -tmin.z)`. -/
def tight_ortho (near_offset : K) (t_modelview : Mat4 K) (corners : Fin 8 → Vec3 K) :
    Mat4 K :=
  glm_ortho (-1) 1 (-1) 1 (-near_offset) (-(light_z_range t_modelview corners).1)

/-- Lines 322-330: the scale-and-offset matrix `t_shad_crop`, after the
transposition.  After eight iterations the extents are finite; the value used
for a still-infinite extent is never reached. -/
def tight_shad_crop (e : Extents K) : Mat4 K :=
  let tmax_x := e.tmax_x.unbot' 0
  let tmin_x := e.tmin_x.untop' 0
  let tmax_y := e.tmax_y.unbot' 0
  let tmin_y := e.tmin_y.untop' 0
  let tscale_x := 2 / (tmax_x - tmin_x)
  let tscale_y := 2 / (tmax_y - tmin_y)
  let toffset_x := -0.5 * (tmax_x + tmin_x) * tscale_x
  let toffset_y := -0.5 * (tmax_y + tmin_y) * tscale_y
  let m0 : Mat4 K := mat4_diag 1
  let m1 : Mat4 K := { m0 with c0 := { m0.c0 with x := tscale_x } }
  let m2 : Mat4 K := { m1 with c1 := { m1.c1 with y := tscale_y } }
  let m3 : Mat4 K := { m2 with c0 := { m2.c0 with w := toffset_x } }
  let m4 : Mat4 K := { m3 with c1 := { m3.c1 with w := toffset_y } }
  glm_transpose m4

/-- The else branch (lines 305-336): the pair `(m_proj_matrices[i],
m_crop_matrices[i])` of tight mode. -/
def tight_matrices (near_offset : K) (t_modelview : Mat4 K) (corners : Fin 8 → Vec3 K) :
    Mat4 K × Mat4 K :=
  let t_ortho := tight_ortho near_offset t_modelview corners
  let t_shad_mvp := t_ortho.mul t_modelview
  let t_shad_crop := tight_shad_crop (tight_extents t_shad_mvp corners)
  let t_projection := t_shad_crop.mul t_ortho
  (t_projection, t_projection.mul t_modelview)

end Model

section StableModel

variable {K : Type} [LinearOrderedField K] [FloorRing K]

/-- Lines 256-264: the bounding-sphere radius, rounded up to a multiple of 1/16. -/
def stable_radius (L : Libm K) (corners : Fin 8 → Vec3 K) (center : Vec3 K) : K :=
  let radius := (List.finRange 8).foldl
    (fun (radius : K) (j : Fin 8) => max radius (glm_length L ((corners j).sub center))) 0
  ceilf (radius * 16) / 16

/-- Line 278: the orthographic projection of stable mode. -/
def stable_ortho (near_offset radius : K) : Mat4 K :=
  let vmax : Vec3 K := ⟨radius, radius, radius⟩
  let vmin : Vec3 K := vmax.neg
  let cascade_extents := vmax.sub vmin
  glm_ortho vmin.x vmax.x vmin.y vmax.y (-near_offset) (near_offset + cascade_extents.z)

/-- Lines 275 and 279: the look-at view of stable mode. -/
def stable_view (L : Libm K) (near_offset : K) (light_direction center up : Vec3 K) :
    Mat4 K :=
  let shadow_camera_pos := center.sub (light_direction.scale near_offset)
  glm_lookAt L shadow_camera_pos center up

/-- Lines 284-292: the snapping offset computed from the crop matrix before
snapping. -/
def round_offset (crop : Mat4 K) (shadow_map_size : Int) : Vec4 K :=
  let shadow_origin := crop.mulVec ⟨0, 0, 0, 1⟩
  let shadow_origin := shadow_origin.scale ((shadow_map_size : K) / 2)
  let rounded_origin := glm_round shadow_origin
  let off := rounded_origin.sub shadow_origin
  let off := off.scale (2 / (shadow_map_size : K))
  { off with z := 0, w := 0 }

/-- Lines 294-299: `shadow_proj[3][k] += round_offset[k]`. -/
def snap_proj (ortho : Mat4 K) (off : Vec4 K) : Mat4 K :=
  { ortho with c3 := ⟨ortho.c3.x + off.x, ortho.c3.y + off.y, ortho.c3.z + off.z,
                      ortho.c3.w + off.w⟩ }

/-- The then branch (lines 255-301): the pair `(m_proj_matrices[i],
m_crop_matrices[i])` of stable mode. -/
def stable_matrices (L : Libm K) (near_offset : K) (shadow_map_size : Int)
    (light_direction up : Vec3 K) (corners : Fin 8 → Vec3 K) (center : Vec3 K) :
    Mat4 K × Mat4 K :=
  let radius := stable_radius L corners center
  let ortho := stable_ortho near_offset radius
  let view := stable_view L near_offset light_direction center up
  let crop := ortho.mul view
  let shadow_proj := snap_proj ortho (round_offset crop shadow_map_size)
  (shadow_proj, shadow_proj.mul view)

/-- Both branches of the loop body: the matrices stored for a split with the
given corners (the center is recomputed from the corners first). -/
def crop_matrices_of (L : Libm K) (stable_pssm : Bool) (near_offset : K)
    (shadow_map_size : Int) (light_direction : Vec3 K) (t_modelview : Mat4 K)
    (camera : Camera K) (corners : Fin 8 → Vec3 K) : Mat4 K × Mat4 K :=
  if stable_pssm then
    stable_matrices L near_offset shadow_map_size light_direction camera.m_up
      corners (split_center corners)
  else
    tight_matrices near_offset t_modelview corners

/-- Body of the loop of `CSM::update_crop_matrices`: it stores the center in
the split and the two matrices in `m_proj_matrices[i]`, `m_crop_matrices[i]`. -/
def update_crop_matrices_body (L : Libm K) (t_modelview : Mat4 K) (camera : Camera K)
    (i : Int) (s : CSM K) : Option (CSM K) :=
  if inBounds i then
    let corners := (s.m_splits i).corners
    let pc := crop_matrices_of L s.m_stable_pssm s.m_near_offset s.m_shadow_map_size
      s.m_light_direction t_modelview camera corners
    some { s with
      m_splits := Function.update s.m_splits i
        { s.m_splits i with center := split_center corners }
      m_proj_matrices := Function.update s.m_proj_matrices i pc.1
      m_crop_matrices := Function.update s.m_crop_matrices i pc.2 }
  else none

/-- The method `CSM::update_crop_matrices`. -/
def update_crop_matrices (L : Libm K) (t_modelview : Mat4 K) (camera : Camera K)
    (s : CSM K) : Option (CSM K) :=
  forLoop (update_crop_matrices_body L t_modelview camera) 0 s.m_split_count.toNat s

/-! ### `CSM::update_texture_matrices`, `CSM::update_far_bounds` -/

/-- Body of the loop of `CSM::update_texture_matrices`. -/
def update_texture_matrices_body (i : Int) (s : CSM K) : Option (CSM K) :=
  if inBounds i then
    some { s with
      m_texture_matrices :=
        Function.update s.m_texture_matrices i (s.m_bias.mul (s.m_crop_matrices i)) }
  else none

/-- The method `CSM::update_texture_matrices`. -/
def update_texture_matrices (s : CSM K) : Option (CSM K) :=
  forLoop update_texture_matrices_body 0 s.m_split_count.toNat s

/-- Lines 184-187: the far bound of a split with the given far plane. -/
def far_bound_of (projection : Mat4 K) (far_plane : K) : K :=
  let pos := projection.mulVec ⟨0, 0, -far_plane, 1⟩
  let ndc := pos.divs pos.w
  ndc.z * 0.5 + 0.5

/-- Body of the loop of `CSM::update_far_bounds`. -/
def update_far_bounds_body (camera : Camera K) (i : Int) (s : CSM K) : Option (CSM K) :=
  if inBounds i then
    some { s with
      m_far_bounds := Function.update s.m_far_bounds i
        (far_bound_of camera.m_projection (s.m_splits i).far_plane) }
  else none

/-- The method `CSM::update_far_bounds`. -/
def update_far_bounds (camera : Camera K) (s : CSM K) : Option (CSM K) :=
  forLoop (update_far_bounds_body camera) 0 s.m_split_count.toNat s

/-! ### `CSM::update`, `CSM::initialize` -/

/-- Lines 88-99: the light view matrix. -/
def light_view_of (L : Libm K) (stable_pssm : Bool) (camera : Camera K) (dir : Vec3 K) :
    Mat4 K :=
  let dir := glm_normalize L dir
  let center := camera.m_position.add (camera.m_forward.scale 50)
  let light_pos := center.sub (dir.scale ((camera.m_far - camera.m_near) / 2))
  let up := if stable_pssm then camera.m_up else camera.m_right
  glm_lookAt L light_pos center up

/-- The method `CSM::update`. -/
def update (L : Libm K) (camera : Camera K) (dir : Vec3 K) (s : CSM K) : Option (CSM K) :=
  let modelview := light_view_of L s.m_stable_pssm camera dir
  let s0 : CSM K :=
    { s with m_light_direction := glm_normalize L dir, m_light_view := modelview }
  (update_splits L camera s0).bind fun s1 =>
  (update_frustum_corners L camera s1).bind fun s2 =>
  (update_crop_matrices L modelview camera s2).bind fun s3 =>
  (update_texture_matrices s3).bind fun s4 =>
  update_far_bounds camera s4

/-- The bias matrix of lines 67-70 (columns as written in the source). -/
def bias_matrix : Mat4 K :=
  ⟨⟨0.5, 0, 0, 0⟩, ⟨0, 0.5, 0, 0⟩, ⟨0, 0, 0.5, 0⟩, ⟨0.5, 0.5, 0.5, 1⟩⟩

/-- Body of the loop of lines 47-51: the slot `m_shadow_fbos[i]` is written;
its content (a GPU resource) is not modelled, only the subscript. -/
def init_fbo_body (i : Int) (s : CSM K) : Option (CSM K) :=
  if inBounds i then some s else none

/-- Body of the loop of lines 61-65. -/
def init_fov_body (camera_fov ratio : K) (i : Int) (s : CSM K) : Option (CSM K) :=
  s.modifySplit i (fun t => { t with fov := camera_fov / 57.2957795 + 0.2, ratio := ratio })

/-- The method `CSM::initialize` (GPU resource handling left out). -/
def CSM_initialize (L : Libm K) (lambda near_offset : K) (split_count shadow_map_size : Int)
    (camera : Camera K) (width height : Int) (dir : Vec3 K) (s : CSM K) : Option (CSM K) :=
  let s0 : CSM K :=
    { s with m_lambda := lambda, m_near_offset := near_offset,
             m_split_count := split_count, m_shadow_map_size := shadow_map_size }
  (forLoop init_fbo_body 0 s0.m_split_count.toNat s0).bind fun s1 =>
  let camera_fov := camera.m_fov
  let ratio := (width : K) / (height : K)
  (forLoop (init_fov_body camera_fov ratio) 0 s1.m_split_count.toNat s1).bind fun s2 =>
  update L camera dir { s2 with m_bias := bias_matrix }

end StableModel

/-! ## Closed forms of the loops

Each loop writes slot `i` in iteration `i`; the functions below give the
arrays after the iterations `i, ..., i + n - 1`.  They are proved equal to the
loops of the model in the theorems section. -/

section Closed

variable {K : Type} [LinearOrderedField K]

/-- The array `m_splits` after the iterations `i, ..., i + n - 1` of the loop
of `update_splits`. -/
def splits_after_loop (L : Libm K) (camera : Camera K) (lambda : K) (split_count : Int)
    (i : Int) (n : Nat) (m : Int → FrustumSplit K) : Int → FrustumSplit K :=
  fun j =>
    { m j with
      near_plane :=
        if i ≤ j ∧ j < i + n then t_near L lambda camera.m_near camera.m_far split_count j
        else (m j).near_plane
      far_plane :=
        if i - 1 ≤ j ∧ j < i + n - 1 then
          t_near L lambda camera.m_near camera.m_far split_count (j + 1) * 1.005
        else (m j).far_plane }

/-- One iteration of the loop of `update_splits`, both subscripts in range. -/
def splits_step (L : Libm K) (camera : Camera K) (i : Int) (s : CSM K) : CSM K :=
  let tn := t_near L s.m_lambda camera.m_near camera.m_far s.m_split_count i
  let m1 := Function.update s.m_splits i { s.m_splits i with near_plane := tn }
  { s with m_splits := Function.update m1 (i - 1) { m1 (i - 1) with far_plane := tn * 1.005 } }

/-- The array `m_splits` after `update_splits`. -/
def splits_after (L : Libm K) (camera : Camera K) (s : CSM K) : Int → FrustumSplit K :=
  fun j =>
    { s.m_splits j with
      near_plane :=
        if j = 0 then camera.m_near
        else if 1 ≤ j ∧ j < s.m_split_count then
          t_near L s.m_lambda camera.m_near camera.m_far s.m_split_count j
        else (s.m_splits j).near_plane
      far_plane :=
        if j = s.m_split_count - 1 then camera.m_far
        else if 0 ≤ j ∧ j < s.m_split_count - 1 then
          t_near L s.m_lambda camera.m_near camera.m_far s.m_split_count (j + 1) * 1.005
        else (s.m_splits j).far_plane }

/-- The local `right` of `update_frustum_corners` in the iteration of split
`j`: the cross product `view_dir x (0,1,0)`, normalised `j + 1` times. -/
def right_at (L : Libm K) (camera : Camera K) (j : Nat) : Vec3 K :=
  (glm_normalize L)^[j + 1] (glm_cross camera.m_forward ⟨0, 1, 0⟩)

/-- The local `up` of `update_frustum_corners` in the iteration of split `j`. -/
def up_at (L : Libm K) (camera : Camera K) (j : Nat) : Vec3 K :=
  glm_normalize L (glm_cross (right_at L camera j) camera.m_forward)

/-- The array `m_splits` after the iterations `i, ..., i + n - 1` of the loop
of `update_frustum_corners`, entered with the local `right`. -/
def corners_after_loop (L : Libm K) (camera : Camera K) (right : Vec3 K) (i : Int) (n : Nat)
    (m : Int → FrustumSplit K) : Int → FrustumSplit K :=
  fun j =>
    if i ≤ j ∧ j < i + n then
      { m j with
        corners :=
          let r := (glm_normalize L)^[(j - i).toNat + 1] right
          frustum_corners L camera.m_position camera.m_forward r
            (glm_normalize L (glm_cross r camera.m_forward)) (m j) }
    else m j

/-- The array `m_splits` after `update_frustum_corners`. -/
def corners_after (L : Libm K) (camera : Camera K) (s : CSM K) : Int → FrustumSplit K :=
  fun j =>
    if 0 ≤ j ∧ j < s.m_split_count then
      { s.m_splits j with
        corners :=
          frustum_corners L camera.m_position camera.m_forward (right_at L camera j.toNat)
            (up_at L camera j.toNat) (s.m_splits j) }
    else s.m_splits j

end Closed

section ClosedStable

variable {K : Type} [LinearOrderedField K] [FloorRing K]

/-- The state after the iterations `i, ..., i + n - 1` of the loop of
`update_crop_matrices`. -/
def crop_after_loop (L : Libm K) (t_modelview : Mat4 K) (camera : Camera K) (i : Int)
    (n : Nat) (s : CSM K) : CSM K :=
  { s with
    m_splits := fun j =>
      if i ≤ j ∧ j < i + n then
        { s.m_splits j with center := split_center (s.m_splits j).corners }
      else s.m_splits j
    m_proj_matrices := fun j =>
      if i ≤ j ∧ j < i + n then
        (crop_matrices_of L s.m_stable_pssm s.m_near_offset s.m_shadow_map_size
          s.m_light_direction t_modelview camera (s.m_splits j).corners).1
      else s.m_proj_matrices j
    m_crop_matrices := fun j =>
      if i ≤ j ∧ j < i + n then
        (crop_matrices_of L s.m_stable_pssm s.m_near_offset s.m_shadow_map_size
          s.m_light_direction t_modelview camera (s.m_splits j).corners).2
      else s.m_crop_matrices j }

/-- The state after the iterations `i, ..., i + n - 1` of the loop of
`update_texture_matrices`. -/
def texture_after_loop (i : Int) (n : Nat) (s : CSM K) : CSM K :=
  { s with
    m_texture_matrices := fun j =>
      if i ≤ j ∧ j < i + n then s.m_bias.mul (s.m_crop_matrices j)
      else s.m_texture_matrices j }

/-- The state after the iterations `i, ..., i + n - 1` of the loop of
`update_far_bounds`. -/
def far_bounds_after_loop (camera : Camera K) (i : Int) (n : Nat) (s : CSM K) : CSM K :=
  { s with
    m_far_bounds := fun j =>
      if i ≤ j ∧ j < i + n then far_bound_of camera.m_projection (s.m_splits j).far_plane
      else s.m_far_bounds j }

/-- The state after `update`, in closed form. -/
def update_closed (L : Libm K) (camera : Camera K) (dir : Vec3 K) (s : CSM K) : CSM K :=
  let modelview := light_view_of L s.m_stable_pssm camera dir
  let n := s.m_split_count.toNat
  let s0 : CSM K :=
    { s with m_light_direction := glm_normalize L dir, m_light_view := modelview }
  let s1 : CSM K := { s0 with m_splits := splits_after L camera s0 }
  let s2 : CSM K := { s1 with m_splits := corners_after L camera s1 }
  let s3 := crop_after_loop L modelview camera 0 n s2
  let s4 := texture_after_loop 0 n s3
  far_bounds_after_loop camera 0 n s4

end ClosedStable

/-- The laws of the real power function `powf(r, s) = r ^ s` that the
theorems about the split scheme use. -/
structure PowfLaws {K : Type} [LinearOrderedField K] (powf : K → K → K) : Prop where
  powf_zero : ∀ r, 0 < r → powf r 0 = 1
  powf_one : ∀ r, 0 < r → powf r 1 = r
  powf_mono : ∀ r s t, 1 ≤ r → s ≤ t → powf r s ≤ powf r t
  powf_strict : ∀ r s t, 1 < r → s < t → powf r s < powf r t

/-- A state with the given configuration and every array slot zero. -/
def blank_state (K : Type) [LinearOrderedField K] (lambda near_offset : K)
    (split_count shadow_map_size : Int) (stable : Bool) : CSM K :=
  { m_lambda := lambda
    m_near_offset := near_offset
    m_split_count := split_count
    m_shadow_map_size := shadow_map_size
    m_stable_pssm := stable
    m_bias := mat4_diag 0
    m_light_view := mat4_diag 0
    m_light_direction := ⟨0, 0, 0⟩
    m_splits := fun _ => ⟨0, 0, 0, 0, ⟨0, 0, 0⟩, fun _ => ⟨0, 0, 0⟩⟩
    m_proj_matrices := fun _ => mat4_diag 0
    m_crop_matrices := fun _ => mat4_diag 0
    m_texture_matrices := fun _ => mat4_diag 0
    m_far_bounds := fun _ => 0 }

/-- A camera at the origin looking down `-z`, with the given planes and
projection matrix. -/
def axis_camera (K : Type) [LinearOrderedField K] (near far fov : K) (projection : Mat4 K) :
    Camera K :=
  { m_position := ⟨0, 0, 0⟩
    m_forward := ⟨0, 0, -1⟩
    m_up := ⟨0, 1, 0⟩
    m_right := ⟨1, 0, 0⟩
    m_near := near
    m_far := far
    m_fov := fov
    m_projection := projection }

/-- The corners of the frustum slice between the planes `z = -1` and `z = -2`
of a camera at the origin looking down `-z` with a 90 degree field of view, in
the order of `update_frustum_corners`. -/
def slice_corners (K : Type) [LinearOrderedField K] : Fin 8 → Vec3 K :=
  ![⟨-1, -1, -1⟩, ⟨-1, 1, -1⟩, ⟨1, 1, -1⟩, ⟨1, -1, -1⟩,
    ⟨-2, -2, -2⟩, ⟨-2, 2, -2⟩, ⟨2, 2, -2⟩, ⟨2, -2, -2⟩]

/-- A one-split state whose split 0 holds `slice_corners`. -/
def slice_state (K : Type) [LinearOrderedField K] (near_offset : K) (shadow_map_size : Int)
    (stable : Bool) : CSM K :=
  { blank_state K 0 near_offset 1 shadow_map_size stable with
    m_splits := fun _ => ⟨1, 2, 1, 1, ⟨0, 0, 0⟩, slice_corners K⟩ }

/-- The exponent law of the real power function:
`powf(r, s + t) = powf(r, s) * powf(r, t)` for `r > 0`. -/
def PowfAdd {K : Type} [LinearOrderedField K] (powf : K → K → K) : Prop :=
  ∀ r s t, 0 < r → powf r (s + t) = powf r s * powf r t

section ClosedInitialize

variable {K : Type} [LinearOrderedField K] [FloorRing K]

/-- The array `m_splits` after the iterations `i, ..., i + n - 1` of the loop
of lines 61-65 of `initialize`. -/
def fov_after_loop (camera_fov ratio : K) (i : Int) (n : Nat) (m : Int → FrustumSplit K) :
    Int → FrustumSplit K :=
  fun j =>
    if i ≤ j ∧ j < i + n then
      { m j with fov := camera_fov / 57.2957795 + 0.2, ratio := ratio }
    else m j

/-- The state on which `initialize` calls `update`. -/
def initialize_pre (lambda near_offset : K) (split_count shadow_map_size : Int)
    (camera : Camera K) (width height : Int) (s : CSM K) : CSM K :=
  { s with
    m_lambda := lambda
    m_near_offset := near_offset
    m_split_count := split_count
    m_shadow_map_size := shadow_map_size
    m_splits := fov_after_loop camera.m_fov ((width : K) / (height : K)) 0 split_count.toNat
      s.m_splits
    m_bias := bias_matrix }

end ClosedInitialize

/-- The laws of the real square root that the theorems about lengths and
normalised vectors use. -/
structure SqrtLaws {K : Type} [LinearOrderedField K] (sqrt : K → K) : Prop where
  sqrt_nonneg : ∀ x, 0 ≤ sqrt x
  mul_self_sqrt : ∀ x, 0 ≤ x → sqrt x * sqrt x = x

section StableDefs

variable {K : Type} [LinearOrderedField K] [FloorRing K]

/-- The three divisors of `glm::ortho(left, right, bottom, top, zNear, zFar)`:
`right - left` (entries `[0][0]`, `[3][0]`), `top - bottom` (entries `[1][1]`,
`[3][1]`) and `zFar - zNear` (entries `[2][2]`, `[3][2]`). -/
def glm_ortho_divisors (left right bottom top zNear zFar : K) : K × K × K :=
  (right - left, top - bottom, zFar - zNear)

/-- The divisors of the `glm::ortho` call of line 278, for the given radius. -/
def stable_ortho_divisors (near_offset radius : K) : K × K × K :=
  let vmax : Vec3 K := ⟨radius, radius, radius⟩
  let vmin : Vec3 K := vmax.neg
  let cascade_extents := vmax.sub vmin
  glm_ortho_divisors vmin.x vmax.x vmin.y vmax.y (-near_offset) (near_offset + cascade_extents.z)

/-- Line 282: the crop matrix `ortho * view` of stable mode before snapping. -/
def stable_pre_crop (L : Libm K) (near_offset : K) (light_direction up : Vec3 K)
    (corners : Fin 8 → Vec3 K) : Mat4 K :=
  (stable_ortho near_offset (stable_radius L corners (split_center corners))).mul
    (stable_view L near_offset light_direction (split_center corners) up)

end StableDefs

section DivisorDefs

variable {K : Type} [LinearOrderedField K]

/-- The three divisors of the call
`glm::ortho(-1, 1, -1, 1, -m_near_offset, -tmin.z)` of line 305. -/
def tight_ortho_divisors (near_offset : K) (t_modelview : Mat4 K) (corners : Fin 8 → Vec3 K) :
    K × K × K :=
  glm_ortho_divisors (-1) 1 (-1) 1 (-near_offset) (-(light_z_range t_modelview corners).1)

/-- The divisors of `update_splits`: `nd` in `ratio = fd / nd` (line 114) and
`(float)m_split_count` in `si = i / (float)m_split_count` (line 119). -/
def update_splits_divisors (camera : Camera K) (s : CSM K) : K × K :=
  (camera.m_near, (s.m_split_count : K))

/-- The length by which the first `glm::normalize(right)` of
`update_frustum_corners` divides: that of `right = cross(view_dir, up)` with
`up = (0, 1, 0)`. -/
def frustum_right_divisor (L : Libm K) (camera : Camera K) : K :=
  glm_length L (glm_cross camera.m_forward ⟨0, 1, 0⟩)

/-- The view `glm::lookAt((0,0,0), (0,0,1), (0,1,0))` of a light at the origin
looking along `+z`. -/
def back_view (K : Type) [LinearOrderedField K] : Mat4 K :=
  ⟨⟨-1, 0, 0, 0⟩, ⟨0, 1, 0, 0⟩, ⟨0, 0, -1, 0⟩, ⟨0, 0, 0, 1⟩⟩

/-- The view `glm::lookAt((0,0,-3), (0,0,-4), (0,1,0))` of a light at
`(0,0,-3)` looking along `-z`. -/
def behind_view (K : Type) [LinearOrderedField K] : Mat4 K :=
  ⟨⟨1, 0, 0, 0⟩, ⟨0, 1, 0, 0⟩, ⟨0, 0, 1, 0⟩, ⟨0, 0, 3, 1⟩⟩

end DivisorDefs

/-! ## Theorems -/

section LoopLemmas

variable {K : Type}

theorem inBounds_iff (i : Int) : inBounds i ↔ (0 ≤ i ∧ i < 8) := Iff.rfl

theorem modifySplit_eq (s : CSM K) (i : Int) (f : FrustumSplit K → FrustumSplit K)
    (h0 : 0 ≤ i) (h8 : i < 8) :
    s.modifySplit i f =
      some { s with m_splits := Function.update s.m_splits i (f (s.m_splits i)) } := by
  have h : inBounds i := ⟨h0, h8⟩
  simp [CSM.modifySplit, h]

theorem modifySplit_none (s : CSM K) (i : Int) (f : FrustumSplit K → FrustumSplit K)
    (h : ¬ (0 ≤ i ∧ i < 8)) : s.modifySplit i f = none := by
  have h1 : ¬ inBounds i := h
  simp [CSM.modifySplit, h1]

variable [LinearOrderedField K]

theorem update_splits_body_eq (L : Libm K) (camera : Camera K) (i : Int) (s : CSM K)
    (h1 : 1 ≤ i) (h8 : i < 8) :
    update_splits_body L camera i s = some (splits_step L camera i s) := by
  dsimp only [update_splits_body, splits_step]
  rw [modifySplit_eq _ _ _ (by omega) (by omega), Option.some_bind,
    modifySplit_eq _ _ _ (by omega) (by omega)]

theorem update_splits_loop (L : Libm K) (camera : Camera K) (n : Nat) :
    ∀ (i : Int) (s : CSM K), 1 ≤ i → i + n ≤ 8 →
      forLoop (update_splits_body L camera) i n s =
        some { s with m_splits :=
          splits_after_loop L camera s.m_lambda s.m_split_count i n s.m_splits } := by
  induction n with
  | zero =>
    intro i s _ _
    simp only [forLoop, Option.some.injEq]
    ext1 <;> try rfl
    funext j
    have h2 : ¬ (i ≤ j ∧ j < i + ((0 : Nat) : Int)) := by omega
    have h3 : ¬ (i - 1 ≤ j ∧ j < i + ((0 : Nat) : Int) - 1) := by omega
    ext1 <;> simp only [splits_after_loop, h2, h3, if_false]
  | succ n ih =>
    intro i s h1 h8
    push_cast at h8
    simp only [forLoop, update_splits_body_eq L camera i s h1 (by omega)]
    rw [ih (i + 1) _ (by omega) (by omega)]
    simp only [Option.some.injEq]
    ext1 <;> try rfl
    funext j
    ext1 <;> simp only [splits_after_loop, splits_step, Function.update_apply] <;>
      split_ifs <;> first | rfl | (exfalso; omega) | (subst_vars; simp)

theorem update_splits_eq (L : Libm K) (camera : Camera K) (s : CSM K)
    (h1 : 1 ≤ s.m_split_count) (h8 : s.m_split_count ≤ 8) :
    update_splits L camera s = some { s with m_splits := splits_after L camera s } := by
  obtain ⟨n, hn⟩ : ∃ n : Nat, s.m_split_count - 1 = (n : Int) :=
    ⟨(s.m_split_count - 1).toNat, by omega⟩
  dsimp only [update_splits]
  rw [modifySplit_eq _ _ _ (by omega) (by omega), Option.some_bind, hn, Int.toNat_ofNat,
    update_splits_loop L camera n 1 _ (by omega) (by omega), Option.some_bind, ← hn,
    modifySplit_eq _ _ _ (by omega) (by omega)]
  simp only [Option.some.injEq]
  ext1 <;> try rfl
  funext j
  ext1 <;> simp only [splits_after_loop, splits_after, Function.update_apply] <;>
    split_ifs <;> first | rfl | (exfalso; omega) | (subst_vars; simp; done) | simp_all

theorem update_frustum_corners_loop (L : Libm K) (camera : Camera K) (n : Nat) :
    ∀ (i : Int) (s : CSM K) (right : Vec3 K), 0 ≤ i → i + n ≤ 8 →
      forLoop (update_frustum_corners_body L camera) i n (s, right) =
        some ({ s with m_splits := corners_after_loop L camera right i n s.m_splits },
          (glm_normalize L)^[n] right) := by
  induction n with
  | zero =>
    intro i s right _ _
    simp only [forLoop, Option.some.injEq, Function.iterate_zero, id_eq, Prod.mk.injEq,
      and_true]
    ext1 <;> try rfl
    funext j
    have h2 : ¬ (i ≤ j ∧ j < i + ((0 : Nat) : Int)) := by omega
    simp only [corners_after_loop, h2, if_false]
  | succ n ih =>
    intro i s right h0 h8
    push_cast at h8
    have hb : update_frustum_corners_body L camera i (s, right) =
        some ({ s with m_splits := corners_after_loop L camera right i 1 s.m_splits },
          glm_normalize L right) := by
      dsimp only [update_frustum_corners_body]
      rw [modifySplit_eq _ _ _ (by omega) (by omega), Option.map_some']
      simp only [Option.some.injEq, Prod.mk.injEq, and_true]
      ext1 <;> try rfl
      funext j
      simp only [corners_after_loop, Function.update_apply, Nat.cast_one]
      have h2 : (i ≤ j ∧ j < i + 1) ↔ j = i := by omega
      simp only [h2]
      split_ifs with h
      · subst h; simp
      · rfl
    simp only [forLoop, hb]
    rw [ih (i + 1) _ _ (by omega) (by omega)]
    simp only [Option.some.injEq, Prod.mk.injEq, Function.iterate_succ, Function.comp_apply,
      and_true]
    ext1 <;> try rfl
    funext j
    simp only [corners_after_loop, Nat.cast_add, Nat.cast_one]
    by_cases hj : j = i
    · subst hj
      have h2 : ¬ (j + 1 ≤ j ∧ j < j + 1 + (n : Int)) := by omega
      have h3 : j ≤ j ∧ j < j + ((n : Int) + 1) := by omega
      have h4 : j ≤ j ∧ j < j + 1 := by omega
      rw [if_neg h2, if_pos h3, if_pos h4]
    · have h4 : ¬ (i ≤ j ∧ j < i + 1) := by omega
      by_cases hr : i + 1 ≤ j ∧ j < i + 1 + (n : Int)
      · have h3 : i ≤ j ∧ j < i + ((n : Int) + 1) := by omega
        have h5 : (j - i).toNat = (j - (i + 1)).toNat + 1 := by omega
        rw [if_pos hr, if_pos h3, if_neg h4, h5]
        simp only [Function.iterate_succ, Function.comp_apply]
      · have h3 : ¬ (i ≤ j ∧ j < i + ((n : Int) + 1)) := by omega
        rw [if_neg hr, if_neg h3, if_neg h4]

theorem update_frustum_corners_eq (L : Libm K) (camera : Camera K) (s : CSM K)
    (h8 : s.m_split_count ≤ 8) :
    update_frustum_corners L camera s =
      some { s with m_splits := corners_after L camera s } := by
  dsimp only [update_frustum_corners]
  rw [update_frustum_corners_loop L camera _ 0 s _ le_rfl (by omega), Option.map_some']
  simp only [Option.some.injEq]
  ext1 <;> try rfl
  funext j
  simp only [corners_after_loop, corners_after, right_at, up_at]
  have h2 : (0 ≤ j ∧ j < 0 + (s.m_split_count.toNat : Int)) ↔ (0 ≤ j ∧ j < s.m_split_count) := by
    omega
  simp only [h2, sub_zero]

end LoopLemmas

section LoopLemmasStable

variable {K : Type} [LinearOrderedField K] [FloorRing K]

theorem update_crop_matrices_loop (L : Libm K) (t_modelview : Mat4 K) (camera : Camera K)
    (n : Nat) :
    ∀ (i : Int) (s : CSM K), 0 ≤ i → i + n ≤ 8 →
      forLoop (update_crop_matrices_body L t_modelview camera) i n s =
        some (crop_after_loop L t_modelview camera i n s) := by
  induction n with
  | zero =>
    intro i s _ _
    simp only [forLoop, Option.some.injEq]
    have h2 : ∀ j : Int, ¬ (i ≤ j ∧ j < i + ((0 : Nat) : Int)) := fun j => by omega
    ext1 <;> simp only [crop_after_loop, h2, if_false]
  | succ n ih =>
    intro i s h0 h8
    push_cast at h8
    have hb : inBounds i := ⟨h0, by show i < 8; omega⟩
    simp only [forLoop, update_crop_matrices_body, hb, if_true]
    rw [ih (i + 1) _ (by omega) (by omega)]
    simp only [Option.some.injEq]
    ext1 <;> try rfl
    all_goals
      funext j
      simp only [crop_after_loop, Function.update_apply, Nat.cast_add, Nat.cast_one]
      by_cases hj : j = i
      · subst hj
        have h2 : ¬ (j + 1 ≤ j ∧ j < j + 1 + (n : Int)) := by omega
        have h3 : j ≤ j ∧ j < j + ((n : Int) + 1) := by omega
        simp only [h2, h3, if_true, if_false, and_self]
      · have h2 : (i + 1 ≤ j ∧ j < i + 1 + (n : Int)) ↔ (i ≤ j ∧ j < i + ((n : Int) + 1)) := by
          omega
        simp only [h2, hj, if_false]

theorem update_texture_matrices_loop (n : Nat) :
    ∀ (i : Int) (s : CSM K), 0 ≤ i → i + n ≤ 8 →
      forLoop update_texture_matrices_body i n s = some (texture_after_loop i n s) := by
  induction n with
  | zero =>
    intro i s _ _
    simp only [forLoop, Option.some.injEq]
    have h2 : ∀ j : Int, ¬ (i ≤ j ∧ j < i + ((0 : Nat) : Int)) := fun j => by omega
    ext1 <;> simp only [texture_after_loop, h2, if_false]
  | succ n ih =>
    intro i s h0 h8
    push_cast at h8
    have hb : inBounds i := ⟨h0, by show i < 8; omega⟩
    simp only [forLoop, update_texture_matrices_body, hb, if_true]
    rw [ih (i + 1) _ (by omega) (by omega)]
    simp only [Option.some.injEq]
    ext1 <;> try rfl
    funext j
    simp only [texture_after_loop, Function.update_apply, Nat.cast_add, Nat.cast_one]
    by_cases hj : j = i
    · subst hj
      have h2 : ¬ (j + 1 ≤ j ∧ j < j + 1 + (n : Int)) := by omega
      have h3 : j ≤ j ∧ j < j + ((n : Int) + 1) := by omega
      simp only [h2, h3, if_true, if_false, and_self]
    · have h2 : (i + 1 ≤ j ∧ j < i + 1 + (n : Int)) ↔ (i ≤ j ∧ j < i + ((n : Int) + 1)) := by
        omega
      simp only [h2, hj, if_false]

theorem update_far_bounds_loop (camera : Camera K) (n : Nat) :
    ∀ (i : Int) (s : CSM K), 0 ≤ i → i + n ≤ 8 →
      forLoop (update_far_bounds_body camera) i n s =
        some (far_bounds_after_loop camera i n s) := by
  induction n with
  | zero =>
    intro i s _ _
    simp only [forLoop, Option.some.injEq]
    have h2 : ∀ j : Int, ¬ (i ≤ j ∧ j < i + ((0 : Nat) : Int)) := fun j => by omega
    ext1 <;> simp only [far_bounds_after_loop, h2, if_false]
  | succ n ih =>
    intro i s h0 h8
    push_cast at h8
    have hb : inBounds i := ⟨h0, by show i < 8; omega⟩
    simp only [forLoop, update_far_bounds_body, hb, if_true]
    rw [ih (i + 1) _ (by omega) (by omega)]
    simp only [Option.some.injEq]
    ext1 <;> try rfl
    funext j
    simp only [far_bounds_after_loop, Function.update_apply, Nat.cast_add, Nat.cast_one]
    by_cases hj : j = i
    · subst hj
      have h2 : ¬ (j + 1 ≤ j ∧ j < j + 1 + (n : Int)) := by omega
      have h3 : j ≤ j ∧ j < j + ((n : Int) + 1) := by omega
      simp only [h2, h3, if_true, if_false, and_self]
    · have h2 : (i + 1 ≤ j ∧ j < i + 1 + (n : Int)) ↔ (i ≤ j ∧ j < i + ((n : Int) + 1)) := by
        omega
      simp only [h2, hj, if_false]

theorem update_crop_matrices_eq (L : Libm K) (t_modelview : Mat4 K) (camera : Camera K)
    (s : CSM K) (h8 : s.m_split_count ≤ 8) :
    update_crop_matrices L t_modelview camera s =
      some (crop_after_loop L t_modelview camera 0 s.m_split_count.toNat s) :=
  update_crop_matrices_loop L t_modelview camera _ 0 s le_rfl (by omega)

theorem update_texture_matrices_eq (s : CSM K) (h8 : s.m_split_count ≤ 8) :
    update_texture_matrices s = some (texture_after_loop 0 s.m_split_count.toNat s) :=
  update_texture_matrices_loop _ 0 s le_rfl (by omega)

theorem update_far_bounds_eq (camera : Camera K) (s : CSM K) (h8 : s.m_split_count ≤ 8) :
    update_far_bounds camera s = some (far_bounds_after_loop camera 0 s.m_split_count.toNat s) :=
  update_far_bounds_loop camera _ 0 s le_rfl (by omega)

theorem update_eq (L : Libm K) (camera : Camera K) (dir : Vec3 K) (s : CSM K)
    (h1 : 1 ≤ s.m_split_count) (h8 : s.m_split_count ≤ 8) :
    update L camera dir s = some (update_closed L camera dir s) := by
  simp only [update, update_splits_eq, update_frustum_corners_eq, update_crop_matrices_eq,
    update_texture_matrices_eq, update_far_bounds_eq, Option.some_bind, h1, h8,
    crop_after_loop, texture_after_loop]
  rfl

theorem in_range_iff (c j : Int) : (0 ≤ j ∧ j < 0 + (c.toNat : Int)) ↔ (0 ≤ j ∧ j < c) := by
  omega

theorem uc_splits (L : Libm K) (camera : Camera K) (dir : Vec3 K) (s : CSM K) (j : Int) :
    (update_closed L camera dir s).m_splits j =
      if 0 ≤ j ∧ j < s.m_split_count then
        { splits_after L camera s j with
          corners := frustum_corners L camera.m_position camera.m_forward
            (right_at L camera j.toNat) (up_at L camera j.toNat) (splits_after L camera s j)
          center := split_center (frustum_corners L camera.m_position camera.m_forward
            (right_at L camera j.toNat) (up_at L camera j.toNat) (splits_after L camera s j)) }
      else splits_after L camera s j := by
  simp only [update_closed, crop_after_loop, texture_after_loop, far_bounds_after_loop,
      corners_after, in_range_iff]
  split_ifs <;> rfl

theorem uc_proj (L : Libm K) (camera : Camera K) (dir : Vec3 K) (s : CSM K) (j : Int) :
    (update_closed L camera dir s).m_proj_matrices j =
      if 0 ≤ j ∧ j < s.m_split_count then
        (crop_matrices_of L s.m_stable_pssm s.m_near_offset s.m_shadow_map_size
          (glm_normalize L dir) (light_view_of L s.m_stable_pssm camera dir) camera
          ((update_closed L camera dir s).m_splits j).corners).1
      else s.m_proj_matrices j := by
  simp only [update_closed, crop_after_loop, texture_after_loop, far_bounds_after_loop,
      corners_after, in_range_iff]
  split_ifs <;> rfl

theorem uc_crop (L : Libm K) (camera : Camera K) (dir : Vec3 K) (s : CSM K) (j : Int) :
    (update_closed L camera dir s).m_crop_matrices j =
      if 0 ≤ j ∧ j < s.m_split_count then
        (crop_matrices_of L s.m_stable_pssm s.m_near_offset s.m_shadow_map_size
          (glm_normalize L dir) (light_view_of L s.m_stable_pssm camera dir) camera
          ((update_closed L camera dir s).m_splits j).corners).2
      else s.m_crop_matrices j := by
  simp only [update_closed, crop_after_loop, texture_after_loop, far_bounds_after_loop,
      corners_after, in_range_iff]
  split_ifs <;> rfl

theorem uc_texture (L : Libm K) (camera : Camera K) (dir : Vec3 K) (s : CSM K) (j : Int) :
    (update_closed L camera dir s).m_texture_matrices j =
      if 0 ≤ j ∧ j < s.m_split_count then
        s.m_bias.mul ((update_closed L camera dir s).m_crop_matrices j)
      else s.m_texture_matrices j := by
  simp only [update_closed, crop_after_loop, texture_after_loop, far_bounds_after_loop,
      corners_after, in_range_iff]

theorem uc_far_bounds (L : Libm K) (camera : Camera K) (dir : Vec3 K) (s : CSM K) (j : Int) :
    (update_closed L camera dir s).m_far_bounds j =
      if 0 ≤ j ∧ j < s.m_split_count then
        far_bound_of camera.m_projection ((update_closed L camera dir s).m_splits j).far_plane
      else s.m_far_bounds j := by
  simp only [update_closed, crop_after_loop, texture_after_loop, far_bounds_after_loop,
      corners_after, in_range_iff]

theorem uc_planes (L : Libm K) (camera : Camera K) (dir : Vec3 K) (s : CSM K) (j : Int) :
    ((update_closed L camera dir s).m_splits j).near_plane = (splits_after L camera s j).near_plane ∧
    ((update_closed L camera dir s).m_splits j).far_plane = (splits_after L camera s j).far_plane ∧
    ((update_closed L camera dir s).m_splits j).fov = (s.m_splits j).fov ∧
    ((update_closed L camera dir s).m_splits j).ratio = (s.m_splits j).ratio := by
  rw [uc_splits]
  split_ifs <;> simp [splits_after]

theorem frustum_corners_congr (L : Libm K) (c v r u : Vec3 K) (t t1 : FrustumSplit K)
    (h1 : t.near_plane = t1.near_plane) (h2 : t.far_plane = t1.far_plane)
    (h3 : t.fov = t1.fov) (h4 : t.ratio = t1.ratio) :
    frustum_corners L c v r u t = frustum_corners L c v r u t1 := by
  simp only [frustum_corners, h1, h2, h3, h4]

theorem uc_splits_fixed (L : Libm K) (camera : Camera K) (dir : Vec3 K) (s : CSM K) (j : Int) :
    (update_closed L camera dir (update_closed L camera dir s)).m_splits j =
      (update_closed L camera dir s).m_splits j := by
  obtain ⟨hn, hf, hv, hr⟩ := uc_planes L camera dir s j
  have hc : (update_closed L camera dir s).m_split_count = s.m_split_count := rfl
  have hl : (update_closed L camera dir s).m_lambda = s.m_lambda := rfl
  -- the planes are recomputed to the same values
  have hp1 : (splits_after L camera (update_closed L camera dir s) j).near_plane =
      (splits_after L camera s j).near_plane := by
    simp only [splits_after, hc, hl] at hn ⊢
    split_ifs at hn ⊢ <;> first | rfl | exact hn
  have hp2 : (splits_after L camera (update_closed L camera dir s) j).far_plane =
      (splits_after L camera s j).far_plane := by
    simp only [splits_after, hc, hl] at hf ⊢
    split_ifs at hf ⊢ <;> first | rfl | exact hf
  have hp3 : (splits_after L camera (update_closed L camera dir s) j).fov = (s.m_splits j).fov :=
    hv
  have hp4 : (splits_after L camera (update_closed L camera dir s) j).ratio =
      (s.m_splits j).ratio := hr
  have hfc := frustum_corners_congr L camera.m_position camera.m_forward
    (right_at L camera j.toNat) (up_at L camera j.toNat)
    (splits_after L camera (update_closed L camera dir s) j) (splits_after L camera s j)
    hp1 hp2 hp3 hp4
  rw [uc_splits L camera dir (update_closed L camera dir s), hc, hfc]
  by_cases hj : 0 ≤ j ∧ j < s.m_split_count
  · rw [if_pos hj, uc_splits, if_pos hj]
    ext1 <;> first | exact hp1 | exact hp2 | exact hp3 | exact hp4 | rfl
  · rw [if_neg hj, uc_splits, if_neg hj]
    ext1 <;> first | exact hp1 | exact hp2 | skip
    all_goals simp [splits_after, uc_splits, hj]

theorem update_closed_idem (L : Libm K) (camera : Camera K) (dir : Vec3 K) (s : CSM K) :
    update_closed L camera dir (update_closed L camera dir s) = update_closed L camera dir s := by
  have hc : (update_closed L camera dir s).m_split_count = s.m_split_count := rfl
  have hb : (update_closed L camera dir s).m_bias = s.m_bias := rfl
  have hst : (update_closed L camera dir s).m_stable_pssm = s.m_stable_pssm := rfl
  have hno : (update_closed L camera dir s).m_near_offset = s.m_near_offset := rfl
  have hsz : (update_closed L camera dir s).m_shadow_map_size = s.m_shadow_map_size := rfl
  have hcrop : ∀ j, (update_closed L camera dir (update_closed L camera dir s)).m_crop_matrices j =
      (update_closed L camera dir s).m_crop_matrices j := by
    intro j
    rw [uc_crop L camera dir (update_closed L camera dir s), hc, hst, hno, hsz, uc_splits_fixed]
    by_cases hj : 0 ≤ j ∧ j < s.m_split_count
    · rw [if_pos hj, uc_crop, if_pos hj]
    · rw [if_neg hj]
  apply CSM.ext
  · rfl
  · rfl
  · rfl
  · rfl
  · rfl
  · rfl
  · rfl
  · rfl
  · funext j; exact uc_splits_fixed L camera dir s j
  · funext j
    rw [uc_proj L camera dir (update_closed L camera dir s), hc, hst, hno, hsz, uc_splits_fixed]
    by_cases hj : 0 ≤ j ∧ j < s.m_split_count
    · rw [if_pos hj, uc_proj, if_pos hj]
    · rw [if_neg hj]
  · funext j; exact hcrop j
  · funext j
    rw [uc_texture L camera dir (update_closed L camera dir s), hc, hb, hcrop]
    by_cases hj : 0 ≤ j ∧ j < s.m_split_count
    · rw [if_pos hj, uc_texture, if_pos hj]
    · rw [if_neg hj]
  · funext j
    rw [uc_far_bounds L camera dir (update_closed L camera dir s), hc, uc_splits_fixed]
    by_cases hj : 0 ≤ j ∧ j < s.m_split_count
    · rw [if_pos hj, uc_far_bounds, if_pos hj]
    · rw [if_neg hj]

/-- C8: for every state with `split_count` in 1..8 and every camera and
light direction (in stable mode and in tight mode alike), `update` returns,
and calling it again on the state it produced returns that same state: the
crop matrices, splits, light view, projection matrices, texture matrices and
far bounds are all unchanged by the second call. -/
theorem update_twice (L : Libm K) (camera : Camera K) (dir : Vec3 K) (s : CSM K)
    (h1 : 1 ≤ s.m_split_count) (h8 : s.m_split_count ≤ 8) :
    ∃ s1, update L camera dir s = some s1 ∧ update L camera dir s1 = some s1 := by
  refine ⟨_, update_eq L camera dir s h1 h8, ?_⟩
  rw [update_eq L camera dir (update_closed L camera dir s) h1 h8, update_closed_idem]

theorem update_twice_witness :
    ∃ s1, update ⟨fun r s : ℝ => r ^ s, Real.sqrt, Real.tan⟩
        (axis_camera ℝ 1 100 1 (mat4_diag 1)) ⟨1, -1, 0⟩
        (blank_state ℝ (1 / 2) 1 4 1024 true) = some s1 ∧
      update ⟨fun r s : ℝ => r ^ s, Real.sqrt, Real.tan⟩
        (axis_camera ℝ 1 100 1 (mat4_diag 1)) ⟨1, -1, 0⟩ s1 = some s1 :=
  update_twice _ _ _ _ (by simp [blank_state]) (by simp [blank_state])

end LoopLemmasStable

section SplitScheme

variable {K : Type} [LinearOrderedField K]

theorem real_rpow_laws : PowfLaws (fun r s : ℝ => r ^ s) where
  powf_zero := fun r _ => Real.rpow_zero r
  powf_one := fun r _ => Real.rpow_one r
  powf_mono := fun r _ _ hr hst => Real.rpow_le_rpow_of_exponent_le hr hst
  powf_strict := fun r _ _ hr hst => Real.rpow_lt_rpow_of_exponent_lt hr hst

theorem overlap_eq : (1.005 : K) = 201 / 200 := by norm_num

/-- The blend is monotone in the boundary index. -/
theorem t_near_mono (L : Libm K) (hL : PowfLaws L.powf) (lambda nd fd : K) (n : Int)
    (hl0 : 0 ≤ lambda) (hl1 : lambda ≤ 1) (hnd : 0 < nd) (hfd : nd ≤ fd) (hn : 0 < n)
    (a b : Int) (hab : a ≤ b) : t_near L lambda nd fd n a ≤ t_near L lambda nd fd n b := by
  have hnK : (0 : K) < (n : K) := by exact_mod_cast hn
  have hs : (a : K) / (n : K) ≤ (b : K) / (n : K) :=
    div_le_div_of_nonneg_right (by exact_mod_cast hab) hnK.le
  have hr : 1 ≤ fd / nd := by rw [le_div_iff₀ hnd]; linarith
  have hp := hL.powf_mono (fd / nd) _ _ hr hs
  have h1 : 0 ≤ 1 - lambda := by linarith
  have h2 : 0 ≤ fd - nd := by linarith
  have h3 : nd * L.powf (fd / nd) ((a : K) / (n : K)) ≤ nd * L.powf (fd / nd) ((b : K) / (n : K)) :=
    mul_le_mul_of_nonneg_left hp hnd.le
  have h4 : (fd - nd) * ((a : K) / (n : K)) ≤ (fd - nd) * ((b : K) / (n : K)) :=
    mul_le_mul_of_nonneg_left hs h2
  dsimp only [t_near]
  have h5 := mul_le_mul_of_nonneg_left h3 hl0
  have h6 : (1 - lambda) * (nd + (fd - nd) * ((a : K) / (n : K))) ≤
      (1 - lambda) * (nd + (fd - nd) * ((b : K) / (n : K))) :=
    mul_le_mul_of_nonneg_left (by linarith) h1
  linarith

/-- The blend is strictly monotone in the boundary index when `nd < fd`. -/
theorem t_near_strict (L : Libm K) (hL : PowfLaws L.powf) (lambda nd fd : K) (n : Int)
    (hl0 : 0 ≤ lambda) (hl1 : lambda ≤ 1) (hnd : 0 < nd) (hfd : nd < fd) (hn : 0 < n)
    (a b : Int) (hab : a < b) : t_near L lambda nd fd n a < t_near L lambda nd fd n b := by
  have hnK : (0 : K) < (n : K) := by exact_mod_cast hn
  have hs : (a : K) / (n : K) < (b : K) / (n : K) :=
    div_lt_div_of_pos_right (by exact_mod_cast hab) hnK
  have hr : 1 < fd / nd := by rw [lt_div_iff₀ hnd]; linarith
  have hp := hL.powf_strict (fd / nd) _ _ hr hs
  have h1 : 0 ≤ 1 - lambda := by linarith
  have h2 : 0 < fd - nd := by linarith
  have h3 : nd * L.powf (fd / nd) ((a : K) / (n : K)) < nd * L.powf (fd / nd) ((b : K) / (n : K)) :=
    mul_lt_mul_of_pos_left hp hnd
  have h4 : (fd - nd) * ((a : K) / (n : K)) < (fd - nd) * ((b : K) / (n : K)) :=
    mul_lt_mul_of_pos_left hs h2
  dsimp only [t_near]
  rcases eq_or_lt_of_le hl0 with h0 | h0
  · rw [← h0]
    simp only [zero_mul, sub_zero, one_mul, zero_add]
    linarith
  · have h5 := mul_lt_mul_of_pos_left h3 h0
    have h6 : (1 - lambda) * (nd + (fd - nd) * ((a : K) / (n : K))) ≤
        (1 - lambda) * (nd + (fd - nd) * ((b : K) / (n : K))) :=
      mul_le_mul_of_nonneg_left (by linarith) h1
    linarith

/-- At index 0 the blend is the camera near plane. -/
theorem t_near_zero (L : Libm K) (hL : PowfLaws L.powf) (lambda nd fd : K) (n : Int)
    (hnd : 0 < nd) (hfd : nd ≤ fd) : t_near L lambda nd fd n 0 = nd := by
  have hr : 0 < fd / nd := div_pos (by linarith) hnd
  dsimp only [t_near]
  rw [Int.cast_zero, zero_div, hL.powf_zero _ hr]
  ring

/-- At index `split_count` the blend is the camera far plane. -/
theorem t_near_last (L : Libm K) (hL : PowfLaws L.powf) (lambda nd fd : K) (n : Int)
    (hnd : 0 < nd) (hfd : nd ≤ fd) (hn : 0 < n) : t_near L lambda nd fd n n = fd := by
  have hr : 0 < fd / nd := div_pos (by linarith) hnd
  have hnK : (n : K) ≠ 0 := by exact_mod_cast hn.ne'
  dsimp only [t_near]
  rw [div_self hnK, hL.powf_one _ hr, mul_div_cancel₀ _ hnd.ne']
  ring

/-- C2: for every `split_count` in 1..8 and every camera near/far and lambda,
`update_splits` returns, the first split's `near_plane` is `camera.near` and
the last split's `far_plane` (index `split_count - 1`) is `camera.far` itself,
without the 1.005 overlap. -/
theorem update_splits_first_near_last_far (L : Libm K) (camera : Camera K) (s : CSM K)
    (h1 : 1 ≤ s.m_split_count) (h8 : s.m_split_count ≤ 8) :
    ∃ s1, update_splits L camera s = some s1 ∧
      (s1.m_splits 0).near_plane = camera.m_near ∧
      (s1.m_splits (s.m_split_count - 1)).far_plane = camera.m_far := by
  refine ⟨_, update_splits_eq L camera s h1 h8, ?_, ?_⟩
  · simp [splits_after]
  · simp [splits_after]

theorem update_splits_first_near_last_far_witness :
    ∃ s1, update_splits ⟨fun r s : ℝ => r ^ s, Real.sqrt, Real.tan⟩
        (axis_camera ℝ 1 100 1 (mat4_diag 1)) (blank_state ℝ (1 / 2) 1 4 1024 true) = some s1 ∧
      (s1.m_splits 0).near_plane = (axis_camera ℝ 1 100 1 (mat4_diag 1)).m_near ∧
      (s1.m_splits ((blank_state ℝ (1 / 2) 1 4 1024 true).m_split_count - 1)).far_plane =
        (axis_camera ℝ 1 100 1 (mat4_diag 1)).m_far :=
  update_splits_first_near_last_far _ _ _ (by simp [blank_state]) (by simp [blank_state])

/-- C3: for `0 < near < far`, lambda in `[0, 1]` and `split_count` in 1..8
(and `powf` the real power), `update_splits` returns and the near planes are
strictly increasing: `near_plane[i] < near_plane[i+1]` whenever
`i + 1 < split_count`. -/
theorem near_planes_strictly_increasing (L : Libm K) (hL : PowfLaws L.powf)
    (camera : Camera K) (s : CSM K)
    (h1 : 1 ≤ s.m_split_count) (h8 : s.m_split_count ≤ 8)
    (hnd : 0 < camera.m_near) (hfd : camera.m_near < camera.m_far)
    (hl0 : 0 ≤ s.m_lambda) (hl1 : s.m_lambda ≤ 1) :
    ∃ s1, update_splits L camera s = some s1 ∧
      ∀ i : Int, 0 ≤ i → i + 1 < s.m_split_count →
        (s1.m_splits i).near_plane < (s1.m_splits (i + 1)).near_plane := by
  refine ⟨_, update_splits_eq L camera s h1 h8, ?_⟩
  intro i hi0 hi
  have hstep := t_near_strict L hL s.m_lambda camera.m_near camera.m_far s.m_split_count
    hl0 hl1 hnd hfd (by omega) i (i + 1) (by omega)
  have hne : i + 1 ≠ 0 := by omega
  have hin : 1 ≤ i + 1 ∧ i + 1 < s.m_split_count := ⟨by omega, hi⟩
  simp only [splits_after, hne, hin, if_false, if_true, and_self]
  by_cases h0 : i = 0
  · subst h0
    rw [t_near_zero L hL _ _ _ _ hnd hfd.le] at hstep
    simpa using hstep
  · have hin2 : 1 ≤ i ∧ i < s.m_split_count := ⟨by omega, by omega⟩
    simp only [h0, hin2, if_false, if_true, and_self]
    exact hstep

theorem near_planes_strictly_increasing_witness :
    ∃ s1, update_splits ⟨fun r s : ℝ => r ^ s, Real.sqrt, Real.tan⟩
        (axis_camera ℝ 1 100 1 (mat4_diag 1)) (blank_state ℝ (1 / 2) 1 4 1024 true) = some s1 ∧
      ∀ i : Int, 0 ≤ i → i + 1 < (blank_state ℝ (1 / 2) 1 4 1024 true).m_split_count →
        (s1.m_splits i).near_plane < (s1.m_splits (i + 1)).near_plane :=
  near_planes_strictly_increasing _ real_rpow_laws _ _
    (by simp [blank_state]) (by simp [blank_state])
    (by simp [axis_camera]) (by norm_num [axis_camera])
    (by norm_num [blank_state]) (by norm_num [blank_state])

/-- C4: for `0 < near ≤ far`, lambda in `[0, 1]` and `split_count` in 1..8
(and `powf` the real power), `update_splits` returns and every split has
`near_plane[i] ≤ far_plane[i]`, the last split included. -/
theorem near_plane_le_far_plane (L : Libm K) (hL : PowfLaws L.powf)
    (camera : Camera K) (s : CSM K)
    (h1 : 1 ≤ s.m_split_count) (h8 : s.m_split_count ≤ 8)
    (hnd : 0 < camera.m_near) (hfd : camera.m_near ≤ camera.m_far)
    (hl0 : 0 ≤ s.m_lambda) (hl1 : s.m_lambda ≤ 1) :
    ∃ s1, update_splits L camera s = some s1 ∧
      ∀ i : Int, 0 ≤ i → i < s.m_split_count →
        (s1.m_splits i).near_plane ≤ (s1.m_splits i).far_plane := by
  refine ⟨_, update_splits_eq L camera s h1 h8, ?_⟩
  intro i hi0 hi
  have hn : 0 < s.m_split_count := by omega
  have hmono := t_near_mono L hL s.m_lambda camera.m_near camera.m_far s.m_split_count
    hl0 hl1 hnd hfd hn
  have hz := t_near_zero L hL s.m_lambda camera.m_near camera.m_far s.m_split_count hnd hfd
  have hlast := t_near_last L hL s.m_lambda camera.m_near camera.m_far s.m_split_count hnd hfd hn
  -- the near plane of split `i` is the blend at `i` (which is `near` at 0)
  have hnear : ((splits_after L camera s) i).near_plane =
      t_near L s.m_lambda camera.m_near camera.m_far s.m_split_count i := by
    by_cases h0 : i = 0
    · subst h0; simp [splits_after, hz]
    · have hin : 1 ≤ i ∧ i < s.m_split_count := ⟨by omega, hi⟩
      simp [splits_after, h0, hin]
  show ((splits_after L camera s) i).near_plane ≤ ((splits_after L camera s) i).far_plane
  rw [hnear]
  by_cases hl : i = s.m_split_count - 1
  · have : ((splits_after L camera s) i).far_plane = camera.m_far := by
      simp [splits_after, hl]
    rw [this]
    exact le_trans (hmono i s.m_split_count (by omega)) hlast.le
  · have hin : 0 ≤ i ∧ i < s.m_split_count - 1 := ⟨hi0, by omega⟩
    have : ((splits_after L camera s) i).far_plane =
        t_near L s.m_lambda camera.m_near camera.m_far s.m_split_count (i + 1) * 1.005 := by
      simp [splits_after, hl, hin]
    rw [this, overlap_eq]
    have hpos : camera.m_near ≤
        t_near L s.m_lambda camera.m_near camera.m_far s.m_split_count (i + 1) := by
      have h := hmono 0 (i + 1) (by omega)
      rwa [hz] at h
    have := hmono i (i + 1) (by omega)
    linarith

theorem near_plane_le_far_plane_witness :
    ∃ s1, update_splits ⟨fun r s : ℝ => r ^ s, Real.sqrt, Real.tan⟩
        (axis_camera ℝ 1 100 1 (mat4_diag 1)) (blank_state ℝ (1 / 2) 1 4 1024 true) = some s1 ∧
      ∀ i : Int, 0 ≤ i → i < (blank_state ℝ (1 / 2) 1 4 1024 true).m_split_count →
        (s1.m_splits i).near_plane ≤ (s1.m_splits i).far_plane :=
  near_plane_le_far_plane _ real_rpow_laws _ _
    (by simp [blank_state]) (by simp [blank_state])
    (by simp [axis_camera]) (by norm_num [axis_camera])
    (by norm_num [blank_state]) (by norm_num [blank_state])

/-- C5: for every `i` with `1 ≤ i < split_count`, `update_splits` sets
`near_plane[i] = t_i` and `far_plane[i-1] = 1.005 * t_i`, where
`t_i = lambda * near * (far/near)^(i/split_count)
       + (1 - lambda) * (near + (far - near) * i/split_count)`;
hence `far_plane[i] = 1.005 * near_plane[i+1]` for all `i < split_count - 1`. -/
theorem update_splits_boundaries (L : Libm K) (camera : Camera K) (s : CSM K)
    (h1 : 1 ≤ s.m_split_count) (h8 : s.m_split_count ≤ 8) :
    ∃ s1, update_splits L camera s = some s1 ∧
      (∀ i : Int, 1 ≤ i → i < s.m_split_count →
        (s1.m_splits i).near_plane =
          s.m_lambda * camera.m_near *
              L.powf (camera.m_far / camera.m_near) ((i : K) / (s.m_split_count : K)) +
            (1 - s.m_lambda) *
              (camera.m_near +
                (camera.m_far - camera.m_near) * (i : K) / (s.m_split_count : K)) ∧
        (s1.m_splits (i - 1)).far_plane =
          1.005 * (s.m_lambda * camera.m_near *
              L.powf (camera.m_far / camera.m_near) ((i : K) / (s.m_split_count : K)) +
            (1 - s.m_lambda) *
              (camera.m_near +
                (camera.m_far - camera.m_near) * (i : K) / (s.m_split_count : K)))) ∧
      (∀ i : Int, 0 ≤ i → i < s.m_split_count - 1 →
        (s1.m_splits i).far_plane = 1.005 * (s1.m_splits (i + 1)).near_plane) := by
  refine ⟨_, update_splits_eq L camera s h1 h8, ?_, ?_⟩
  · intro i hi1 hi
    have h0 : i ≠ 0 := by omega
    have hin : 1 ≤ i ∧ i < s.m_split_count := ⟨hi1, hi⟩
    have hl : i - 1 ≠ s.m_split_count - 1 := by omega
    have hin2 : 0 ≤ i - 1 ∧ i - 1 < s.m_split_count - 1 := ⟨by omega, by omega⟩
    simp only [splits_after, h0, hin, hl, hin2, if_false, if_true, and_self, t_near,
      sub_add_cancel]
    constructor <;> ring
  · intro i hi0 hi
    have h0 : i + 1 ≠ 0 := by omega
    have hin : 1 ≤ i + 1 ∧ i + 1 < s.m_split_count := ⟨by omega, by omega⟩
    have hl : i ≠ s.m_split_count - 1 := by omega
    have hin2 : 0 ≤ i ∧ i < s.m_split_count - 1 := ⟨hi0, hi⟩
    simp only [splits_after, h0, hin, hl, hin2, if_false, if_true, and_self]
    ring

theorem update_splits_boundaries_witness :
    ∃ s1, update_splits ⟨fun r s : ℝ => r ^ s, Real.sqrt, Real.tan⟩
        (axis_camera ℝ 1 100 1 (mat4_diag 1)) (blank_state ℝ (1 / 2) 1 4 1024 true) = some s1 ∧
      (∀ i : Int, 1 ≤ i → i < 4 →
        (s1.m_splits i).near_plane =
          1 / 2 * 1 * ((100 : ℝ) / 1) ^ ((i : ℝ) / ((4 : Int) : ℝ)) +
            (1 - 1 / 2) * (1 + (100 - 1) * (i : ℝ) / ((4 : Int) : ℝ)) ∧
        (s1.m_splits (i - 1)).far_plane =
          1.005 * (1 / 2 * 1 * ((100 : ℝ) / 1) ^ ((i : ℝ) / ((4 : Int) : ℝ)) +
            (1 - 1 / 2) * (1 + (100 - 1) * (i : ℝ) / ((4 : Int) : ℝ)))) ∧
      (∀ i : Int, 0 ≤ i → i < 4 - 1 →
        (s1.m_splits i).far_plane = 1.005 * (s1.m_splits (i + 1)).near_plane) :=
  update_splits_boundaries ⟨fun r s : ℝ => r ^ s, Real.sqrt, Real.tan⟩
    (axis_camera ℝ 1 100 1 (mat4_diag 1)) (blank_state ℝ (1 / 2) 1 4 1024 true)
    (by simp [blank_state]) (by simp [blank_state])

end SplitScheme

section MatrixLemmas
variable {K : Type} [LinearOrderedField K]

theorem mul_mulVec (a b : Mat4 K) (v : Vec4 K) : (a.mul b).mulVec v = a.mulVec (b.mulVec v) := by
  ext <;> simp only [Mat4.mul, Mat4.mulVec] <;> ring

theorem half_eq : (0.5 : K) = 1 / 2 := by norm_num

end MatrixLemmas
section TextureMatrices
variable {K : Type} [LinearOrderedField K] [FloorRing K]

theorem bias_mulVec (v : Vec4 K) :
    (bias_matrix : Mat4 K).mulVec v =
      ⟨0.5 * v.x + 0.5 * v.w, 0.5 * v.y + 0.5 * v.w, 0.5 * v.z + 0.5 * v.w, v.w⟩ := by
  ext <;> simp only [bias_matrix, Mat4.mulVec] <;> ring

/-- C9: `update_texture_matrices` returns and stores `texture_matrix[i] =
bias * crop_matrix[i]` for every split `i` (the crop matrices are left as
they are); with the bias matrix of `initialize`, for every world point `p`
whose image `crop_matrix[i] * (p, 1)` has `w ≠ 0`, each coordinate of
`texture_matrix[i] * (p, 1)` after the divide by `w` is `0.5 * c + 0.5` of the
corresponding clip coordinate `c`, so a point of `[-1,1]^3` lands in
`[0,1]^3`. -/
theorem texture_matrix_maps_clip_to_unit (s : CSM K) (h8 : s.m_split_count ≤ 8)
    (hbias : s.m_bias = bias_matrix) :
    ∃ s1, update_texture_matrices s = some s1 ∧
      ∀ i : Int, 0 ≤ i → i < s.m_split_count →
        s1.m_texture_matrices i = s.m_bias.mul (s.m_crop_matrices i) ∧
        s1.m_crop_matrices i = s.m_crop_matrices i ∧
        ∀ p : Vec3 K, ((s1.m_crop_matrices i).mulVec (vec4_of p 1)).w ≠ 0 →
          ((project (s1.m_texture_matrices i) p).x =
              0.5 * (project (s1.m_crop_matrices i) p).x + 0.5 ∧
            (project (s1.m_texture_matrices i) p).y =
              0.5 * (project (s1.m_crop_matrices i) p).y + 0.5 ∧
            (project (s1.m_texture_matrices i) p).z =
              0.5 * (project (s1.m_crop_matrices i) p).z + 0.5) ∧
          ((-1 ≤ (project (s1.m_crop_matrices i) p).x ∧ (project (s1.m_crop_matrices i) p).x ≤ 1 ∧
            -1 ≤ (project (s1.m_crop_matrices i) p).y ∧ (project (s1.m_crop_matrices i) p).y ≤ 1 ∧
            -1 ≤ (project (s1.m_crop_matrices i) p).z ∧ (project (s1.m_crop_matrices i) p).z ≤ 1) →
           (0 ≤ (project (s1.m_texture_matrices i) p).x ∧
            (project (s1.m_texture_matrices i) p).x ≤ 1 ∧
            0 ≤ (project (s1.m_texture_matrices i) p).y ∧
            (project (s1.m_texture_matrices i) p).y ≤ 1 ∧
            0 ≤ (project (s1.m_texture_matrices i) p).z ∧
            (project (s1.m_texture_matrices i) p).z ≤ 1)) := by
  refine ⟨_, update_texture_matrices_eq s h8, ?_⟩
  intro i hi0 hi
  have hin : 0 ≤ i ∧ i < 0 + (s.m_split_count.toNat : Int) := by omega
  have ht : (texture_after_loop 0 s.m_split_count.toNat s).m_texture_matrices i =
      s.m_bias.mul (s.m_crop_matrices i) := by
    simp only [texture_after_loop, hin, and_self, if_true]
  have hc : (texture_after_loop 0 s.m_split_count.toNat s).m_crop_matrices i =
      s.m_crop_matrices i := rfl
  refine ⟨ht, hc, ?_⟩
  intro p hw
  rw [ht, hc, hbias] at *
  simp only [project, mul_mulVec, bias_mulVec]
  generalize (s.m_crop_matrices i).mulVec (vec4_of p 1) = c at *
  simp only [Vec4.divs, half_eq]
  have e : ∀ a : K, (1 / 2 * a + 1 / 2 * c.w) / c.w = 1 / 2 * (a / c.w) + 1 / 2 := by
    intro a; field_simp; ring
  rw [e, e, e]
  refine ⟨⟨rfl, rfl, rfl⟩, ?_⟩
  rintro ⟨h1, h2, h3, h4, h5, h6⟩
  refine ⟨?_, ?_, ?_, ?_, ?_, ?_⟩ <;> linarith

theorem texture_matrix_maps_clip_to_unit_witness :
    ∃ s1, update_texture_matrices
        { blank_state ℝ (1 / 2) 1 4 1024 true with
          m_bias := bias_matrix, m_crop_matrices := fun _ => mat4_diag 1 } = some s1 ∧
      ∀ i : Int, 0 ≤ i → i < 4 →
        s1.m_texture_matrices i = bias_matrix.mul (mat4_diag 1) ∧
        s1.m_crop_matrices i = mat4_diag 1 ∧
        ∀ p : Vec3 ℝ, ((s1.m_crop_matrices i).mulVec (vec4_of p 1)).w ≠ 0 →
          ((project (s1.m_texture_matrices i) p).x =
              0.5 * (project (s1.m_crop_matrices i) p).x + 0.5 ∧
            (project (s1.m_texture_matrices i) p).y =
              0.5 * (project (s1.m_crop_matrices i) p).y + 0.5 ∧
            (project (s1.m_texture_matrices i) p).z =
              0.5 * (project (s1.m_crop_matrices i) p).z + 0.5) ∧
          ((-1 ≤ (project (s1.m_crop_matrices i) p).x ∧ (project (s1.m_crop_matrices i) p).x ≤ 1 ∧
            -1 ≤ (project (s1.m_crop_matrices i) p).y ∧ (project (s1.m_crop_matrices i) p).y ≤ 1 ∧
            -1 ≤ (project (s1.m_crop_matrices i) p).z ∧ (project (s1.m_crop_matrices i) p).z ≤ 1) →
           (0 ≤ (project (s1.m_texture_matrices i) p).x ∧
            (project (s1.m_texture_matrices i) p).x ≤ 1 ∧
            0 ≤ (project (s1.m_texture_matrices i) p).y ∧
            (project (s1.m_texture_matrices i) p).y ≤ 1 ∧
            0 ≤ (project (s1.m_texture_matrices i) p).z ∧
            (project (s1.m_texture_matrices i) p).z ≤ 1)) :=
  texture_matrix_maps_clip_to_unit
    { blank_state ℝ (1 / 2) 1 4 1024 true with
      m_bias := bias_matrix, m_crop_matrices := fun _ => mat4_diag 1 }
    (by simp [blank_state]) rfl
end TextureMatrices

section FarBoundLemmas
variable {K : Type} [LinearOrderedField K] [FloorRing K]

theorem far_bound_perspective (th asp n f d : K) (hd : d ≠ 0) (hnf : n ≠ f) :
    far_bound_of (glm_perspective th asp n f) d = (d - n) * f / ((f - n) * d) := by
  have h1 : f - n ≠ 0 := sub_ne_zero.mpr (Ne.symm hnf)
  simp only [far_bound_of, glm_perspective, Mat4.mulVec, Vec4.divs]
  have h2 : (0 : K) * 0 + 0 * 0 + -1 * -d + 0 * 1 = d := by ring
  rw [h2]
  have h5 : (0.5 : K) = 1 / 2 := by norm_num
  rw [h5]
  field_simp
  ring

theorem far_bound_strict (th asp n f d1 d2 : K) (hn : 0 < n) (hf : n < f) (h1 : 0 < d1)
    (h12 : d1 < d2) :
    far_bound_of (glm_perspective th asp n f) d1 < far_bound_of (glm_perspective th asp n f) d2 := by
  have h2 : 0 < d2 := lt_trans h1 h12
  rw [far_bound_perspective th asp n f d1 h1.ne' hf.ne,
    far_bound_perspective th asp n f d2 h2.ne' hf.ne]
  have hfn : 0 < f - n := by linarith
  rw [div_lt_div_iff₀ (mul_pos hfn h1) (mul_pos hfn h2)]
  have hf0 : 0 < f := by linarith
  have : 0 < (f - n) * f * n * (d2 - d1) := by
    apply mul_pos (mul_pos (mul_pos hfn hf0) hn); linarith
  nlinarith

theorem far_bound_at_near (th asp n f : K) (hn : 0 < n) (hf : n < f) :
    far_bound_of (glm_perspective th asp n f) n = 0 := by
  rw [far_bound_perspective th asp n f n hn.ne' hf.ne]; simp

theorem far_bound_at_far (th asp n f : K) (hn : 0 < n) (hf : n < f) :
    far_bound_of (glm_perspective th asp n f) f = 1 := by
  have hf0 : 0 < f := by linarith
  have hfn : f - n ≠ 0 := by intro h; linarith
  rw [far_bound_perspective th asp n f f hf0.ne' hf.ne]
  field_simp

end FarBoundLemmas

section FarBounds
variable {K : Type} [LinearOrderedField K] [FloorRing K]

/-- The far planes written by `update_splits` lie in `(near, far]` and increase
strictly, provided the last overlapped plane stays below `far`. -/
theorem far_planes_increasing (L : Libm K) (hL : PowfLaws L.powf) (camera : Camera K)
    (s : CSM K) (h1 : 1 ≤ s.m_split_count)
    (hnd : 0 < camera.m_near) (hfd : camera.m_near < camera.m_far)
    (hl0 : 0 ≤ s.m_lambda) (hl1 : s.m_lambda ≤ 1)
    (hov : 2 ≤ s.m_split_count →
      t_near L s.m_lambda camera.m_near camera.m_far s.m_split_count (s.m_split_count - 1) *
        1.005 < camera.m_far) :
    (∀ j : Int, 0 ≤ j → j < s.m_split_count →
      camera.m_near < (splits_after L camera s j).far_plane ∧
      (splits_after L camera s j).far_plane ≤ camera.m_far) ∧
    (∀ j : Int, 0 ≤ j → j + 1 < s.m_split_count →
      (splits_after L camera s j).far_plane < (splits_after L camera s (j + 1)).far_plane) := by
  have hn : 0 < s.m_split_count := by omega
  have hmono := t_near_mono L hL s.m_lambda camera.m_near camera.m_far s.m_split_count
    hl0 hl1 hnd hfd.le hn
  have hstrict := t_near_strict L hL s.m_lambda camera.m_near camera.m_far s.m_split_count
    hl0 hl1 hnd hfd hn
  have hz := t_near_zero L hL s.m_lambda camera.m_near camera.m_far s.m_split_count hnd hfd.le
  have hlastF : (splits_after L camera s (s.m_split_count - 1)).far_plane = camera.m_far := by
    simp [splits_after]
  have hmid : ∀ j : Int, 0 ≤ j → j < s.m_split_count - 1 →
      (splits_after L camera s j).far_plane =
        t_near L s.m_lambda camera.m_near camera.m_far s.m_split_count (j + 1) * 1.005 := by
    intro j h0 hj
    have hne : j ≠ s.m_split_count - 1 := by omega
    simp [splits_after, hne, h0, hj]
  constructor
  · intro j h0 hj
    by_cases hl : j = s.m_split_count - 1
    · rw [hl, hlastF]; exact ⟨hfd, le_rfl⟩
    · have hj1 : j < s.m_split_count - 1 := by omega
      rw [hmid j h0 hj1, overlap_eq]
      have ha := hmono 0 (j + 1) (by omega)
      rw [hz] at ha
      have hb := hmono (j + 1) (s.m_split_count - 1) (by omega)
      have hc := hov (by omega)
      rw [overlap_eq] at hc
      constructor <;> linarith
  · intro j h0 hj
    rw [hmid j h0 (by omega), overlap_eq]
    by_cases hl : j + 1 = s.m_split_count - 1
    · rw [hl, hlastF]
      have hc := hov (by omega)
      rw [overlap_eq] at hc
      exact hc
    · rw [hmid (j + 1) (by omega) (by omega), overlap_eq]
      have := hstrict (j + 1) (j + 1 + 1) (by omega)
      linarith

/-- C6 (amended): for a valid config and the standard perspective matrix of
the camera's own near and far, and provided that with two or more splits the
overlapped far plane of the second-to-last split, `1.005 * near_plane[split_count-1]`,
stays below `camera.far`, the far bounds
`far_bound[i] = ndc_z(projection * (0,0,-far_plane[i],1)) * 0.5 + 0.5`
stored by `update` all lie in `[0,1]` and are strictly increasing in `i`;
the far planes themselves are strictly increasing and never exceed
`camera.far`. -/
theorem far_bounds_increasing (L : Libm K) (hL : PowfLaws L.powf) (camera : Camera K)
    (dir : Vec3 K) (s : CSM K) (th asp : K)
    (h1 : 1 ≤ s.m_split_count) (h8 : s.m_split_count ≤ 8)
    (hnd : 0 < camera.m_near) (hfd : camera.m_near < camera.m_far)
    (hl0 : 0 ≤ s.m_lambda) (hl1 : s.m_lambda ≤ 1)
    (hproj : camera.m_projection = glm_perspective th asp camera.m_near camera.m_far)
    (hov : 2 ≤ s.m_split_count →
      t_near L s.m_lambda camera.m_near camera.m_far s.m_split_count (s.m_split_count - 1) *
        1.005 < camera.m_far) :
    ∃ s1, update L camera dir s = some s1 ∧
      (∀ i : Int, 0 ≤ i → i < s.m_split_count →
        s1.m_far_bounds i =
          ((camera.m_projection.mulVec ⟨0, 0, -(s1.m_splits i).far_plane, 1⟩).z /
            (camera.m_projection.mulVec ⟨0, 0, -(s1.m_splits i).far_plane, 1⟩).w) * 0.5 + 0.5 ∧
        0 ≤ s1.m_far_bounds i ∧ s1.m_far_bounds i ≤ 1 ∧
        (s1.m_splits i).far_plane ≤ camera.m_far) ∧
      (∀ i : Int, 0 ≤ i → i + 1 < s.m_split_count →
        s1.m_far_bounds i < s1.m_far_bounds (i + 1) ∧
        (s1.m_splits i).far_plane < (s1.m_splits (i + 1)).far_plane) := by
  refine ⟨_, update_eq L camera dir s h1 h8, ?_, ?_⟩
  · intro i h0 hi
    have hb := uc_far_bounds L camera dir s i
    rw [if_pos ⟨h0, hi⟩] at hb
    refine ⟨hb, ?_⟩
    rw [hb, (uc_planes L camera dir s i).2.1, hproj]
    obtain ⟨hlo, hhi⟩ := (far_planes_increasing L hL camera s h1 hnd hfd hl0 hl1 hov).1 i h0 hi
    refine ⟨?_, ?_, hhi⟩
    · rw [← far_bound_at_near th asp camera.m_near camera.m_far hnd hfd]
      exact (far_bound_strict th asp _ _ _ _ hnd hfd hnd hlo).le
    · rw [← far_bound_at_far th asp camera.m_near camera.m_far hnd hfd]
      rcases eq_or_lt_of_le hhi with h | h
      · rw [h]
      · exact (far_bound_strict th asp _ _ _ _ hnd hfd (lt_trans hnd hlo) h).le
  · intro i h0 hi
    have hb := uc_far_bounds L camera dir s i
    rw [if_pos ⟨h0, by omega⟩] at hb
    have hb1 := uc_far_bounds L camera dir s (i + 1)
    rw [if_pos ⟨by omega, hi⟩] at hb1
    rw [hb, hb1, (uc_planes L camera dir s i).2.1, (uc_planes L camera dir s (i + 1)).2.1, hproj]
    obtain ⟨hA, hB⟩ := far_planes_increasing L hL camera s h1 hnd hfd hl0 hl1 hov
    exact ⟨far_bound_strict th asp _ _ _ _ hnd hfd (lt_trans hnd (hA i h0 (by omega)).1)
      (hB i h0 hi), hB i h0 hi⟩

end FarBounds

section FarBoundsExamples
theorem far_bounds_increasing_witness :
    ∃ s1, update ⟨fun r s : ℝ => r ^ s, Real.sqrt, Real.tan⟩
        (axis_camera ℝ 1 100 1 (glm_perspective 1 1 1 100)) ⟨1, -1, 0⟩
        (blank_state ℝ (1 / 2) 1 4 1024 true) = some s1 ∧
      (∀ i : Int, 0 ≤ i → i < 4 →
        s1.m_far_bounds i =
          (((glm_perspective 1 1 1 100 : Mat4 ℝ).mulVec ⟨0, 0, -(s1.m_splits i).far_plane, 1⟩).z /
            ((glm_perspective 1 1 1 100 : Mat4 ℝ).mulVec
              ⟨0, 0, -(s1.m_splits i).far_plane, 1⟩).w) * 0.5 + 0.5 ∧
        0 ≤ s1.m_far_bounds i ∧ s1.m_far_bounds i ≤ 1 ∧
        (s1.m_splits i).far_plane ≤ 100) ∧
      (∀ i : Int, 0 ≤ i → i + 1 < 4 →
        s1.m_far_bounds i < s1.m_far_bounds (i + 1) ∧
        (s1.m_splits i).far_plane < (s1.m_splits (i + 1)).far_plane) :=
  far_bounds_increasing ⟨fun r s : ℝ => r ^ s, Real.sqrt, Real.tan⟩ real_rpow_laws
    (axis_camera ℝ 1 100 1 (glm_perspective 1 1 1 100)) ⟨1, -1, 0⟩
    (blank_state ℝ (1 / 2) 1 4 1024 true) 1 1
    (by simp [blank_state]) (by simp [blank_state])
    (by simp [axis_camera]) (by norm_num [axis_camera])
    (by norm_num [blank_state]) (by norm_num [blank_state]) rfl
    (by
      intro _
      have h : ((100 : ℝ) / 1) ^ ((((4 : Int) - 1 : Int) : ℝ) / ((4 : Int) : ℝ)) ≤ (100 / 1) ^ (1 : ℝ) :=
        Real.rpow_le_rpow_of_exponent_le (by norm_num) (by norm_num)
      rw [Real.rpow_one] at h
      simp only [t_near, blank_state, axis_camera]
      norm_num at h ⊢
      linarith)

/-- C6, as stated, fails: with two splits, `lambda = 0`, `near = 1` and
`far = 1.001`, the far plane of split 0 is `1.005 * 1.0005 = 1.0055025`,
beyond `camera.far`, so its far bound exceeds 1 and exceeds the far bound of
split 1. -/
theorem far_bounds_counterexample :
    ∃ s1, update ⟨fun r s : ℝ => r ^ s, Real.sqrt, Real.tan⟩
        (axis_camera ℝ 1 (1001 / 1000) 1 (glm_perspective 1 1 1 (1001 / 1000))) ⟨1, -1, 0⟩
        (blank_state ℝ 0 1 2 1024 true) = some s1 ∧
      (s1.m_splits 0).far_plane = 10055025 / 10000000 ∧
      (s1.m_splits 1).far_plane = 1001 / 1000 ∧
      1 < s1.m_far_bounds 0 ∧ s1.m_far_bounds 1 < s1.m_far_bounds 0 := by
  refine ⟨_, update_eq _ _ _ _ (by simp [blank_state]) (by simp [blank_state]), ?_⟩
  rw [uc_far_bounds, uc_far_bounds, (uc_planes _ _ _ _ 0).2.1, (uc_planes _ _ _ _ 1).2.1]
  simp only [blank_state, axis_camera, splits_after, t_near]
  rw [far_bound_perspective _ _ _ _ _ (by norm_num) (by norm_num),
    far_bound_perspective _ _ _ _ _ (by norm_num) (by norm_num)]
  norm_num
end FarBoundsExamples

section TightExtents
variable {K : Type} [LinearOrderedField K]

/-- Running maximum started at `-INFINITY`: it bounds every element seen and is
one of them. -/
theorem fold_max_spec {α : Type} (f : α → K) (l : List α) :
    (∀ j ∈ l, (f j : WithBot K) ≤
      l.foldl (fun a j => if a < (f j : WithBot K) then (f j : WithBot K) else a) ⊥) ∧
    (l ≠ [] → ∃ j ∈ l,
      l.foldl (fun a j => if a < (f j : WithBot K) then (f j : WithBot K) else a) ⊥ = f j) := by
  induction l using List.reverseRecOn with
  | nil => simp
  | append_singleton l a ih =>
    obtain ⟨ih1, ih2⟩ := ih
    simp only [List.foldl_append, List.foldl_cons, List.foldl_nil]
    constructor
    · intro j hj
      rcases List.mem_append.mp hj with h | h
      · split_ifs with hlt
        · exact le_trans (ih1 j h) hlt.le
        · exact ih1 j h
      · rw [List.mem_singleton] at h
        subst h
        split_ifs with hlt
        · exact le_rfl
        · exact not_lt.mp hlt
    · intro _
      split_ifs with hlt
      · exact ⟨a, by simp, rfl⟩
      · by_cases hl : l = []
        · subst hl
          exact absurd (WithBot.bot_lt_coe (f a)) hlt
        · obtain ⟨j, hj, e⟩ := ih2 hl
          exact ⟨j, List.mem_append.mpr (Or.inl hj), e⟩

/-- Running minimum started at `INFINITY`. -/
theorem fold_min_spec {α : Type} (f : α → K) (l : List α) :
    (∀ j ∈ l,
      l.foldl (fun a j => if (f j : WithTop K) < a then (f j : WithTop K) else a) ⊤ ≤
        (f j : WithTop K)) ∧
    (l ≠ [] → ∃ j ∈ l,
      l.foldl (fun a j => if (f j : WithTop K) < a then (f j : WithTop K) else a) ⊤ = f j) := by
  induction l using List.reverseRecOn with
  | nil => simp
  | append_singleton l a ih =>
    obtain ⟨ih1, ih2⟩ := ih
    simp only [List.foldl_append, List.foldl_cons, List.foldl_nil]
    constructor
    · intro j hj
      rcases List.mem_append.mp hj with h | h
      · split_ifs with hlt
        · exact le_trans hlt.le (ih1 j h)
        · exact ih1 j h
      · rw [List.mem_singleton] at h
        subst h
        split_ifs with hlt
        · exact le_rfl
        · exact not_lt.mp hlt
    · intro _
      split_ifs with hlt
      · exact ⟨a, by simp, rfl⟩
      · by_cases hl : l = []
        · subst hl
          exact absurd (WithTop.coe_lt_top (f a)) hlt
        · obtain ⟨j, hj, e⟩ := ih2 hl
          exact ⟨j, List.mem_append.mpr (Or.inl hj), e⟩

/-- The x of corner `j` in the clip space of `m`, as computed in the loop of
lines 309-320. -/
theorem extents_fold_proj (m : Mat4 K) (c : Fin 8 → Vec3 K) (l : List (Fin 8)) :
    ∀ e : Extents K,
      (l.foldl (extents_step m c) e).tmax_x =
        l.foldl (fun a j => if a < ((project m (c j)).x : WithBot K)
          then ((project m (c j)).x : WithBot K) else a) e.tmax_x ∧
      (l.foldl (extents_step m c) e).tmin_x =
        l.foldl (fun a j => if ((project m (c j)).x : WithTop K) < a
          then ((project m (c j)).x : WithTop K) else a) e.tmin_x ∧
      (l.foldl (extents_step m c) e).tmax_y =
        l.foldl (fun a j => if a < ((project m (c j)).y : WithBot K)
          then ((project m (c j)).y : WithBot K) else a) e.tmax_y ∧
      (l.foldl (extents_step m c) e).tmin_y =
        l.foldl (fun a j => if ((project m (c j)).y : WithTop K) < a
          then ((project m (c j)).y : WithTop K) else a) e.tmin_y := by
  induction l with
  | nil => intro e; simp
  | cons a l ih =>
    intro e
    simp only [List.foldl_cons]
    obtain ⟨h1, h2, h3, h4⟩ := ih (extents_step m c e a)
    exact ⟨h1, h2, h3, h4⟩

/-- After the loop over the eight corners the extents are finite, bound every
corner and are attained. -/
theorem tight_extents_spec (m : Mat4 K) (c : Fin 8 → Vec3 K) :
    ∃ xmax xmin ymax ymin : K,
      (tight_extents m c).tmax_x = (xmax : WithBot K) ∧
      (tight_extents m c).tmin_x = (xmin : WithTop K) ∧
      (tight_extents m c).tmax_y = (ymax : WithBot K) ∧
      (tight_extents m c).tmin_y = (ymin : WithTop K) ∧
      (∀ j, (project m (c j)).x ≤ xmax) ∧ (∀ j, xmin ≤ (project m (c j)).x) ∧
      (∀ j, (project m (c j)).y ≤ ymax) ∧ (∀ j, ymin ≤ (project m (c j)).y) ∧
      (∃ j, (project m (c j)).x = xmax) ∧ (∃ j, (project m (c j)).x = xmin) ∧
      (∃ j, (project m (c j)).y = ymax) ∧ (∃ j, (project m (c j)).y = ymin) := by
  obtain ⟨e1, e2, e3, e4⟩ := extents_fold_proj m c (List.finRange 8) ⟨⊥, ⊤, ⊥, ⊤⟩
  have hne : List.finRange 8 ≠ [] := by simp [List.finRange]
  have hmem : ∀ j : Fin 8, j ∈ List.finRange 8 := List.mem_finRange
  obtain ⟨a1, a2⟩ := fold_max_spec (fun j => (project m (c j)).x) (List.finRange 8)
  obtain ⟨b1, b2⟩ := fold_min_spec (fun j => (project m (c j)).x) (List.finRange 8)
  obtain ⟨c1, c2⟩ := fold_max_spec (fun j => (project m (c j)).y) (List.finRange 8)
  obtain ⟨d1, d2⟩ := fold_min_spec (fun j => (project m (c j)).y) (List.finRange 8)
  obtain ⟨ja, _, ha⟩ := a2 hne
  obtain ⟨jb, _, hb⟩ := b2 hne
  obtain ⟨jc, _, hc⟩ := c2 hne
  obtain ⟨jd, _, hd⟩ := d2 hne
  refine ⟨(project m (c ja)).x, (project m (c jb)).x, (project m (c jc)).y,
    (project m (c jd)).y, ?_, ?_, ?_, ?_, ?_, ?_, ?_, ?_, ⟨ja, rfl⟩, ⟨jb, rfl⟩, ⟨jc, rfl⟩,
    ⟨jd, rfl⟩⟩
  · exact e1.trans ha
  · exact e2.trans hb
  · exact e3.trans hc
  · exact e4.trans hd
  · intro j; have := a1 j (hmem j); rw [ha] at this; exact WithBot.coe_le_coe.mp this
  · intro j; have := b1 j (hmem j); rw [hb] at this; exact WithTop.coe_le_coe.mp this
  · intro j; have := c1 j (hmem j); rw [hc] at this; exact WithBot.coe_le_coe.mp this
  · intro j; have := d1 j (hmem j); rw [hd] at this; exact WithTop.coe_le_coe.mp this

end TightExtents

section TightCrop
variable {K : Type} [LinearOrderedField K]

/-- An affine matrix (bottom row `0,0,0,1`). -/
theorem ortho_mul_affine_w (l r b t n f : K) (mv : Mat4 K) (p : Vec3 K)
    (h0 : mv.c0.w = 0) (h1 : mv.c1.w = 0) (h2 : mv.c2.w = 0) (h3 : mv.c3.w = 1) :
    (((glm_ortho l r b t n f).mul mv).mulVec (vec4_of p 1)).w = 1 := by
  simp only [glm_ortho, Mat4.mul, Mat4.mulVec, vec4_of, h0, h1, h2, h3]
  ring

/-- The stored tight crop matrix rescales the light clip coordinates of a
point: `x` goes to `(2 * x - xmax - xmin) / (xmax - xmin)`, and so for `y`. -/
theorem tight_crop_project (near_offset : K) (mv : Mat4 K) (c : Fin 8 → Vec3 K) (p : Vec3 K)
    (h0 : mv.c0.w = 0) (h1 : mv.c1.w = 0) (h2 : mv.c2.w = 0) (h3 : mv.c3.w = 1)
    (xmax xmin ymax ymin : K)
    (e1 : (tight_extents ((tight_ortho near_offset mv c).mul mv) c).tmax_x = (xmax : WithBot K))
    (e2 : (tight_extents ((tight_ortho near_offset mv c).mul mv) c).tmin_x = (xmin : WithTop K))
    (e3 : (tight_extents ((tight_ortho near_offset mv c).mul mv) c).tmax_y = (ymax : WithBot K))
    (e4 : (tight_extents ((tight_ortho near_offset mv c).mul mv) c).tmin_y = (ymin : WithTop K))
    (hx : xmin < xmax) (hy : ymin < ymax) :
    (project (tight_matrices near_offset mv c).2 p).x =
      (2 * (project ((tight_ortho near_offset mv c).mul mv) p).x - xmax - xmin) / (xmax - xmin) ∧
    (project (tight_matrices near_offset mv c).2 p).y =
      (2 * (project ((tight_ortho near_offset mv c).mul mv) p).y - ymax - ymin) / (ymax - ymin) := by
  have hw := ortho_mul_affine_w (-1) 1 (-1) 1 (-near_offset) (-(light_z_range mv c).1) mv p
    h0 h1 h2 h3
  have hdx : xmax - xmin ≠ 0 := by intro h; linarith
  have hdy : ymax - ymin ≠ 0 := by intro h; linarith
  simp only [project, tight_matrices, mul_mulVec]
  rw [← mul_mulVec (tight_ortho near_offset mv c) mv]
  change (((tight_ortho near_offset mv c).mul mv).mulVec (vec4_of p 1)).w = 1 at hw
  generalize ((tight_ortho near_offset mv c).mul mv).mulVec (vec4_of p 1) = V at hw ⊢
  simp only [tight_shad_crop, e1, e2, e3, e4, WithBot.unbot'_coe, WithTop.untop'_coe,
    glm_transpose, mat4_diag, Mat4.mulVec, Vec4.divs, hw, half_eq]
  constructor <;> field_simp <;> ring

end TightCrop

section TightNondegenerate
variable {K : Type} [LinearOrderedField K]

/-- Two corners with different clip x make the x extent non-zero; same for y. -/
theorem tight_extents_nondegenerate (m : Mat4 K) (c : Fin 8 → Vec3 K) :
    (∀ j k : Fin 8, (project m (c j)).x < (project m (c k)).x →
      (tight_extents m c).tmin_x.untop' 0 < (tight_extents m c).tmax_x.unbot' 0) ∧
    (∀ j k : Fin 8, (project m (c j)).y < (project m (c k)).y →
      (tight_extents m c).tmin_y.untop' 0 < (tight_extents m c).tmax_y.unbot' 0) := by
  obtain ⟨xmax, xmin, ymax, ymin, e1, e2, e3, e4, a1, a2, a3, a4, _⟩ := tight_extents_spec m c
  rw [e1, e2, e3, e4]
  simp only [WithBot.unbot'_coe, WithTop.untop'_coe]
  constructor
  · intro j k h
    exact lt_of_le_of_lt (a2 j) (lt_of_lt_of_le h (a1 k))
  · intro j k h
    exact lt_of_le_of_lt (a4 j) (lt_of_lt_of_le h (a3 k))

end TightNondegenerate

section TightClaims
variable {K : Type} [LinearOrderedField K] [FloorRing K]

/-- In tight mode `update_crop_matrices` returns, leaves the corners as they
are and stores the tight crop matrix of each split. -/
theorem update_crop_matrices_tight (L : Libm K) (mv : Mat4 K) (camera : Camera K) (s : CSM K)
    (i : Int) (h8 : s.m_split_count ≤ 8) (hi0 : 0 ≤ i) (hi : i < s.m_split_count)
    (hst : s.m_stable_pssm = false) :
    ∃ s1, update_crop_matrices L mv camera s = some s1 ∧
      (s1.m_splits i).corners = (s.m_splits i).corners ∧
      s1.m_crop_matrices i = (tight_matrices s.m_near_offset mv (s.m_splits i).corners).2 := by
  refine ⟨_, update_crop_matrices_eq L mv camera s h8, ?_, ?_⟩
  · have hin : 0 ≤ i ∧ i < 0 + (s.m_split_count.toNat : Int) := by omega
    simp only [crop_after_loop, hin, and_self, if_true]
  · have hin : 0 ≤ i ∧ i < 0 + (s.m_split_count.toNat : Int) := by omega
    simp only [crop_after_loop, hin, and_self, if_true, crop_matrices_of, hst]
    rfl

end TightClaims

theorem slice_extent_x :
    (tight_extents ((tight_ortho 1 (mat4_diag 1) (slice_corners ℝ)).mul (mat4_diag 1))
        (slice_corners ℝ)).tmin_x.untop' 0 <
      (tight_extents ((tight_ortho 1 (mat4_diag 1) (slice_corners ℝ)).mul (mat4_diag 1))
        (slice_corners ℝ)).tmax_x.unbot' 0 :=
  (tight_extents_nondegenerate _ _).1 0 2
    (by norm_num [project, tight_ortho, glm_ortho, Mat4.mul, Mat4.mulVec, mat4_diag, vec4_of,
      Vec4.divs, slice_corners])

theorem slice_extent_y :
    (tight_extents ((tight_ortho 1 (mat4_diag 1) (slice_corners ℝ)).mul (mat4_diag 1))
        (slice_corners ℝ)).tmin_y.untop' 0 <
      (tight_extents ((tight_ortho 1 (mat4_diag 1) (slice_corners ℝ)).mul (mat4_diag 1))
        (slice_corners ℝ)).tmax_y.unbot' 0 :=
  (tight_extents_nondegenerate _ _).2 0 2
    (by norm_num [project, tight_ortho, glm_ortho, Mat4.mul, Mat4.mulVec, mat4_diag, vec4_of,
      Vec4.divs, slice_corners])

section StableSnap
variable {K : Type} [LinearOrderedField K] [FloorRing K]

theorem roundf_is_int (x : K) : ∃ n : Int, roundf x = (n : K) := by
  unfold roundf
  split_ifs
  · exact ⟨_, rfl⟩
  · exact ⟨_, rfl⟩

/-- Snapping adds the offset to the image of the world origin, for a view
matrix with `w` entry 1 in its last column. -/
theorem snap_origin (M V : Mat4 K) (off : Vec4 K) (hV : V.c3.w = 1) :
    ((snap_proj M off).mul V).mulVec ⟨0, 0, 0, 1⟩ =
      ((M.mul V).mulVec ⟨0, 0, 0, 1⟩).add off := by
  ext <;> simp only [snap_proj, Mat4.mul, Mat4.mulVec, Vec4.add, hV] <;> ring

/-- In stable mode `update_crop_matrices` returns and stores the snapped crop
matrix of each split. -/
theorem update_crop_matrices_stable (L : Libm K) (mv : Mat4 K) (camera : Camera K) (s : CSM K)
    (i : Int) (h8 : s.m_split_count ≤ 8) (hi0 : 0 ≤ i) (hi : i < s.m_split_count)
    (hst : s.m_stable_pssm = true) :
    ∃ s1, update_crop_matrices L mv camera s = some s1 ∧
      (s1.m_splits i).corners = (s.m_splits i).corners ∧
      s1.m_crop_matrices i =
        (stable_matrices L s.m_near_offset s.m_shadow_map_size s.m_light_direction camera.m_up
          (s.m_splits i).corners (split_center (s.m_splits i).corners)).2 := by
  refine ⟨_, update_crop_matrices_eq L mv camera s h8, ?_, ?_⟩
  · have hin : 0 ≤ i ∧ i < 0 + (s.m_split_count.toNat : Int) := by omega
    simp only [crop_after_loop, hin, and_self, if_true]
  · have hin : 0 ≤ i ∧ i < 0 + (s.m_split_count.toNat : Int) := by omega
    simp only [crop_after_loop, hin, and_self, if_true, crop_matrices_of, hst]

end StableSnap

section UniformSplits

variable {K : Type} [LinearOrderedField K]

theorem t_near_lambda_zero (L : Libm K) (nd fd : K) (n i : Int) :
    t_near L 0 nd fd n i = nd + (fd - nd) * (i : K) / (n : K) := by
  simp only [t_near]
  ring

end UniformSplits

section LogSplits

variable {K : Type} [LinearOrderedField K]

theorem real_rpow_add : PowfAdd (fun r s : ℝ => r ^ s) :=
  fun _ s t hr => Real.rpow_add hr s t

theorem t_near_lambda_one (L : Libm K) (nd fd : K) (n i : Int) :
    t_near L 1 nd fd n i = nd * L.powf (fd / nd) ((i : K) / (n : K)) := by
  simp only [t_near]
  ring

/-- C12: with `lambda = 1` and `0 < near < far` (and `powf` the real power)
the split boundaries are purely logarithmic:
`near_plane[i] = near * (far/near)^(i/split_count)` for every `i < split_count`,
so the ratio `near_plane[i+1] / near_plane[i]` is the constant
`q = (far/near)^(1/split_count) > 1`, and each width
`near_plane[i+2] - near_plane[i+1]` is `q` times the width before it. -/
theorem logarithmic_splits (L : Libm K) (hL : PowfLaws L.powf) (hA : PowfAdd L.powf)
    (camera : Camera K) (s : CSM K)
    (h1 : 1 ≤ s.m_split_count) (h8 : s.m_split_count ≤ 8) (hl : s.m_lambda = 1)
    (hnd : 0 < camera.m_near) (hfd : camera.m_near < camera.m_far) :
    ∃ s1, update_splits L camera s = some s1 ∧
      (∀ i : Int, 0 ≤ i → i < s.m_split_count →
        (s1.m_splits i).near_plane =
          camera.m_near *
            L.powf (camera.m_far / camera.m_near) ((i : K) / (s.m_split_count : K))) ∧
      (∀ i : Int, 0 ≤ i → i + 1 < s.m_split_count →
        (s1.m_splits (i + 1)).near_plane / (s1.m_splits i).near_plane =
          L.powf (camera.m_far / camera.m_near) (1 / (s.m_split_count : K))) ∧
      1 < L.powf (camera.m_far / camera.m_near) (1 / (s.m_split_count : K)) ∧
      (∀ i : Int, 0 ≤ i → i + 2 < s.m_split_count →
        (s1.m_splits (i + 2)).near_plane - (s1.m_splits (i + 1)).near_plane =
          L.powf (camera.m_far / camera.m_near) (1 / (s.m_split_count : K)) *
            ((s1.m_splits (i + 1)).near_plane - (s1.m_splits i).near_plane)) := by
  have hn0 : (0 : K) < (s.m_split_count : K) := by
    exact_mod_cast (by omega : 0 < s.m_split_count)
  have hr1 : 1 < camera.m_far / camera.m_near := by rw [lt_div_iff₀ hnd]; linarith
  have hr0 : 0 < camera.m_far / camera.m_near := lt_trans one_pos hr1
  have hnear : ∀ i : Int, 0 ≤ i → i < s.m_split_count →
      ((splits_after L camera s) i).near_plane =
        camera.m_near *
          L.powf (camera.m_far / camera.m_near) ((i : K) / (s.m_split_count : K)) := by
    intro i h0 hi
    by_cases hz : i = 0
    · subst hz
      simp [splits_after, hL.powf_zero _ hr0]
    · have hin : 1 ≤ i ∧ i < s.m_split_count := ⟨by omega, hi⟩
      simp only [splits_after, hz, hin, if_false, if_true, and_self, hl, t_near_lambda_one]
  -- one more step multiplies the boundary by `q`
  have hstep : ∀ i : Int,
      L.powf (camera.m_far / camera.m_near) (((i + 1 : Int) : K) / (s.m_split_count : K)) =
        L.powf (camera.m_far / camera.m_near) ((i : K) / (s.m_split_count : K)) *
          L.powf (camera.m_far / camera.m_near) (1 / (s.m_split_count : K)) := by
    intro i
    rw [← hA _ _ _ hr0]
    congr 1
    push_cast
    ring
  have hpos : ∀ i : Int, 0 ≤ i →
      0 < L.powf (camera.m_far / camera.m_near) ((i : K) / (s.m_split_count : K)) := by
    intro i h0
    have h := hL.powf_mono (camera.m_far / camera.m_near) 0 ((i : K) / (s.m_split_count : K))
      hr1.le (div_nonneg (by exact_mod_cast h0) hn0.le)
    rw [hL.powf_zero _ hr0] at h
    linarith
  have hq : 1 < L.powf (camera.m_far / camera.m_near) (1 / (s.m_split_count : K)) := by
    have h := hL.powf_strict (camera.m_far / camera.m_near) 0 (1 / (s.m_split_count : K))
      hr1 (div_pos one_pos hn0)
    rwa [hL.powf_zero _ hr0] at h
  refine ⟨_, update_splits_eq L camera s h1 h8, hnear, ?_, hq, ?_⟩
  · intro i h0 hi
    show ((splits_after L camera s) (i + 1)).near_plane / ((splits_after L camera s) i).near_plane
      = _
    rw [hnear i h0 (by omega), hnear (i + 1) (by omega) hi, hstep i]
    have := hpos i h0
    field_simp
    ring
  · intro i h0 hi
    show ((splits_after L camera s) (i + 2)).near_plane -
        ((splits_after L camera s) (i + 1)).near_plane =
      _ * (((splits_after L camera s) (i + 1)).near_plane -
        ((splits_after L camera s) i).near_plane)
    have e2 : i + 2 = (i + 1) + 1 := by ring
    rw [hnear i h0 (by omega), hnear (i + 1) (by omega) (by omega),
      hnear (i + 2) (by omega) hi, e2, hstep (i + 1), hstep i]
    ring

theorem logarithmic_splits_witness :
    ∃ s1, update_splits ⟨fun r s : ℝ => r ^ s, Real.sqrt, Real.tan⟩
        (axis_camera ℝ 1 100 1 (mat4_diag 1)) (blank_state ℝ 1 1 4 1024 true) = some s1 ∧
      (∀ i : Int, 0 ≤ i → i < 4 →
        (s1.m_splits i).near_plane = 1 * ((100 : ℝ) / 1) ^ ((i : ℝ) / ((4 : Int) : ℝ))) ∧
      (∀ i : Int, 0 ≤ i → i + 1 < 4 →
        (s1.m_splits (i + 1)).near_plane / (s1.m_splits i).near_plane =
          ((100 : ℝ) / 1) ^ (1 / ((4 : Int) : ℝ))) ∧
      1 < ((100 : ℝ) / 1) ^ (1 / ((4 : Int) : ℝ)) ∧
      (∀ i : Int, 0 ≤ i → i + 2 < 4 →
        (s1.m_splits (i + 2)).near_plane - (s1.m_splits (i + 1)).near_plane =
          ((100 : ℝ) / 1) ^ (1 / ((4 : Int) : ℝ)) *
            ((s1.m_splits (i + 1)).near_plane - (s1.m_splits i).near_plane)) :=
  logarithmic_splits ⟨fun r s : ℝ => r ^ s, Real.sqrt, Real.tan⟩ real_rpow_laws real_rpow_add
    (axis_camera ℝ 1 100 1 (mat4_diag 1)) (blank_state ℝ 1 1 4 1024 true)
    (by simp [blank_state]) (by simp [blank_state]) rfl
    (by simp [axis_camera]) (by norm_num [axis_camera])

end LogSplits

section LoopFailure

variable {σ : Type}

/-- A loop whose first `a` iterations succeed and whose next iteration fails
fails as a whole. -/
theorem forLoop_fail (body : Int → σ → Option σ) (a b : Nat) :
    ∀ (i : Int) (s s1 : σ), forLoop body i a s = some s1 → body (i + a) s1 = none →
      forLoop body i (a + (b + 1)) s = none := by
  induction a with
  | zero =>
    intro i s s1 h hf
    simp only [forLoop, Option.some.injEq] at h
    subst h
    simp only [Nat.cast_zero, add_zero] at hf
    simp only [Nat.zero_add, forLoop, hf]
  | succ a ih =>
    intro i s s1 h hf
    have e : a + 1 + (b + 1) = (a + (b + 1)) + 1 := by omega
    rw [e]
    simp only [forLoop] at h ⊢
    cases hb : body i s with
    | none => rfl
    | some s2 =>
      rw [hb] at h
      simp only at h ⊢
      refine ih (i + 1) s2 s1 h ?_
      have e2 : i + 1 + (a : Int) = i + ((a + 1 : Nat) : Int) := by push_cast; ring
      rw [e2]
      exact hf

end LoopFailure

section IndexSafety

variable {K : Type} [LinearOrderedField K] [FloorRing K]

theorem not_inBounds_eight : ¬ inBounds 8 := by
  intro h
  have := h.2
  simp [MAX_SPLITS] at this

theorem update_splits_none (L : Libm K) (camera : Camera K) (s : CSM K)
    (h : ¬ (1 ≤ s.m_split_count ∧ s.m_split_count ≤ 8)) : update_splits L camera s = none := by
  by_cases h0 : s.m_split_count ≤ 0
  · -- no iteration; the final assignment uses subscript `split_count - 1 < 0`
    have hn : (s.m_split_count - 1).toNat = 0 := by omega
    dsimp only [update_splits]
    rw [modifySplit_eq _ _ _ (by omega) (by omega), Option.some_bind, hn]
    simp only [forLoop, Option.some_bind]
    exact modifySplit_none _ _ _ (by omega)
  · -- `split_count ≥ 9`: iteration `i = 8` is out of range
    obtain ⟨b, hb⟩ : ∃ b : Nat, (s.m_split_count - 1).toNat = 7 + (b + 1) :=
      ⟨(s.m_split_count - 1).toNat - 8, by omega⟩
    dsimp only [update_splits]
    rw [modifySplit_eq _ _ _ (by omega) (by omega), Option.some_bind, hb,
      forLoop_fail _ 7 b 1 _ _ (update_splits_loop L camera 7 1 _ (by omega) (by omega))]
    · rfl
    · dsimp only [update_splits_body]
      rw [modifySplit_none _ _ _ (by norm_num)]
      rfl

theorem update_frustum_corners_none (L : Libm K) (camera : Camera K) (s : CSM K)
    (h : ¬ s.m_split_count ≤ 8) : update_frustum_corners L camera s = none := by
  obtain ⟨b, hb⟩ : ∃ b : Nat, s.m_split_count.toNat = 8 + (b + 1) :=
    ⟨s.m_split_count.toNat - 9, by omega⟩
  dsimp only [update_frustum_corners]
  rw [hb, forLoop_fail _ 8 b 0 _ _
    (update_frustum_corners_loop L camera 8 0 s _ (by omega) (by omega))]
  · rfl
  · dsimp only [update_frustum_corners_body]
    rw [modifySplit_none _ _ _ (by norm_num)]
    rfl

theorem update_crop_matrices_none (L : Libm K) (mv : Mat4 K) (camera : Camera K) (s : CSM K)
    (h : ¬ s.m_split_count ≤ 8) : update_crop_matrices L mv camera s = none := by
  obtain ⟨b, hb⟩ : ∃ b : Nat, s.m_split_count.toNat = 8 + (b + 1) :=
    ⟨s.m_split_count.toNat - 9, by omega⟩
  dsimp only [update_crop_matrices]
  rw [hb, forLoop_fail _ 8 b 0 _ _
    (update_crop_matrices_loop L mv camera 8 0 s (by omega) (by omega))]
  simp only [update_crop_matrices_body]
  exact if_neg not_inBounds_eight

theorem update_texture_matrices_none (s : CSM K) (h : ¬ s.m_split_count ≤ 8) :
    update_texture_matrices s = none := by
  obtain ⟨b, hb⟩ : ∃ b : Nat, s.m_split_count.toNat = 8 + (b + 1) :=
    ⟨s.m_split_count.toNat - 9, by omega⟩
  dsimp only [update_texture_matrices]
  rw [hb, forLoop_fail _ 8 b 0 _ _ (update_texture_matrices_loop 8 0 s (by omega) (by omega))]
  simp only [update_texture_matrices_body]
  exact if_neg not_inBounds_eight

theorem update_far_bounds_none (camera : Camera K) (s : CSM K) (h : ¬ s.m_split_count ≤ 8) :
    update_far_bounds camera s = none := by
  obtain ⟨b, hb⟩ : ∃ b : Nat, s.m_split_count.toNat = 8 + (b + 1) :=
    ⟨s.m_split_count.toNat - 9, by omega⟩
  dsimp only [update_far_bounds]
  rw [hb, forLoop_fail _ 8 b 0 _ _ (update_far_bounds_loop camera 8 0 s (by omega) (by omega))]
  simp only [update_far_bounds_body]
  exact if_neg not_inBounds_eight

theorem update_none (L : Libm K) (camera : Camera K) (dir : Vec3 K) (s : CSM K)
    (h : ¬ (1 ≤ s.m_split_count ∧ s.m_split_count ≤ 8)) : update L camera dir s = none := by
  have e := update_splits_none L camera
    { s with m_light_direction := glm_normalize L dir,
             m_light_view := light_view_of L s.m_stable_pssm camera dir } h
  dsimp only [update]
  rw [e]
  rfl

theorem init_fbo_loop (n : Nat) :
    ∀ (i : Int) (s : CSM K), 0 ≤ i → i + n ≤ 8 → forLoop init_fbo_body i n s = some s := by
  induction n with
  | zero => intro i s _ _; rfl
  | succ n ih =>
    intro i s h0 h8
    push_cast at h8
    have hb : inBounds i := ⟨h0, by show i < 8; omega⟩
    simp only [forLoop, init_fbo_body, hb, if_true]
    exact ih (i + 1) s (by omega) (by omega)

theorem init_fov_loop (camera_fov ratio : K) (n : Nat) :
    ∀ (i : Int) (s : CSM K), 0 ≤ i → i + n ≤ 8 →
      forLoop (init_fov_body camera_fov ratio) i n s =
        some { s with m_splits := fov_after_loop camera_fov ratio i n s.m_splits } := by
  induction n with
  | zero =>
    intro i s _ _
    simp only [forLoop, Option.some.injEq]
    ext1 <;> try rfl
    funext j
    have h2 : ¬ (i ≤ j ∧ j < i + ((0 : Nat) : Int)) := by omega
    simp only [fov_after_loop, h2, if_false]
  | succ n ih =>
    intro i s h0 h8
    push_cast at h8
    simp only [forLoop, init_fov_body]
    rw [modifySplit_eq _ _ _ h0 (by omega)]
    simp only []
    rw [ih (i + 1) _ (by omega) (by omega)]
    simp only [Option.some.injEq]
    ext1 <;> try rfl
    funext j
    simp only [fov_after_loop, Function.update_apply, Nat.cast_add, Nat.cast_one]
    by_cases hj : j = i
    · subst hj
      have h2 : ¬ (j + 1 ≤ j ∧ j < j + 1 + (n : Int)) := by omega
      have h3 : j ≤ j ∧ j < j + ((n : Int) + 1) := by omega
      rw [if_neg h2, if_pos h3, if_pos rfl]
    · by_cases hr : i + 1 ≤ j ∧ j < i + 1 + (n : Int)
      · have h3 : i ≤ j ∧ j < i + ((n : Int) + 1) := by omega
        rw [if_pos hr, if_pos h3, if_neg hj]
      · have h3 : ¬ (i ≤ j ∧ j < i + ((n : Int) + 1)) := by omega
        rw [if_neg hr, if_neg h3, if_neg hj]

/-- For `split_count` in 1..8 `initialize` returns: it stores the
configuration, fills in `fov` and `ratio`, sets the bias matrix and runs
`update`. -/
theorem initialize_eq (L : Libm K) (lambda near_offset : K) (split_count shadow_map_size : Int)
    (camera : Camera K) (width height : Int) (dir : Vec3 K) (s : CSM K)
    (h1 : 1 ≤ split_count) (h8 : split_count ≤ 8) :
    CSM_initialize L lambda near_offset split_count shadow_map_size camera width height dir s =
      some (update_closed L camera dir
        (initialize_pre lambda near_offset split_count shadow_map_size camera width height s)) := by
  have hn : (0 : Int) + (split_count.toNat : Int) ≤ 8 := by omega
  dsimp only [ CSM_initialize]
  rw [init_fbo_loop _ 0 _ le_rfl hn, Option.some_bind,
    init_fov_loop _ _ _ 0 _ le_rfl hn, Option.some_bind]
  exact update_eq L camera dir _ h1 h8

theorem initialize_none (L : Libm K) (lambda near_offset : K)
    (split_count shadow_map_size : Int) (camera : Camera K) (width height : Int)
    (dir : Vec3 K) (s : CSM K) (h : ¬ (1 ≤ split_count ∧ split_count ≤ 8)) :
    CSM_initialize L lambda near_offset split_count shadow_map_size camera width height dir s =
      none := by
  by_cases h0 : split_count ≤ 0
  · have hn : split_count.toNat = 0 := by omega
    dsimp only [ CSM_initialize]
    rw [hn]
    simp only [forLoop, Option.some_bind, hn]
    apply update_none
    exact h
  · obtain ⟨b, hb⟩ : ∃ b : Nat, split_count.toNat = 8 + (b + 1) :=
      ⟨split_count.toNat - 9, by omega⟩
    dsimp only [ CSM_initialize]
    rw [hb, forLoop_fail _ 8 b 0 _ _ (init_fbo_loop 8 0 _ le_rfl (by omega))]
    · rfl
    · simp only [init_fbo_body]
      exact if_neg not_inBounds_eight

/-- C15: index safety of the fixed 8-slot per-split storage: `update` and each
of its five steps stay within the subscripts 0..7 (return a state) exactly for
the stated range of `split_count`: `update_splits`, and with it `update`,
if and only if `1 ≤ split_count ≤ 8` (subscript `split_count - 1` is used
also when no iteration runs), the four other loops if and only if
`split_count ≤ 8`.  `initialize` stores `split_count` as given: it does not
clamp, so it returns exactly when `1 ≤ split_count ≤ 8`, and then the stored
value is the argument. -/
theorem index_safety (L : Libm K) (camera : Camera K) (dir : Vec3 K) (mv : Mat4 K) (s : CSM K)
    (lambda near_offset : K) (split_count shadow_map_size width height : Int) :
    ((update L camera dir s).isSome ↔ (1 ≤ s.m_split_count ∧ s.m_split_count ≤ 8)) ∧
    ((update_splits L camera s).isSome ↔ (1 ≤ s.m_split_count ∧ s.m_split_count ≤ 8)) ∧
    ((update_frustum_corners L camera s).isSome ↔ s.m_split_count ≤ 8) ∧
    ((update_crop_matrices L mv camera s).isSome ↔ s.m_split_count ≤ 8) ∧
    ((update_texture_matrices s).isSome ↔ s.m_split_count ≤ 8) ∧
    ((update_far_bounds camera s).isSome ↔ s.m_split_count ≤ 8) ∧
    (( CSM_initialize L lambda near_offset split_count shadow_map_size camera width height
        dir s).isSome ↔ (1 ≤ split_count ∧ split_count ≤ 8)) ∧
    (∀ s1, CSM_initialize L lambda near_offset split_count shadow_map_size camera width height
        dir s = some s1 → s1.m_split_count = split_count) := by
  refine ⟨?_, ?_, ?_, ?_, ?_, ?_, ?_, ?_⟩
  · constructor
    · intro h; by_contra hc; rw [update_none L camera dir s hc] at h; simp at h
    · rintro ⟨h1, h8⟩; rw [update_eq L camera dir s h1 h8]; rfl
  · constructor
    · intro h; by_contra hc; rw [update_splits_none L camera s hc] at h; simp at h
    · rintro ⟨h1, h8⟩; rw [update_splits_eq L camera s h1 h8]; rfl
  · constructor
    · intro h; by_contra hc; rw [update_frustum_corners_none L camera s hc] at h; simp at h
    · intro h8; rw [update_frustum_corners_eq L camera s h8]; rfl
  · constructor
    · intro h; by_contra hc; rw [update_crop_matrices_none L mv camera s hc] at h; simp at h
    · intro h8; rw [update_crop_matrices_eq L mv camera s h8]; rfl
  · constructor
    · intro h; by_contra hc; rw [update_texture_matrices_none s hc] at h; simp at h
    · intro h8; rw [update_texture_matrices_eq s h8]; rfl
  · constructor
    · intro h; by_contra hc; rw [update_far_bounds_none camera s hc] at h; simp at h
    · intro h8; rw [update_far_bounds_eq camera s h8]; rfl
  · constructor
    · intro h; by_contra hc
      rw [initialize_none L lambda near_offset split_count shadow_map_size camera width height
        dir s hc] at h
      simp at h
    · rintro ⟨h1, h8⟩
      rw [initialize_eq L lambda near_offset split_count shadow_map_size camera width height
        dir s h1 h8]
      rfl
  · intro s1 hs1
    by_cases hc : 1 ≤ split_count ∧ split_count ≤ 8
    · rw [initialize_eq L lambda near_offset split_count shadow_map_size camera width height
        dir s hc.1 hc.2] at hs1
      simp only [Option.some.injEq] at hs1
      rw [← hs1]
      rfl
    · rw [initialize_none L lambda near_offset split_count shadow_map_size camera width height
        dir s hc] at hs1
      simp at hs1

end IndexSafety

section SplitCenter

variable {K : Type} [LinearOrderedField K]

theorem finRange_eight : List.finRange 8 = [0, 1, 2, 3, 4, 5, 6, 7] := by decide

/-- The fold of `split_center`, unrolled. -/
theorem split_center_eq (c : Fin 8 → Vec3 K) :
    split_center c =
      (((((((((Vec3.mk 0 0 0).add (c 0)).add (c 1)).add (c 2)).add (c 3)).add (c 4)).add
        (c 5)).add (c 6)).add (c 7)).divs 8 := by
  simp only [split_center, finRange_eight, List.foldl]
  rfl

/-- The eight corners written by `update_frustum_corners`, one by one. -/
theorem frustum_corners_apply (L : Libm K) (center view_dir right up : Vec3 K)
    (t : FrustumSplit K) :
    frustum_corners L center view_dir right up t 0 =
      ((center.add (view_dir.scale t.near_plane)).sub
        (up.scale (L.tan (t.fov / 2) * t.near_plane))).sub
        (right.scale (L.tan (t.fov / 2) * t.near_plane * t.ratio)) ∧
    frustum_corners L center view_dir right up t 1 =
      ((center.add (view_dir.scale t.near_plane)).add
        (up.scale (L.tan (t.fov / 2) * t.near_plane))).sub
        (right.scale (L.tan (t.fov / 2) * t.near_plane * t.ratio)) ∧
    frustum_corners L center view_dir right up t 2 =
      ((center.add (view_dir.scale t.near_plane)).add
        (up.scale (L.tan (t.fov / 2) * t.near_plane))).add
        (right.scale (L.tan (t.fov / 2) * t.near_plane * t.ratio)) ∧
    frustum_corners L center view_dir right up t 3 =
      ((center.add (view_dir.scale t.near_plane)).sub
        (up.scale (L.tan (t.fov / 2) * t.near_plane))).add
        (right.scale (L.tan (t.fov / 2) * t.near_plane * t.ratio)) ∧
    frustum_corners L center view_dir right up t 4 =
      ((center.add (view_dir.scale t.far_plane)).sub
        (up.scale (L.tan (t.fov / 2) * t.far_plane))).sub
        (right.scale (L.tan (t.fov / 2) * t.far_plane * t.ratio)) ∧
    frustum_corners L center view_dir right up t 5 =
      ((center.add (view_dir.scale t.far_plane)).add
        (up.scale (L.tan (t.fov / 2) * t.far_plane))).sub
        (right.scale (L.tan (t.fov / 2) * t.far_plane * t.ratio)) ∧
    frustum_corners L center view_dir right up t 6 =
      ((center.add (view_dir.scale t.far_plane)).add
        (up.scale (L.tan (t.fov / 2) * t.far_plane))).add
        (right.scale (L.tan (t.fov / 2) * t.far_plane * t.ratio)) ∧
    frustum_corners L center view_dir right up t 7 =
      ((center.add (view_dir.scale t.far_plane)).sub
        (up.scale (L.tan (t.fov / 2) * t.far_plane))).add
        (right.scale (L.tan (t.fov / 2) * t.far_plane * t.ratio)) :=
  ⟨rfl, rfl, rfl, rfl, rfl, rfl, rfl, rfl⟩

/-- The mean of the eight corners of a split: the up and right offsets cancel. -/
theorem split_center_frustum_corners (L : Libm K) (center view_dir right up : Vec3 K)
    (t : FrustumSplit K) :
    split_center (frustum_corners L center view_dir right up t) =
      center.add (view_dir.scale ((t.near_plane + t.far_plane) / 2)) := by
  obtain ⟨e0, e1, e2, e3, e4, e5, e6, e7⟩ := frustum_corners_apply L center view_dir right up t
  rw [split_center_eq, e0, e1, e2, e3, e4, e5, e6, e7]
  ext <;> simp only [Vec3.add, Vec3.sub, Vec3.scale, Vec3.divs] <;> ring

end SplitCenter

section VectorLemmas

variable {K : Type} [LinearOrderedField K]

theorem real_sqrt_laws : SqrtLaws Real.sqrt where
  sqrt_nonneg := Real.sqrt_nonneg
  mul_self_sqrt := fun _ hx => Real.mul_self_sqrt hx

/-- The square root is the non-negative solution of `y * y = x`. -/
theorem sqrt_unique {sqrt : K → K} (hS : SqrtLaws sqrt) (x y : K) (hy : 0 ≤ y)
    (h : y * y = x) : sqrt x = y := by
  have hx : 0 ≤ x := by rw [← h]; exact mul_self_nonneg y
  have h1 := hS.mul_self_sqrt x hx
  have h2 := hS.sqrt_nonneg x
  have h3 : (sqrt x - y) * (sqrt x + y) = 0 := by
    have e : (sqrt x - y) * (sqrt x + y) = sqrt x * sqrt x - y * y := by ring
    rw [e, h1, h]
    ring
  rcases mul_eq_zero.mp h3 with h4 | h4
  · linarith
  · have : sqrt x = 0 := by linarith
    have : y = 0 := by linarith
    linarith

theorem sqrt_one_eq {sqrt : K → K} (hS : SqrtLaws sqrt) : sqrt 1 = 1 :=
  sqrt_unique hS 1 1 zero_le_one (by ring)

theorem sqrt_zero_eq {sqrt : K → K} (hS : SqrtLaws sqrt) : sqrt 0 = 0 :=
  sqrt_unique hS 0 0 le_rfl (by ring)

theorem dot_self_nonneg (v : Vec3 K) : 0 ≤ glm_dot v v := by
  simp only [glm_dot]
  nlinarith [mul_self_nonneg v.x, mul_self_nonneg v.y, mul_self_nonneg v.z]

theorem dot_self_pos (v : Vec3 K) (h : v ≠ ⟨0, 0, 0⟩) : 0 < glm_dot v v := by
  rcases lt_or_eq_of_le (dot_self_nonneg v) with h1 | h1
  · exact h1
  · exfalso
    apply h
    simp only [glm_dot] at h1
    have hx : v.x = 0 := by nlinarith [mul_self_nonneg v.x, mul_self_nonneg v.y, mul_self_nonneg v.z]
    have hy : v.y = 0 := by nlinarith [mul_self_nonneg v.x, mul_self_nonneg v.y, mul_self_nonneg v.z]
    have hz : v.z = 0 := by nlinarith [mul_self_nonneg v.x, mul_self_nonneg v.y, mul_self_nonneg v.z]
    ext <;> assumption

theorem sqrt_pos_of_pos {sqrt : K → K} (hS : SqrtLaws sqrt) (x : K) (hx : 0 < x) : 0 < sqrt x := by
  rcases lt_or_eq_of_le (hS.sqrt_nonneg x) with h | h
  · exact h
  · exfalso
    have := hS.mul_self_sqrt x hx.le
    rw [← h] at this
    linarith

/-- A vector of length 1 is its own normalisation. -/
theorem normalize_unit (L : Libm K) (hS : SqrtLaws L.sqrt) (v : Vec3 K) (h : glm_dot v v = 1) :
    glm_normalize L v = v := by
  simp only [glm_normalize, h, sqrt_one_eq hS, Vec3.scale]
  ext <;> simp

/-- A non-zero vector has a normalisation of length 1. -/
theorem dot_normalize_self (L : Libm K) (hS : SqrtLaws L.sqrt) (v : Vec3 K)
    (h : 0 < glm_dot v v) : glm_dot (glm_normalize L v) (glm_normalize L v) = 1 := by
  have hp := sqrt_pos_of_pos hS _ h
  have hm := hS.mul_self_sqrt _ h.le
  have e : glm_dot (glm_normalize L v) (glm_normalize L v) =
      glm_dot v v * (1 / L.sqrt (glm_dot v v)) * (1 / L.sqrt (glm_dot v v)) := by
    simp only [glm_normalize, glm_dot, Vec3.scale]; ring
  rw [e]
  nth_rewrite 1 [← hm]
  field_simp

theorem dot_normalize_left (L : Libm K) (v w : Vec3 K) :
    glm_dot (glm_normalize L v) w = glm_dot v w * (1 / L.sqrt (glm_dot v v)) := by
  simp only [glm_normalize, glm_dot, Vec3.scale]; ring

theorem dot_comm (v w : Vec3 K) : glm_dot v w = glm_dot w v := by
  simp only [glm_dot]; ring

theorem dot_cross_left (a b : Vec3 K) : glm_dot (glm_cross a b) a = 0 := by
  simp only [glm_dot, glm_cross]; ring

theorem dot_cross_right (a b : Vec3 K) : glm_dot (glm_cross a b) b = 0 := by
  simp only [glm_dot, glm_cross]; ring

/-- Lagrange identity. -/
theorem dot_cross_self (a b : Vec3 K) :
    glm_dot (glm_cross a b) (glm_cross a b) =
      glm_dot a a * glm_dot b b - glm_dot a b * glm_dot a b := by
  simp only [glm_dot, glm_cross]; ring

/-- Cauchy-Schwarz for a unit vector: `|a . v| ≤ |v|`. -/
theorem abs_dot_le_length (L : Libm K) (hS : SqrtLaws L.sqrt) (a v : Vec3 K)
    (ha : glm_dot a a = 1) : |glm_dot a v| ≤ glm_length L v := by
  have h0 := dot_self_nonneg (glm_cross a v)
  rw [dot_cross_self, ha, one_mul] at h0
  have hm := hS.mul_self_sqrt _ (dot_self_nonneg v)
  have hn := hS.sqrt_nonneg (glm_dot v v)
  simp only [glm_length]
  have hsq : glm_dot a v * glm_dot a v ≤ L.sqrt (glm_dot v v) * L.sqrt (glm_dot v v) := by
    rw [hm]; linarith
  rw [abs_le]
  constructor <;> nlinarith

end VectorLemmas

section FrustumBasis

variable {K : Type} [LinearOrderedField K]

/-- With a unit forward vector not parallel to the world up `(0,1,0)`, the
`right` and `up` of `update_frustum_corners` form, with `forward`, an
orthonormal frame, and they are the same in every iteration. -/
theorem frustum_basis (L : Libm K) (hS : SqrtLaws L.sqrt) (camera : Camera K)
    (hunit : glm_dot camera.m_forward camera.m_forward = 1)
    (hnp : glm_cross camera.m_forward ⟨0, 1, 0⟩ ≠ ⟨0, 0, 0⟩) (right up : Vec3 K)
    (hr : right = glm_normalize L (glm_cross camera.m_forward ⟨0, 1, 0⟩))
    (hu : up = glm_normalize L (glm_cross right camera.m_forward)) :
    glm_dot right right = 1 ∧ glm_dot up up = 1 ∧ glm_dot camera.m_forward right = 0 ∧
    glm_dot camera.m_forward up = 0 ∧ glm_dot right up = 0 ∧
    (∀ n : Nat, right_at L camera n = right) ∧ (∀ n : Nat, up_at L camera n = up) := by
  have hpos := dot_self_pos _ hnp
  have h1 : glm_dot right right = 1 := by rw [hr]; exact dot_normalize_self L hS _ hpos
  have h2 : glm_dot right camera.m_forward = 0 := by
    rw [hr, dot_normalize_left, dot_cross_left, zero_mul]
  have h3 : glm_dot (glm_cross right camera.m_forward) (glm_cross right camera.m_forward) = 1 := by
    rw [dot_cross_self, h1, hunit, h2]; ring
  have hu2 : up = glm_cross right camera.m_forward := by rw [hu]; exact normalize_unit L hS _ h3
  have hn : glm_normalize L right = right := normalize_unit L hS _ h1
  have hra : ∀ n : Nat, right_at L camera n = right := by
    intro n
    induction n with
    | zero => simp only [right_at, Function.iterate_succ, Function.iterate_zero,
        Function.comp_apply, id_eq, zero_add]; exact hr.symm
    | succ n ih =>
      simp only [right_at] at ih ⊢
      rw [Function.iterate_succ_apply', ih, hn]
  refine ⟨h1, ?_, ?_, ?_, ?_, hra, ?_⟩
  · rw [hu2]; exact h3
  · rw [dot_comm]; exact h2
  · rw [hu2, dot_comm]; exact dot_cross_right _ _
  · rw [hu2, dot_comm]; exact dot_cross_left _ _
  · intro n
    simp only [up_at, hra n]
    exact hu.symm

/-- C19: for a unit camera forward vector not parallel to the world up
`(0,1,0)`, `update_frustum_corners` uses `right = normalize(forward x (0,1,0))`
and `up = normalize(right x forward)`, which together with `forward` are
mutually orthogonal unit vectors, and for every split the corners 0..3 (4..7)
form a rectangle centred on `position + forward * near_plane` (`far_plane`)
lying in the plane perpendicular to `forward` at that distance, with
half-height `tan(fov/2) * distance` along `up` and half-width
`half-height * ratio` along `right`, ordered bottom-left, top-left, top-right,
bottom-right. -/
theorem frustum_corner_rectangles (L : Libm K) (hS : SqrtLaws L.sqrt) (camera : Camera K)
    (s : CSM K) (i : Int) (h8 : s.m_split_count ≤ 8) (hi0 : 0 ≤ i) (hi : i < s.m_split_count)
    (hunit : glm_dot camera.m_forward camera.m_forward = 1)
    (hnp : glm_cross camera.m_forward ⟨0, 1, 0⟩ ≠ ⟨0, 0, 0⟩) (right up : Vec3 K)
    (hr : right = glm_normalize L (glm_cross camera.m_forward ⟨0, 1, 0⟩))
    (hu : up = glm_normalize L (glm_cross right camera.m_forward))
    (nc fc : Vec3 K) (hh wh : K → K)
    (hnc : nc = camera.m_position.add (camera.m_forward.scale (s.m_splits i).near_plane))
    (hfc : fc = camera.m_position.add (camera.m_forward.scale (s.m_splits i).far_plane))
    (hhh : ∀ d, hh d = L.tan ((s.m_splits i).fov / 2) * d)
    (hwh : ∀ d, wh d = hh d * (s.m_splits i).ratio) :
    ∃ s1, update_frustum_corners L camera s = some s1 ∧
      (glm_dot right right = 1 ∧ glm_dot up up = 1 ∧
        glm_dot camera.m_forward camera.m_forward = 1 ∧
        glm_dot camera.m_forward right = 0 ∧ glm_dot camera.m_forward up = 0 ∧
        glm_dot right up = 0) ∧
      ((s1.m_splits i).corners 0 =
          (nc.sub (up.scale (hh (s.m_splits i).near_plane))).sub
            (right.scale (wh (s.m_splits i).near_plane)) ∧
        (s1.m_splits i).corners 1 =
          (nc.add (up.scale (hh (s.m_splits i).near_plane))).sub
            (right.scale (wh (s.m_splits i).near_plane)) ∧
        (s1.m_splits i).corners 2 =
          (nc.add (up.scale (hh (s.m_splits i).near_plane))).add
            (right.scale (wh (s.m_splits i).near_plane)) ∧
        (s1.m_splits i).corners 3 =
          (nc.sub (up.scale (hh (s.m_splits i).near_plane))).add
            (right.scale (wh (s.m_splits i).near_plane)) ∧
        (s1.m_splits i).corners 4 =
          (fc.sub (up.scale (hh (s.m_splits i).far_plane))).sub
            (right.scale (wh (s.m_splits i).far_plane)) ∧
        (s1.m_splits i).corners 5 =
          (fc.add (up.scale (hh (s.m_splits i).far_plane))).sub
            (right.scale (wh (s.m_splits i).far_plane)) ∧
        (s1.m_splits i).corners 6 =
          (fc.add (up.scale (hh (s.m_splits i).far_plane))).add
            (right.scale (wh (s.m_splits i).far_plane)) ∧
        (s1.m_splits i).corners 7 =
          (fc.sub (up.scale (hh (s.m_splits i).far_plane))).add
            (right.scale (wh (s.m_splits i).far_plane))) ∧
      (∀ j : Fin 8, j.val < 4 →
        glm_dot camera.m_forward (((s1.m_splits i).corners j).sub camera.m_position) =
          (s.m_splits i).near_plane) ∧
      (∀ j : Fin 8, 4 ≤ j.val →
        glm_dot camera.m_forward (((s1.m_splits i).corners j).sub camera.m_position) =
          (s.m_splits i).far_plane) := by
  obtain ⟨b1, b2, b3, b4, b5, b6, b7⟩ := frustum_basis L hS camera hunit hnp right up hr hu
  have hc : ((corners_after L camera s) i).corners =
      frustum_corners L camera.m_position camera.m_forward right up (s.m_splits i) := by
    simp only [corners_after, hi0, hi, and_self, if_true, b6, b7]
  obtain ⟨e0, e1, e2, e3, e4, e5, e6, e7⟩ :=
    frustum_corners_apply L camera.m_position camera.m_forward right up (s.m_splits i)
  have hunit0 := hunit
  have b30 := b3
  have b40 := b4
  simp only [glm_dot] at hunit0 b30 b40
  have p0 : glm_dot camera.m_forward
      ((frustum_corners L camera.m_position camera.m_forward right up (s.m_splits i) 0).sub
        camera.m_position) = (s.m_splits i).near_plane := by
    rw [e0]
    simp only [glm_dot, Vec3.add, Vec3.sub, Vec3.scale]
    linear_combination (s.m_splits i).near_plane * hunit0 -
      (L.tan ((s.m_splits i).fov / 2) * (s.m_splits i).near_plane) * b40 -
      (L.tan ((s.m_splits i).fov / 2) * (s.m_splits i).near_plane * (s.m_splits i).ratio) * b30
  have p1 : glm_dot camera.m_forward
      ((frustum_corners L camera.m_position camera.m_forward right up (s.m_splits i) 1).sub
        camera.m_position) = (s.m_splits i).near_plane := by
    rw [e1]
    simp only [glm_dot, Vec3.add, Vec3.sub, Vec3.scale]
    linear_combination (s.m_splits i).near_plane * hunit0 +
      (L.tan ((s.m_splits i).fov / 2) * (s.m_splits i).near_plane) * b40 -
      (L.tan ((s.m_splits i).fov / 2) * (s.m_splits i).near_plane * (s.m_splits i).ratio) * b30
  have p2 : glm_dot camera.m_forward
      ((frustum_corners L camera.m_position camera.m_forward right up (s.m_splits i) 2).sub
        camera.m_position) = (s.m_splits i).near_plane := by
    rw [e2]
    simp only [glm_dot, Vec3.add, Vec3.sub, Vec3.scale]
    linear_combination (s.m_splits i).near_plane * hunit0 +
      (L.tan ((s.m_splits i).fov / 2) * (s.m_splits i).near_plane) * b40 +
      (L.tan ((s.m_splits i).fov / 2) * (s.m_splits i).near_plane * (s.m_splits i).ratio) * b30
  have p3 : glm_dot camera.m_forward
      ((frustum_corners L camera.m_position camera.m_forward right up (s.m_splits i) 3).sub
        camera.m_position) = (s.m_splits i).near_plane := by
    rw [e3]
    simp only [glm_dot, Vec3.add, Vec3.sub, Vec3.scale]
    linear_combination (s.m_splits i).near_plane * hunit0 -
      (L.tan ((s.m_splits i).fov / 2) * (s.m_splits i).near_plane) * b40 +
      (L.tan ((s.m_splits i).fov / 2) * (s.m_splits i).near_plane * (s.m_splits i).ratio) * b30
  have p4 : glm_dot camera.m_forward
      ((frustum_corners L camera.m_position camera.m_forward right up (s.m_splits i) 4).sub
        camera.m_position) = (s.m_splits i).far_plane := by
    rw [e4]
    simp only [glm_dot, Vec3.add, Vec3.sub, Vec3.scale]
    linear_combination (s.m_splits i).far_plane * hunit0 -
      (L.tan ((s.m_splits i).fov / 2) * (s.m_splits i).far_plane) * b40 -
      (L.tan ((s.m_splits i).fov / 2) * (s.m_splits i).far_plane * (s.m_splits i).ratio) * b30
  have p5 : glm_dot camera.m_forward
      ((frustum_corners L camera.m_position camera.m_forward right up (s.m_splits i) 5).sub
        camera.m_position) = (s.m_splits i).far_plane := by
    rw [e5]
    simp only [glm_dot, Vec3.add, Vec3.sub, Vec3.scale]
    linear_combination (s.m_splits i).far_plane * hunit0 +
      (L.tan ((s.m_splits i).fov / 2) * (s.m_splits i).far_plane) * b40 -
      (L.tan ((s.m_splits i).fov / 2) * (s.m_splits i).far_plane * (s.m_splits i).ratio) * b30
  have p6 : glm_dot camera.m_forward
      ((frustum_corners L camera.m_position camera.m_forward right up (s.m_splits i) 6).sub
        camera.m_position) = (s.m_splits i).far_plane := by
    rw [e6]
    simp only [glm_dot, Vec3.add, Vec3.sub, Vec3.scale]
    linear_combination (s.m_splits i).far_plane * hunit0 +
      (L.tan ((s.m_splits i).fov / 2) * (s.m_splits i).far_plane) * b40 +
      (L.tan ((s.m_splits i).fov / 2) * (s.m_splits i).far_plane * (s.m_splits i).ratio) * b30
  have p7 : glm_dot camera.m_forward
      ((frustum_corners L camera.m_position camera.m_forward right up (s.m_splits i) 7).sub
        camera.m_position) = (s.m_splits i).far_plane := by
    rw [e7]
    simp only [glm_dot, Vec3.add, Vec3.sub, Vec3.scale]
    linear_combination (s.m_splits i).far_plane * hunit0 -
      (L.tan ((s.m_splits i).fov / 2) * (s.m_splits i).far_plane) * b40 +
      (L.tan ((s.m_splits i).fov / 2) * (s.m_splits i).far_plane * (s.m_splits i).ratio) * b30
  refine ⟨_, update_frustum_corners_eq L camera s h8, ⟨b1, b2, hunit, b3, b4, b5⟩, ?_, ?_, ?_⟩
  · show ((corners_after L camera s) i).corners 0 = _ ∧ ((corners_after L camera s) i).corners 1 = _ ∧
      ((corners_after L camera s) i).corners 2 = _ ∧ ((corners_after L camera s) i).corners 3 = _ ∧
      ((corners_after L camera s) i).corners 4 = _ ∧ ((corners_after L camera s) i).corners 5 = _ ∧
      ((corners_after L camera s) i).corners 6 = _ ∧ ((corners_after L camera s) i).corners 7 = _
    rw [hc, e0, e1, e2, e3, e4, e5, e6, e7, hnc, hfc, hwh, hwh, hhh, hhh]
    exact ⟨rfl, rfl, rfl, rfl, rfl, rfl, rfl, rfl⟩
  · intro j hj
    show glm_dot camera.m_forward ((((corners_after L camera s) i).corners j).sub
      camera.m_position) = _
    rw [hc]
    fin_cases j <;>
      first
      | (exfalso; simp at hj; done)
      | exact p0
      | exact p1
      | exact p2
      | exact p3
  · intro j hj
    show glm_dot camera.m_forward ((((corners_after L camera s) i).corners j).sub
      camera.m_position) = _
    rw [hc]
    fin_cases j <;>
      first
      | (exfalso; simp at hj; done)
      | exact p4
      | exact p5
      | exact p6
      | exact p7

end FrustumBasis

section InitializeCorners

variable {K : Type} [LinearOrderedField K] [FloorRing K]

/-- The eight corners of the single split after `initialize`, for a camera at
the origin looking down `-z` with near 1, far 2 and a square viewport: the
half-height at distance 1 is `T = tan((fov / 57.2957795 + 0.2) / 2)`. -/
theorem initialize_axis_split (L : Libm K) (hS : SqrtLaws L.sqrt) (lambda near_offset : K)
    (shadow_map_size : Int) (fv : K) (projection : Mat4 K) (w : Int) (hw : w ≠ 0)
    (dir : Vec3 K) (s : CSM K) (T : K) (hT : T = L.tan ((fv / 57.2957795 + 0.2) / 2)) :
    ∃ s1, CSM_initialize L lambda near_offset 1 shadow_map_size
        (axis_camera K 1 2 fv projection) w w dir s = some s1 ∧
      (s1.m_splits 0).fov = fv / 57.2957795 + 0.2 ∧ (s1.m_splits 0).ratio = 1 ∧
      (s1.m_splits 0).near_plane = 1 ∧ (s1.m_splits 0).far_plane = 2 ∧
      (s1.m_splits 0).corners 0 = ⟨-T, -T, -1⟩ ∧ (s1.m_splits 0).corners 1 = ⟨-T, T, -1⟩ ∧
      (s1.m_splits 0).corners 2 = ⟨T, T, -1⟩ ∧ (s1.m_splits 0).corners 3 = ⟨T, -T, -1⟩ ∧
      (s1.m_splits 0).corners 4 = ⟨-(2 * T), -(2 * T), -2⟩ ∧
      (s1.m_splits 0).corners 5 = ⟨-(2 * T), 2 * T, -2⟩ ∧
      (s1.m_splits 0).corners 6 = ⟨2 * T, 2 * T, -2⟩ ∧
      (s1.m_splits 0).corners 7 = ⟨2 * T, -(2 * T), -2⟩ := by
  have hwK : (w : K) ≠ 0 := by exact_mod_cast hw
  have hcross : glm_cross (axis_camera K 1 2 fv projection).m_forward ⟨0, 1, 0⟩ =
      (⟨1, 0, 0⟩ : Vec3 K) := by
    ext <;> simp [glm_cross, axis_camera]
  have hright : right_at L (axis_camera K 1 2 fv projection) 0 = ⟨1, 0, 0⟩ := by
    simp only [right_at, Function.iterate_succ, Function.iterate_zero, Function.comp_apply,
      id_eq, zero_add, hcross]
    exact normalize_unit L hS _ (by simp [glm_dot])
  have hup : up_at L (axis_camera K 1 2 fv projection) 0 = ⟨0, 1, 0⟩ := by
    have hc2 : glm_cross (⟨1, 0, 0⟩ : Vec3 K) (axis_camera K 1 2 fv projection).m_forward =
        ⟨0, 1, 0⟩ := by
      ext <;> simp [glm_cross, axis_camera]
    simp only [up_at, hright, hc2]
    exact normalize_unit L hS _ (by simp [glm_dot])
  have hsplit : (update_closed L (axis_camera K 1 2 fv projection) dir
      (initialize_pre lambda near_offset 1 shadow_map_size (axis_camera K 1 2 fv projection)
        w w s)).m_splits 0 =
      { splits_after L (axis_camera K 1 2 fv projection)
          (initialize_pre lambda near_offset 1 shadow_map_size
            (axis_camera K 1 2 fv projection) w w s) 0 with
        corners := frustum_corners L (axis_camera K 1 2 fv projection).m_position
          (axis_camera K 1 2 fv projection).m_forward ⟨1, 0, 0⟩ ⟨0, 1, 0⟩
          (splits_after L (axis_camera K 1 2 fv projection)
            (initialize_pre lambda near_offset 1 shadow_map_size
              (axis_camera K 1 2 fv projection) w w s) 0)
        center := split_center (frustum_corners L (axis_camera K 1 2 fv projection).m_position
          (axis_camera K 1 2 fv projection).m_forward ⟨1, 0, 0⟩ ⟨0, 1, 0⟩
          (splits_after L (axis_camera K 1 2 fv projection)
            (initialize_pre lambda near_offset 1 shadow_map_size
              (axis_camera K 1 2 fv projection) w w s) 0)) } := by
    rw [uc_splits]
    have hin : (0 : Int) ≤ 0 ∧ (0 : Int) < (initialize_pre lambda near_offset 1 shadow_map_size
        (axis_camera K 1 2 fv projection) w w s).m_split_count := ⟨le_rfl, by
      show (0 : Int) < 1; norm_num⟩
    rw [if_pos hin]
    simp only [Int.toNat_zero, hright, hup]
  have hfov : (splits_after L (axis_camera K 1 2 fv projection)
      (initialize_pre lambda near_offset 1 shadow_map_size (axis_camera K 1 2 fv projection)
        w w s) 0).fov = fv / 57.2957795 + 0.2 := by
    simp [splits_after, initialize_pre, fov_after_loop, axis_camera]
  have hratio : (splits_after L (axis_camera K 1 2 fv projection)
      (initialize_pre lambda near_offset 1 shadow_map_size (axis_camera K 1 2 fv projection)
        w w s) 0).ratio = 1 := by
    simp [splits_after, initialize_pre, fov_after_loop, hwK]
  have hnear : (splits_after L (axis_camera K 1 2 fv projection)
      (initialize_pre lambda near_offset 1 shadow_map_size (axis_camera K 1 2 fv projection)
        w w s) 0).near_plane = 1 := by
    simp [splits_after, axis_camera]
  have hfar : (splits_after L (axis_camera K 1 2 fv projection)
      (initialize_pre lambda near_offset 1 shadow_map_size (axis_camera K 1 2 fv projection)
        w w s) 0).far_plane = 2 := by
    simp [splits_after, initialize_pre, axis_camera]
  obtain ⟨e0, e1, e2, e3, e4, e5, e6, e7⟩ := frustum_corners_apply L
    (axis_camera K 1 2 fv projection).m_position (axis_camera K 1 2 fv projection).m_forward
    ⟨1, 0, 0⟩ ⟨0, 1, 0⟩
    (splits_after L (axis_camera K 1 2 fv projection)
      (initialize_pre lambda near_offset 1 shadow_map_size (axis_camera K 1 2 fv projection)
        w w s) 0)
  simp only [hfov, hratio, hnear, hfar, ← hT] at e0 e1 e2 e3 e4 e5 e6 e7
  obtain ⟨X, hX⟩ : ∃ X, X = (update_closed L (axis_camera K 1 2 fv projection) dir
      (initialize_pre lambda near_offset 1 shadow_map_size (axis_camera K 1 2 fv projection)
        w w s)).m_splits 0 := ⟨_, rfl⟩
  have hXe := hX
  rw [hsplit] at hXe
  have hcor : X.corners = frustum_corners L (axis_camera K 1 2 fv projection).m_position
      (axis_camera K 1 2 fv projection).m_forward ⟨1, 0, 0⟩ ⟨0, 1, 0⟩
      (splits_after L (axis_camera K 1 2 fv projection)
        (initialize_pre lambda near_offset 1 shadow_map_size (axis_camera K 1 2 fv projection)
          w w s) 0) := by rw [hXe]
  have hXfov : X.fov = fv / 57.2957795 + 0.2 := by rw [hXe]; exact hfov
  have hXratio : X.ratio = 1 := by rw [hXe]; exact hratio
  have hXnear : X.near_plane = 1 := by rw [hXe]; exact hnear
  have hXfar : X.far_plane = 2 := by rw [hXe]; exact hfar
  refine ⟨_, initialize_eq L lambda near_offset 1 shadow_map_size _ w w dir s le_rfl
    (by norm_num), ?_⟩
  rw [← hX]
  refine ⟨hXfov, hXratio, hXnear, hXfar, ?_, ?_, ?_, ?_, ?_, ?_, ?_, ?_⟩
  · rw [hcor, e0]; ext <;> simp [Vec3.add, Vec3.sub, Vec3.scale, axis_camera]
  · rw [hcor, e1]; ext <;> simp [Vec3.add, Vec3.sub, Vec3.scale, axis_camera]
  · rw [hcor, e2]; ext <;> simp [Vec3.add, Vec3.sub, Vec3.scale, axis_camera]
  · rw [hcor, e3]; ext <;> simp [Vec3.add, Vec3.sub, Vec3.scale, axis_camera]
  · rw [hcor, e4]; ext <;> simp [Vec3.add, Vec3.sub, Vec3.scale, axis_camera] <;> ring
  · rw [hcor, e5]; ext <;> simp [Vec3.add, Vec3.sub, Vec3.scale, axis_camera] <;> ring
  · rw [hcor, e6]; ext <;> simp [Vec3.add, Vec3.sub, Vec3.scale, axis_camera] <;> ring
  · rw [hcor, e7]; ext <;> simp [Vec3.add, Vec3.sub, Vec3.scale, axis_camera] <;> ring

/-- C13 (amended): for a camera with `fov = 90` degrees, aspect ratio 1,
`near = 1`, `far = 2`, at the origin looking down `-z`, and a single split,
`initialize` returns with the split's fov set to `90 / 57.2957795 + 0.2`
radians (the conversion to radians plus the deliberate 0.2 margin), so the
near-plane half-height is `T = tan((90 / 57.2957795 + 0.2) / 2) * 1` and the
corners are `(-T,-T,-1)`, `(-T,T,-1)`, `(T,T,-1)`, `(T,-T,-1)` on the near
plane and `(-2T,-2T,-2)`, `(-2T,2T,-2)`, `(2T,2T,-2)`, `(2T,-2T,-2)` on the far
plane, in that order. -/
theorem initialize_corners_fov90 (L : Libm K) (hS : SqrtLaws L.sqrt) (lambda near_offset : K)
    (shadow_map_size : Int) (projection : Mat4 K) (w : Int) (hw : w ≠ 0)
    (dir : Vec3 K) (s : CSM K) (T : K) (hT : T = L.tan ((90 / 57.2957795 + 0.2) / 2)) :
    ∃ s1, CSM_initialize L lambda near_offset 1 shadow_map_size
        (axis_camera K 1 2 90 projection) w w dir s = some s1 ∧
      (s1.m_splits 0).fov = 90 / 57.2957795 + 0.2 ∧
      L.tan ((s1.m_splits 0).fov / 2) * (s1.m_splits 0).near_plane = T ∧
      (s1.m_splits 0).corners 0 = ⟨-T, -T, -1⟩ ∧ (s1.m_splits 0).corners 1 = ⟨-T, T, -1⟩ ∧
      (s1.m_splits 0).corners 2 = ⟨T, T, -1⟩ ∧ (s1.m_splits 0).corners 3 = ⟨T, -T, -1⟩ ∧
      (s1.m_splits 0).corners 4 = ⟨-(2 * T), -(2 * T), -2⟩ ∧
      (s1.m_splits 0).corners 5 = ⟨-(2 * T), 2 * T, -2⟩ ∧
      (s1.m_splits 0).corners 6 = ⟨2 * T, 2 * T, -2⟩ ∧
      (s1.m_splits 0).corners 7 = ⟨2 * T, -(2 * T), -2⟩ := by
  obtain ⟨s1, h, hfov, _, hnear, _, c0, c1, c2, c3, c4, c5, c6, c7⟩ :=
    initialize_axis_split L hS lambda near_offset shadow_map_size 90 projection w hw dir s T hT
  refine ⟨s1, h, hfov, ?_, c0, c1, c2, c3, c4, c5, c6, c7⟩
  rw [hfov, hnear, hT, mul_one]

end InitializeCorners

section InitializeExamples

theorem tan_fov90_gt_one : 1 < Real.tan ((90 / 57.2957795 + 0.2) / 2) := by
  have h1 := Real.pi_gt_three
  have h2 := Real.pi_lt_d2
  rw [← Real.tan_pi_div_four]
  apply Real.tan_lt_tan_of_lt_of_lt_pi_div_two
  · linarith
  · norm_num; linarith
  · norm_num; linarith

theorem initialize_corners_fov90_witness :
    ∃ s1, CSM_initialize ⟨fun r s : ℝ => r ^ s, Real.sqrt, Real.tan⟩ (1 / 2) 1 1 1024
        (axis_camera ℝ 1 2 90 (mat4_diag 1)) 1024 1024 ⟨1, -1, 0⟩
        (blank_state ℝ 0 0 0 0 true) = some s1 ∧
      (s1.m_splits 0).fov = 90 / 57.2957795 + 0.2 ∧
      Real.tan ((s1.m_splits 0).fov / 2) * (s1.m_splits 0).near_plane =
        Real.tan ((90 / 57.2957795 + 0.2) / 2) ∧
      (s1.m_splits 0).corners 0 = ⟨-Real.tan ((90 / 57.2957795 + 0.2) / 2),
        -Real.tan ((90 / 57.2957795 + 0.2) / 2), -1⟩ ∧
      (s1.m_splits 0).corners 1 = ⟨-Real.tan ((90 / 57.2957795 + 0.2) / 2),
        Real.tan ((90 / 57.2957795 + 0.2) / 2), -1⟩ ∧
      (s1.m_splits 0).corners 2 = ⟨Real.tan ((90 / 57.2957795 + 0.2) / 2),
        Real.tan ((90 / 57.2957795 + 0.2) / 2), -1⟩ ∧
      (s1.m_splits 0).corners 3 = ⟨Real.tan ((90 / 57.2957795 + 0.2) / 2),
        -Real.tan ((90 / 57.2957795 + 0.2) / 2), -1⟩ ∧
      (s1.m_splits 0).corners 4 = ⟨-(2 * Real.tan ((90 / 57.2957795 + 0.2) / 2)),
        -(2 * Real.tan ((90 / 57.2957795 + 0.2) / 2)), -2⟩ ∧
      (s1.m_splits 0).corners 5 = ⟨-(2 * Real.tan ((90 / 57.2957795 + 0.2) / 2)),
        2 * Real.tan ((90 / 57.2957795 + 0.2) / 2), -2⟩ ∧
      (s1.m_splits 0).corners 6 = ⟨2 * Real.tan ((90 / 57.2957795 + 0.2) / 2),
        2 * Real.tan ((90 / 57.2957795 + 0.2) / 2), -2⟩ ∧
      (s1.m_splits 0).corners 7 = ⟨2 * Real.tan ((90 / 57.2957795 + 0.2) / 2),
        -(2 * Real.tan ((90 / 57.2957795 + 0.2) / 2)), -2⟩ :=
  initialize_corners_fov90 ⟨fun r s : ℝ => r ^ s, Real.sqrt, Real.tan⟩ real_sqrt_laws (1 / 2) 1 1024 (mat4_diag 1) 1024 (by norm_num)
    ⟨1, -1, 0⟩ (blank_state ℝ 0 0 0 0 true) _ rfl

/-- C13, as stated, fails: after `initialize` with `fov = 90` degrees the
near-plane half-height is `tan((90 / 57.2957795 + 0.2) / 2) > 1`, not
`tan(45 degrees) = 1`, and corner 0 is not `(-1,-1,-1)`. -/
theorem initialize_corners_counterexample :
    ∃ s1, CSM_initialize ⟨fun r s : ℝ => r ^ s, Real.sqrt, Real.tan⟩ (1 / 2) 1 1 1024
        (axis_camera ℝ 1 2 90 (mat4_diag 1)) 1024 1024 ⟨1, -1, 0⟩
        (blank_state ℝ 0 0 0 0 true) = some s1 ∧
      1 < Real.tan ((s1.m_splits 0).fov / 2) * (s1.m_splits 0).near_plane ∧
      (s1.m_splits 0).corners 0 ≠ ⟨-1, -1, -1⟩ := by
  obtain ⟨s1, h, hfov, _, hnear, _, c0, _⟩ :=
    initialize_axis_split ⟨fun r s : ℝ => r ^ s, Real.sqrt, Real.tan⟩ real_sqrt_laws (1 / 2) 1 1024 90 (mat4_diag 1) 1024 (by norm_num)
      ⟨1, -1, 0⟩ (blank_state ℝ 0 0 0 0 true) _ rfl
  refine ⟨s1, h, ?_, ?_⟩
  · rw [hfov, hnear, mul_one]
    exact tan_fov90_gt_one
  · rw [c0]
    intro hc
    have hx := congrArg Vec3.x hc
    simp only [neg_inj] at hx
    have := tan_fov90_gt_one
    rw [hx] at this
    exact lt_irrefl _ this

theorem frustum_corner_rectangles_witness :
    ∃ s1, update_frustum_corners ⟨fun r s : ℝ => r ^ s, Real.sqrt, Real.tan⟩ (axis_camera ℝ 1 2 1 (mat4_diag 1))
        (slice_state ℝ 1 1024 true) = some s1 ∧
      (glm_dot (glm_normalize ⟨fun r s : ℝ => r ^ s, Real.sqrt, Real.tan⟩ (glm_cross ⟨0, 0, -1⟩ ⟨0, 1, 0⟩)) (glm_normalize ⟨fun r s : ℝ => r ^ s, Real.sqrt, Real.tan⟩ (glm_cross ⟨0, 0, -1⟩ ⟨0, 1, 0⟩)) = 1 ∧ glm_dot (glm_normalize ⟨fun r s : ℝ => r ^ s, Real.sqrt, Real.tan⟩ (glm_cross (glm_normalize ⟨fun r s : ℝ => r ^ s, Real.sqrt, Real.tan⟩ (glm_cross ⟨0, 0, -1⟩ ⟨0, 1, 0⟩)) ⟨0, 0, -1⟩)) (glm_normalize ⟨fun r s : ℝ => r ^ s, Real.sqrt, Real.tan⟩ (glm_cross (glm_normalize ⟨fun r s : ℝ => r ^ s, Real.sqrt, Real.tan⟩ (glm_cross ⟨0, 0, -1⟩ ⟨0, 1, 0⟩)) ⟨0, 0, -1⟩)) = 1 ∧
        glm_dot (⟨0, 0, -1⟩ : Vec3 ℝ) ⟨0, 0, -1⟩ = 1 ∧
        glm_dot (⟨0, 0, -1⟩ : Vec3 ℝ) (glm_normalize ⟨fun r s : ℝ => r ^ s, Real.sqrt, Real.tan⟩ (glm_cross ⟨0, 0, -1⟩ ⟨0, 1, 0⟩)) = 0 ∧ glm_dot (⟨0, 0, -1⟩ : Vec3 ℝ) (glm_normalize ⟨fun r s : ℝ => r ^ s, Real.sqrt, Real.tan⟩ (glm_cross (glm_normalize ⟨fun r s : ℝ => r ^ s, Real.sqrt, Real.tan⟩ (glm_cross ⟨0, 0, -1⟩ ⟨0, 1, 0⟩)) ⟨0, 0, -1⟩)) = 0 ∧
        glm_dot (glm_normalize ⟨fun r s : ℝ => r ^ s, Real.sqrt, Real.tan⟩ (glm_cross ⟨0, 0, -1⟩ ⟨0, 1, 0⟩)) (glm_normalize ⟨fun r s : ℝ => r ^ s, Real.sqrt, Real.tan⟩ (glm_cross (glm_normalize ⟨fun r s : ℝ => r ^ s, Real.sqrt, Real.tan⟩ (glm_cross ⟨0, 0, -1⟩ ⟨0, 1, 0⟩)) ⟨0, 0, -1⟩)) = 0) ∧
      ((s1.m_splits 0).corners 0 = (((⟨0, 0, 0⟩ : Vec3 ℝ).add ((⟨0, 0, -1⟩ : Vec3 ℝ).scale 1)).sub ((glm_normalize ⟨fun r s : ℝ => r ^ s, Real.sqrt, Real.tan⟩ (glm_cross (glm_normalize ⟨fun r s : ℝ => r ^ s, Real.sqrt, Real.tan⟩ (glm_cross ⟨0, 0, -1⟩ ⟨0, 1, 0⟩)) ⟨0, 0, -1⟩)).scale (Real.tan (1 / 2) * 1))).sub ((glm_normalize ⟨fun r s : ℝ => r ^ s, Real.sqrt, Real.tan⟩ (glm_cross ⟨0, 0, -1⟩ ⟨0, 1, 0⟩)).scale (Real.tan (1 / 2) * 1 * 1)) ∧
        (s1.m_splits 0).corners 1 = (((⟨0, 0, 0⟩ : Vec3 ℝ).add ((⟨0, 0, -1⟩ : Vec3 ℝ).scale 1)).add ((glm_normalize ⟨fun r s : ℝ => r ^ s, Real.sqrt, Real.tan⟩ (glm_cross (glm_normalize ⟨fun r s : ℝ => r ^ s, Real.sqrt, Real.tan⟩ (glm_cross ⟨0, 0, -1⟩ ⟨0, 1, 0⟩)) ⟨0, 0, -1⟩)).scale (Real.tan (1 / 2) * 1))).sub ((glm_normalize ⟨fun r s : ℝ => r ^ s, Real.sqrt, Real.tan⟩ (glm_cross ⟨0, 0, -1⟩ ⟨0, 1, 0⟩)).scale (Real.tan (1 / 2) * 1 * 1)) ∧
        (s1.m_splits 0).corners 2 = (((⟨0, 0, 0⟩ : Vec3 ℝ).add ((⟨0, 0, -1⟩ : Vec3 ℝ).scale 1)).add ((glm_normalize ⟨fun r s : ℝ => r ^ s, Real.sqrt, Real.tan⟩ (glm_cross (glm_normalize ⟨fun r s : ℝ => r ^ s, Real.sqrt, Real.tan⟩ (glm_cross ⟨0, 0, -1⟩ ⟨0, 1, 0⟩)) ⟨0, 0, -1⟩)).scale (Real.tan (1 / 2) * 1))).add ((glm_normalize ⟨fun r s : ℝ => r ^ s, Real.sqrt, Real.tan⟩ (glm_cross ⟨0, 0, -1⟩ ⟨0, 1, 0⟩)).scale (Real.tan (1 / 2) * 1 * 1)) ∧
        (s1.m_splits 0).corners 3 = (((⟨0, 0, 0⟩ : Vec3 ℝ).add ((⟨0, 0, -1⟩ : Vec3 ℝ).scale 1)).sub ((glm_normalize ⟨fun r s : ℝ => r ^ s, Real.sqrt, Real.tan⟩ (glm_cross (glm_normalize ⟨fun r s : ℝ => r ^ s, Real.sqrt, Real.tan⟩ (glm_cross ⟨0, 0, -1⟩ ⟨0, 1, 0⟩)) ⟨0, 0, -1⟩)).scale (Real.tan (1 / 2) * 1))).add ((glm_normalize ⟨fun r s : ℝ => r ^ s, Real.sqrt, Real.tan⟩ (glm_cross ⟨0, 0, -1⟩ ⟨0, 1, 0⟩)).scale (Real.tan (1 / 2) * 1 * 1)) ∧
        (s1.m_splits 0).corners 4 = (((⟨0, 0, 0⟩ : Vec3 ℝ).add ((⟨0, 0, -1⟩ : Vec3 ℝ).scale 2)).sub ((glm_normalize ⟨fun r s : ℝ => r ^ s, Real.sqrt, Real.tan⟩ (glm_cross (glm_normalize ⟨fun r s : ℝ => r ^ s, Real.sqrt, Real.tan⟩ (glm_cross ⟨0, 0, -1⟩ ⟨0, 1, 0⟩)) ⟨0, 0, -1⟩)).scale (Real.tan (1 / 2) * 2))).sub ((glm_normalize ⟨fun r s : ℝ => r ^ s, Real.sqrt, Real.tan⟩ (glm_cross ⟨0, 0, -1⟩ ⟨0, 1, 0⟩)).scale (Real.tan (1 / 2) * 2 * 1)) ∧
        (s1.m_splits 0).corners 5 = (((⟨0, 0, 0⟩ : Vec3 ℝ).add ((⟨0, 0, -1⟩ : Vec3 ℝ).scale 2)).add ((glm_normalize ⟨fun r s : ℝ => r ^ s, Real.sqrt, Real.tan⟩ (glm_cross (glm_normalize ⟨fun r s : ℝ => r ^ s, Real.sqrt, Real.tan⟩ (glm_cross ⟨0, 0, -1⟩ ⟨0, 1, 0⟩)) ⟨0, 0, -1⟩)).scale (Real.tan (1 / 2) * 2))).sub ((glm_normalize ⟨fun r s : ℝ => r ^ s, Real.sqrt, Real.tan⟩ (glm_cross ⟨0, 0, -1⟩ ⟨0, 1, 0⟩)).scale (Real.tan (1 / 2) * 2 * 1)) ∧
        (s1.m_splits 0).corners 6 = (((⟨0, 0, 0⟩ : Vec3 ℝ).add ((⟨0, 0, -1⟩ : Vec3 ℝ).scale 2)).add ((glm_normalize ⟨fun r s : ℝ => r ^ s, Real.sqrt, Real.tan⟩ (glm_cross (glm_normalize ⟨fun r s : ℝ => r ^ s, Real.sqrt, Real.tan⟩ (glm_cross ⟨0, 0, -1⟩ ⟨0, 1, 0⟩)) ⟨0, 0, -1⟩)).scale (Real.tan (1 / 2) * 2))).add ((glm_normalize ⟨fun r s : ℝ => r ^ s, Real.sqrt, Real.tan⟩ (glm_cross ⟨0, 0, -1⟩ ⟨0, 1, 0⟩)).scale (Real.tan (1 / 2) * 2 * 1)) ∧
        (s1.m_splits 0).corners 7 = (((⟨0, 0, 0⟩ : Vec3 ℝ).add ((⟨0, 0, -1⟩ : Vec3 ℝ).scale 2)).sub ((glm_normalize ⟨fun r s : ℝ => r ^ s, Real.sqrt, Real.tan⟩ (glm_cross (glm_normalize ⟨fun r s : ℝ => r ^ s, Real.sqrt, Real.tan⟩ (glm_cross ⟨0, 0, -1⟩ ⟨0, 1, 0⟩)) ⟨0, 0, -1⟩)).scale (Real.tan (1 / 2) * 2))).add ((glm_normalize ⟨fun r s : ℝ => r ^ s, Real.sqrt, Real.tan⟩ (glm_cross ⟨0, 0, -1⟩ ⟨0, 1, 0⟩)).scale (Real.tan (1 / 2) * 2 * 1))) ∧
      (∀ j : Fin 8, j.val < 4 →
        glm_dot (⟨0, 0, -1⟩ : Vec3 ℝ) (((s1.m_splits 0).corners j).sub ⟨0, 0, 0⟩) = 1) ∧
      (∀ j : Fin 8, 4 ≤ j.val →
        glm_dot (⟨0, 0, -1⟩ : Vec3 ℝ) (((s1.m_splits 0).corners j).sub ⟨0, 0, 0⟩) = 2) :=
  frustum_corner_rectangles ⟨fun r s : ℝ => r ^ s, Real.sqrt, Real.tan⟩ real_sqrt_laws (axis_camera ℝ 1 2 1 (mat4_diag 1))
    (slice_state ℝ 1 1024 true) 0 (by simp [slice_state, blank_state]) le_rfl
    (by simp [slice_state, blank_state]) (by norm_num [glm_dot, axis_camera])
    (by
      intro hc
      have hx := congrArg Vec3.x hc
      norm_num [glm_cross, axis_camera] at hx)
    (glm_normalize ⟨fun r s : ℝ => r ^ s, Real.sqrt, Real.tan⟩ (glm_cross ⟨0, 0, -1⟩ ⟨0, 1, 0⟩)) (glm_normalize ⟨fun r s : ℝ => r ^ s, Real.sqrt, Real.tan⟩ (glm_cross (glm_normalize ⟨fun r s : ℝ => r ^ s, Real.sqrt, Real.tan⟩ (glm_cross ⟨0, 0, -1⟩ ⟨0, 1, 0⟩)) ⟨0, 0, -1⟩)) rfl rfl ((⟨0, 0, 0⟩ : Vec3 ℝ).add ((⟨0, 0, -1⟩ : Vec3 ℝ).scale 1)) ((⟨0, 0, 0⟩ : Vec3 ℝ).add ((⟨0, 0, -1⟩ : Vec3 ℝ).scale 2)) (fun d => Real.tan (1 / 2) * d) (fun d => Real.tan (1 / 2) * d * 1)
    rfl rfl (fun _ => rfl) (fun _ => rfl)

end InitializeExamples

section StableGeometry

variable {K : Type} [LinearOrderedField K] [FloorRing K]

theorem glm_ortho_entries (l r b t n f : K) :
    (glm_ortho l r b t n f).c0.x = 2 / (glm_ortho_divisors l r b t n f).1 ∧
    (glm_ortho l r b t n f).c1.y = 2 / (glm_ortho_divisors l r b t n f).2.1 ∧
    (glm_ortho l r b t n f).c2.z = -(2 / (glm_ortho_divisors l r b t n f).2.2) ∧
    (glm_ortho l r b t n f).c3.x = -((r + l) / (glm_ortho_divisors l r b t n f).1) ∧
    (glm_ortho l r b t n f).c3.y = -((t + b) / (glm_ortho_divisors l r b t n f).2.1) ∧
    (glm_ortho l r b t n f).c3.z = -((f + n) / (glm_ortho_divisors l r b t n f).2.2) :=
  ⟨rfl, rfl, rfl, rfl, rfl, rfl⟩

/-- The running maximum of line 261 bounds its start value and every length. -/
theorem fold_radius_ge {α : Type} (f : α → K) (l : List α) :
    ∀ init : K, init ≤ l.foldl (fun r j => max r (f j)) init ∧
      ∀ j ∈ l, f j ≤ l.foldl (fun r j => max r (f j)) init := by
  induction l with
  | nil => intro init; simp
  | cons a l ih =>
    intro init
    simp only [List.foldl_cons]
    obtain ⟨h1, h2⟩ := ih (max init (f a))
    refine ⟨le_trans (le_max_left _ _) h1, ?_⟩
    intro j hj
    rcases List.mem_cons.mp hj with h | h
    · subst h; exact le_trans (le_max_right _ _) h1
    · exact h2 j h

/-- The rounded radius is non-negative and bounds the distance of every corner
from the center. -/
theorem stable_radius_ge (L : Libm K) (c : Fin 8 → Vec3 K) (ctr : Vec3 K) :
    0 ≤ stable_radius L c ctr ∧ ∀ j, glm_length L ((c j).sub ctr) ≤ stable_radius L c ctr := by
  obtain ⟨h1, h2⟩ := fold_radius_ge (fun j => glm_length L ((c j).sub ctr)) (List.finRange 8) 0
  have hceil : ∀ x : K, x ≤ ceilf (x * 16) / 16 := by
    intro x
    have := Int.le_ceil (x * 16)
    simp only [ceilf]
    rw [le_div_iff₀ (by norm_num : (0 : K) < 16)]
    exact this
  simp only [stable_radius]
  refine ⟨le_trans h1 (hceil _), ?_⟩
  intro j
  exact le_trans (h2 j (List.mem_finRange j)) (hceil _)

/-- The image of a point under a look-at view matrix. -/
theorem lookAt_mulVec (L : Libm K) (eye center up p : Vec3 K) :
    (glm_lookAt L eye center up).mulVec (vec4_of p 1) =
      ⟨glm_dot (glm_normalize L (glm_cross (glm_normalize L (center.sub eye)) up)) (p.sub eye),
       glm_dot (glm_cross (glm_normalize L (glm_cross (glm_normalize L (center.sub eye)) up))
         (glm_normalize L (center.sub eye))) (p.sub eye),
       -(glm_dot (glm_normalize L (center.sub eye)) (p.sub eye)), 1⟩ := by
  ext <;> simp only [glm_lookAt, Mat4.mulVec, vec4_of, glm_dot, Vec3.sub] <;> ring

/-- The view direction of stable mode is the light direction. -/
theorem stable_view_forward (L : Libm K) (hS : SqrtLaws L.sqrt) (near_offset : K)
    (d ctr : Vec3 K) (hd : glm_dot d d = 1) (hno : 0 < near_offset) :
    glm_normalize L (ctr.sub (ctr.sub (d.scale near_offset))) = d := by
  have e : ctr.sub (ctr.sub (d.scale near_offset)) = d.scale near_offset := by
    ext <;> simp only [Vec3.sub, Vec3.scale] <;> ring
  have hdot : glm_dot (d.scale near_offset) (d.scale near_offset) = near_offset * near_offset := by
    have : glm_dot (d.scale near_offset) (d.scale near_offset) =
        glm_dot d d * (near_offset * near_offset) := by
      simp only [glm_dot, Vec3.scale]; ring
    rw [this, hd, one_mul]
  rw [e]
  simp only [glm_normalize]
  rw [hdot, sqrt_unique hS _ _ hno.le rfl]
  ext <;> simp only [Vec3.scale] <;> field_simp

/-- Clip coordinates of a point under the stable crop matrix before snapping,
for a unit light direction `d`: with `sv = normalize(d x up)`, `u = sv x d`
and `r > 0` the rounded radius, x is
`sv . (p - center) / r`, y is `u . (p - center) / r` and z is
`(d . (p - center) + near_offset - r) / (near_offset + r)`. -/
theorem stable_pre_crop_project (L : Libm K) (hS : SqrtLaws L.sqrt) (near_offset : K)
    (d up : Vec3 K) (c : Fin 8 → Vec3 K) (p : Vec3 K) (hd : glm_dot d d = 1)
    (hno : 0 < near_offset) (hr : 0 < stable_radius L c (split_center c)) :
    (project (stable_pre_crop L near_offset d up c) p).x =
      glm_dot (glm_normalize L (glm_cross d up)) (p.sub (split_center c)) /
        stable_radius L c (split_center c) ∧
    (project (stable_pre_crop L near_offset d up c) p).y =
      glm_dot (glm_cross (glm_normalize L (glm_cross d up)) d) (p.sub (split_center c)) /
        stable_radius L c (split_center c) ∧
    (project (stable_pre_crop L near_offset d up c) p).z =
      (glm_dot d (p.sub (split_center c)) + near_offset - stable_radius L c (split_center c)) /
        (near_offset + stable_radius L c (split_center c)) := by
  have hf := stable_view_forward L hS near_offset d (split_center c) hd hno
  have hsd : glm_dot (glm_normalize L (glm_cross d up)) d = 0 := by
    rw [dot_normalize_left, dot_cross_left, zero_mul]
  have hsum : 0 < near_offset + stable_radius L c (split_center c) := by linarith
  simp only [project, stable_pre_crop, stable_view, mul_mulVec, lookAt_mulVec, hf]
  generalize stable_radius L c (split_center c) = r at hr hsum ⊢
  generalize glm_normalize L (glm_cross d up) = sv at hsd ⊢
  simp only [glm_dot] at hsd hd
  simp only [stable_ortho, glm_ortho, Mat4.mulVec, Vec4.divs, Vec3.neg, Vec3.sub, Vec3.scale,
    glm_dot, glm_cross]
  have hr0 : r ≠ 0 := hr.ne'
  have hs0 : near_offset + r ≠ 0 := hsum.ne'
  have h2 : near_offset + (r - -r) - -near_offset ≠ 0 := by
    have : near_offset + (r - -r) - -near_offset = 2 * (near_offset + r) := by ring
    rw [this]; exact mul_ne_zero two_ne_zero hs0
  have h3 : r - -r ≠ 0 := by
    have : r - -r = 2 * r := by ring
    rw [this]; exact mul_ne_zero two_ne_zero hr0
  refine ⟨?_, ?_, ?_⟩
  · field_simp
    linear_combination (2 * r * near_offset) * hsd
  · field_simp
    ring
  · field_simp
    linear_combination ((near_offset + (r + r) + near_offset) ^ 2 * near_offset) * hd

/-- Snapping changes neither the z nor the w of an image. -/
theorem snap_mulVec_zw (M V : Mat4 K) (off v : Vec4 K) (hz : off.z = 0) (hw : off.w = 0) :
    (((snap_proj M off).mul V).mulVec v).z = ((M.mul V).mulVec v).z ∧
    (((snap_proj M off).mul V).mulVec v).w = ((M.mul V).mulVec v).w := by
  constructor <;> simp only [snap_proj, Mat4.mul, Mat4.mulVec, hz, hw] <;> ring

/-- Clip depth of a point under the stored (snapped) stable crop matrix, for a
unit light direction `d`: `(d . (p - center) + near_offset - r) / (near_offset + r)`
with `r` the rounded radius; the denominator is positive. -/
theorem stable_crop_depth (L : Libm K) (hS : SqrtLaws L.sqrt) (near_offset : K)
    (shadow_map_size : Int) (d up : Vec3 K) (c : Fin 8 → Vec3 K) (p : Vec3 K)
    (hd : glm_dot d d = 1) (hno : 0 < near_offset) :
    (project (stable_matrices L near_offset shadow_map_size d up c (split_center c)).2 p).z =
      (glm_dot d (p.sub (split_center c)) + near_offset - stable_radius L c (split_center c)) /
        (near_offset + stable_radius L c (split_center c)) ∧
    0 < near_offset + stable_radius L c (split_center c) := by
  have hf := stable_view_forward L hS near_offset d (split_center c) hd hno
  have hr := (stable_radius_ge L c (split_center c)).1
  have hsum : 0 < near_offset + stable_radius L c (split_center c) := by linarith
  refine ⟨?_, hsum⟩
  obtain ⟨hz, hw⟩ := snap_mulVec_zw
    (stable_ortho near_offset (stable_radius L c (split_center c)))
    (stable_view L near_offset d (split_center c) up)
    (round_offset ((stable_ortho near_offset (stable_radius L c (split_center c))).mul
      (stable_view L near_offset d (split_center c) up)) shadow_map_size)
    (vec4_of p 1) rfl rfl
  simp only [project, stable_matrices, Vec4.divs]
  rw [hz, hw]
  simp only [stable_view, mul_mulVec, lookAt_mulVec, hf]
  generalize stable_radius L c (split_center c) = r at hr hsum ⊢
  simp only [glm_dot] at hd
  simp only [stable_ortho, glm_ortho, Mat4.mulVec, Vec3.neg, Vec3.sub, Vec3.scale, glm_dot]
  have hs0 : near_offset + r ≠ 0 := hsum.ne'
  have h2 : near_offset + (r - -r) - -near_offset ≠ 0 := by
    have : near_offset + (r - -r) - -near_offset = 2 * (near_offset + r) := by ring
    rw [this]; exact mul_ne_zero two_ne_zero hs0
  field_simp
  linear_combination ((near_offset + (r + r) + near_offset) ^ 2 * near_offset) * hd

/-- C18: stable mode lateral coverage: with `r` the largest distance from the
split's centroid to any of its eight corners, rounded up to a multiple of
1/16, and `r > 0`, `near_offset > 0`, a unit light direction and a camera up
not parallel to it, `update_crop_matrices` returns, the stored crop matrix is
the snapped version of the pre-snap crop matrix `ortho x view`, and that
pre-snap matrix maps every one of the eight corners to a point with `x` in
`[-1,1]` and `y` in `[-1,1]`. -/
theorem stable_pre_crop_covers_xy (L : Libm K) (hS : SqrtLaws L.sqrt) (mv : Mat4 K)
    (camera : Camera K) (s : CSM K) (i : Int) (h8 : s.m_split_count ≤ 8) (hi0 : 0 ≤ i)
    (hi : i < s.m_split_count) (hst : s.m_stable_pssm = true) (hno : 0 < s.m_near_offset)
    (hd : glm_dot s.m_light_direction s.m_light_direction = 1)
    (hup : glm_cross s.m_light_direction camera.m_up ≠ ⟨0, 0, 0⟩)
    (hr : 0 < stable_radius L (s.m_splits i).corners (split_center (s.m_splits i).corners)) :
    ∃ s1, update_crop_matrices L mv camera s = some s1 ∧
      (s1.m_splits i).corners = (s.m_splits i).corners ∧
      s1.m_crop_matrices i =
        (snap_proj
          (stable_ortho s.m_near_offset
            (stable_radius L (s.m_splits i).corners (split_center (s.m_splits i).corners)))
          (round_offset
            (stable_pre_crop L s.m_near_offset s.m_light_direction camera.m_up
              (s.m_splits i).corners) s.m_shadow_map_size)).mul
          (stable_view L s.m_near_offset s.m_light_direction
            (split_center (s.m_splits i).corners) camera.m_up) ∧
      ∀ j : Fin 8,
        -1 ≤ (project (stable_pre_crop L s.m_near_offset s.m_light_direction camera.m_up
          (s.m_splits i).corners) ((s.m_splits i).corners j)).x ∧
        (project (stable_pre_crop L s.m_near_offset s.m_light_direction camera.m_up
          (s.m_splits i).corners) ((s.m_splits i).corners j)).x ≤ 1 ∧
        -1 ≤ (project (stable_pre_crop L s.m_near_offset s.m_light_direction camera.m_up
          (s.m_splits i).corners) ((s.m_splits i).corners j)).y ∧
        (project (stable_pre_crop L s.m_near_offset s.m_light_direction camera.m_up
          (s.m_splits i).corners) ((s.m_splits i).corners j)).y ≤ 1 := by
  obtain ⟨s1, hs1, hc, hm⟩ := update_crop_matrices_stable L mv camera s i h8 hi0 hi hst
  refine ⟨s1, hs1, hc, hm, ?_⟩
  intro j
  obtain ⟨px, py, _⟩ := stable_pre_crop_project L hS s.m_near_offset s.m_light_direction
    camera.m_up (s.m_splits i).corners ((s.m_splits i).corners j) hd hno hr
  rw [px, py]
  -- the two lateral axes of the view are unit vectors
  have hsv : glm_dot (glm_normalize L (glm_cross s.m_light_direction camera.m_up))
      (glm_normalize L (glm_cross s.m_light_direction camera.m_up)) = 1 :=
    dot_normalize_self L hS _ (dot_self_pos _ hup)
  have hsd : glm_dot (glm_normalize L (glm_cross s.m_light_direction camera.m_up))
      s.m_light_direction = 0 := by
    rw [dot_normalize_left, dot_cross_left, zero_mul]
  have hu : glm_dot (glm_cross (glm_normalize L (glm_cross s.m_light_direction camera.m_up))
        s.m_light_direction)
      (glm_cross (glm_normalize L (glm_cross s.m_light_direction camera.m_up))
        s.m_light_direction) = 1 := by
    rw [dot_cross_self, hsv, hd, hsd]; ring
  have hlen := (stable_radius_ge L (s.m_splits i).corners
    (split_center (s.m_splits i).corners)).2 j
  have hx := abs_le.mp (le_trans (abs_dot_le_length L hS _
    (((s.m_splits i).corners j).sub (split_center (s.m_splits i).corners)) hsv) hlen)
  have hy := abs_le.mp (le_trans (abs_dot_le_length L hS _
    (((s.m_splits i).corners j).sub (split_center (s.m_splits i).corners)) hu) hlen)
  refine ⟨?_, ?_, ?_, ?_⟩
  · rw [le_div_iff₀ hr]; linarith [hx.1]
  · rw [div_le_iff₀ hr]; linarith [hx.2]
  · rw [le_div_iff₀ hr]; linarith [hy.1]
  · rw [div_le_iff₀ hr]; linarith [hy.2]

/-- A corner away from the center makes the rounded radius positive. -/
theorem stable_radius_pos (L : Libm K) (hS : SqrtLaws L.sqrt) (c : Fin 8 → Vec3 K)
    (ctr : Vec3 K) (j : Fin 8) (hj : (c j).sub ctr ≠ ⟨0, 0, 0⟩) : 0 < stable_radius L c ctr :=
  lt_of_lt_of_le (sqrt_pos_of_pos hS _ (dot_self_pos _ hj)) ((stable_radius_ge L c ctr).2 j)

theorem fold_radius_zero {α : Type} (f : α → K) (l : List α) (h : ∀ j, f j = 0) :
    l.foldl (fun r j => max r (f j)) 0 = 0 := by
  induction l with
  | nil => rfl
  | cons a l ih => simp only [List.foldl_cons, h a, max_self]; exact ih

/-- When the eight corners coincide the center is that point and the radius
is 0. -/
theorem stable_radius_degenerate (L : Libm K) (hS : SqrtLaws L.sqrt) (c : Fin 8 → Vec3 K)
    (p : Vec3 K) (hc : ∀ j, c j = p) :
    split_center c = p ∧ stable_radius L c (split_center c) = 0 := by
  have hctr : split_center c = p := by
    rw [split_center_eq]
    simp only [hc]
    ext <;> simp only [Vec3.add, Vec3.divs] <;> ring
  refine ⟨hctr, ?_⟩
  have hlen : ∀ j, glm_length L ((c j).sub (split_center c)) = 0 := by
    intro j
    rw [hc j, hctr]
    have : glm_dot (p.sub p) (p.sub p) = 0 := by simp only [glm_dot, Vec3.sub]; ring
    simp only [glm_length, this, sqrt_zero_eq hS]
  simp only [stable_radius, fold_radius_zero _ _ hlen, ceilf]
  simp

/-- C16 (amended): stable mode with a degenerate split: when all eight corners
of a split coincide, `update_crop_matrices` returns, the bounding radius it
computes is 0, and the projection is built from
`ortho(-r, r, -r, r, -near_offset, near_offset + 2r)` with `r = 0`, whose
divisors `right - left` and `top - bottom` are both 0 (the x and y entries of
the projection and crop matrices are quotients by zero); only the depth
divisor `zFar - zNear = 2 * near_offset` is non-zero for `near_offset > 0`. -/
theorem degenerate_split_ortho_divisors (L : Libm K) (hS : SqrtLaws L.sqrt) (mv : Mat4 K)
    (camera : Camera K) (s : CSM K) (i : Int) (h8 : s.m_split_count ≤ 8) (hi0 : 0 ≤ i)
    (hi : i < s.m_split_count) (hst : s.m_stable_pssm = true) (hno : 0 < s.m_near_offset)
    (p : Vec3 K) (hc : ∀ j, (s.m_splits i).corners j = p) :
    ∃ s1, update_crop_matrices L mv camera s = some s1 ∧
      stable_radius L (s.m_splits i).corners (split_center (s.m_splits i).corners) = 0 ∧
      s1.m_proj_matrices i =
        snap_proj (stable_ortho s.m_near_offset 0)
          (round_offset ((stable_ortho s.m_near_offset 0).mul
            (stable_view L s.m_near_offset s.m_light_direction p camera.m_up))
            s.m_shadow_map_size) ∧
      s1.m_crop_matrices i = (s1.m_proj_matrices i).mul
        (stable_view L s.m_near_offset s.m_light_direction p camera.m_up) ∧
      stable_ortho_divisors s.m_near_offset 0 = (0, 0, 2 * s.m_near_offset) ∧
      2 * s.m_near_offset ≠ 0 := by
  obtain ⟨hctr, hrad⟩ := stable_radius_degenerate L hS (s.m_splits i).corners p hc
  have hin : 0 ≤ i ∧ i < 0 + (s.m_split_count.toNat : Int) := by omega
  have hrad1 : stable_radius L (s.m_splits i).corners p = 0 := by
    rw [hctr] at hrad; exact hrad
  refine ⟨_, update_crop_matrices_eq L mv camera s h8, hrad, ?_, ?_, ?_, ?_⟩
  · simp only [crop_after_loop, hin, and_self, if_true, crop_matrices_of, hst, stable_matrices,
      hctr, hrad1]
  · simp only [crop_after_loop, hin, and_self, if_true, crop_matrices_of, hst, stable_matrices,
      hctr, hrad1]
  · simp only [stable_ortho_divisors, glm_ortho_divisors, Vec3.neg, Vec3.sub]
    ext <;> simp
    ring
  · exact mul_ne_zero two_ne_zero hno.ne'

end StableGeometry

section StableExamples

theorem slice_corners_apply :
    slice_corners ℝ 0 = ⟨-1, -1, -1⟩ ∧ slice_corners ℝ 1 = ⟨-1, 1, -1⟩ ∧
    slice_corners ℝ 2 = ⟨1, 1, -1⟩ ∧ slice_corners ℝ 3 = ⟨1, -1, -1⟩ ∧
    slice_corners ℝ 4 = ⟨-2, -2, -2⟩ ∧ slice_corners ℝ 5 = ⟨-2, 2, -2⟩ ∧
    slice_corners ℝ 6 = ⟨2, 2, -2⟩ ∧ slice_corners ℝ 7 = ⟨2, -2, -2⟩ :=
  ⟨rfl, rfl, rfl, rfl, rfl, rfl, rfl, rfl⟩

theorem slice_center : split_center (slice_corners ℝ) = ⟨0, 0, -3 / 2⟩ := by
  obtain ⟨e0, e1, e2, e3, e4, e5, e6, e7⟩ := slice_corners_apply
  rw [split_center_eq, e0, e1, e2, e3, e4, e5, e6, e7]
  ext <;> simp only [Vec3.add, Vec3.divs] <;> norm_num

theorem slice_radius_pos :
    0 < stable_radius ⟨fun r s : ℝ => r ^ s, Real.sqrt, Real.tan⟩ (slice_corners ℝ) (split_center (slice_corners ℝ)) := by
  apply stable_radius_pos ⟨fun r s : ℝ => r ^ s, Real.sqrt, Real.tan⟩ real_sqrt_laws _ _ 0
  rw [slice_center]
  intro h
  have hx := congrArg Vec3.x h
  rw [slice_corners_apply.1] at hx
  norm_num [Vec3.sub] at hx

theorem stable_pre_crop_covers_xy_witness :
    ∃ s1, update_crop_matrices ⟨fun r s : ℝ => r ^ s, Real.sqrt, Real.tan⟩ (mat4_diag 1) (axis_camera ℝ 1 2 1 (mat4_diag 1))
        { slice_state ℝ 1 1024 true with m_light_direction := ⟨1, 0, 0⟩ } = some s1 ∧
      (s1.m_splits 0).corners = slice_corners ℝ ∧
      s1.m_crop_matrices 0 =
        (snap_proj
          (stable_ortho 1 (stable_radius ⟨fun r s : ℝ => r ^ s, Real.sqrt, Real.tan⟩ (slice_corners ℝ) (split_center (slice_corners ℝ))))
          (round_offset (stable_pre_crop ⟨fun r s : ℝ => r ^ s, Real.sqrt, Real.tan⟩ 1 ⟨1, 0, 0⟩ ⟨0, 1, 0⟩ (slice_corners ℝ)) 1024)).mul
          (stable_view ⟨fun r s : ℝ => r ^ s, Real.sqrt, Real.tan⟩ 1 ⟨1, 0, 0⟩ (split_center (slice_corners ℝ)) ⟨0, 1, 0⟩) ∧
      ∀ j : Fin 8,
        -1 ≤ (project (stable_pre_crop ⟨fun r s : ℝ => r ^ s, Real.sqrt, Real.tan⟩ 1 ⟨1, 0, 0⟩ ⟨0, 1, 0⟩ (slice_corners ℝ))
          (slice_corners ℝ j)).x ∧
        (project (stable_pre_crop ⟨fun r s : ℝ => r ^ s, Real.sqrt, Real.tan⟩ 1 ⟨1, 0, 0⟩ ⟨0, 1, 0⟩ (slice_corners ℝ))
          (slice_corners ℝ j)).x ≤ 1 ∧
        -1 ≤ (project (stable_pre_crop ⟨fun r s : ℝ => r ^ s, Real.sqrt, Real.tan⟩ 1 ⟨1, 0, 0⟩ ⟨0, 1, 0⟩ (slice_corners ℝ))
          (slice_corners ℝ j)).y ∧
        (project (stable_pre_crop ⟨fun r s : ℝ => r ^ s, Real.sqrt, Real.tan⟩ 1 ⟨1, 0, 0⟩ ⟨0, 1, 0⟩ (slice_corners ℝ))
          (slice_corners ℝ j)).y ≤ 1 :=
  stable_pre_crop_covers_xy ⟨fun r s : ℝ => r ^ s, Real.sqrt, Real.tan⟩ real_sqrt_laws (mat4_diag 1) (axis_camera ℝ 1 2 1 (mat4_diag 1))
    { slice_state ℝ 1 1024 true with m_light_direction := ⟨1, 0, 0⟩ } 0
    (by simp [slice_state, blank_state]) le_rfl (by simp [slice_state, blank_state]) rfl
    (by simp [slice_state, blank_state]) (by simp [glm_dot])
    (by
      intro h
      have hz := congrArg Vec3.z h
      norm_num [glm_cross, axis_camera] at hz)
    slice_radius_pos

theorem degenerate_split_ortho_divisors_witness :
    ∃ s1, update_crop_matrices ⟨fun r s : ℝ => r ^ s, Real.sqrt, Real.tan⟩ (mat4_diag 1) (axis_camera ℝ 1 2 1 (mat4_diag 1))
        { blank_state ℝ 0 1 1 1024 true with
          m_light_direction := ⟨1, 0, 0⟩
          m_splits := fun _ => ⟨1, 1, 1, 1, ⟨0, 0, 0⟩, fun _ => ⟨0, 0, -1⟩⟩ } = some s1 ∧
      stable_radius ⟨fun r s : ℝ => r ^ s, Real.sqrt, Real.tan⟩ (fun _ : Fin 8 => (⟨0, 0, -1⟩ : Vec3 ℝ))
        (split_center (fun _ : Fin 8 => (⟨0, 0, -1⟩ : Vec3 ℝ))) = 0 ∧
      s1.m_proj_matrices 0 =
        snap_proj (stable_ortho 1 0)
          (round_offset ((stable_ortho (1 : ℝ) 0).mul
            (stable_view ⟨fun r s : ℝ => r ^ s, Real.sqrt, Real.tan⟩ 1 ⟨1, 0, 0⟩ ⟨0, 0, -1⟩ ⟨0, 1, 0⟩)) 1024) ∧
      s1.m_crop_matrices 0 = (s1.m_proj_matrices 0).mul
        (stable_view ⟨fun r s : ℝ => r ^ s, Real.sqrt, Real.tan⟩ 1 ⟨1, 0, 0⟩ ⟨0, 0, -1⟩ ⟨0, 1, 0⟩) ∧
      stable_ortho_divisors (1 : ℝ) 0 = (0, 0, 2 * 1) ∧
      (2 : ℝ) * 1 ≠ 0 :=
  degenerate_split_ortho_divisors ⟨fun r s : ℝ => r ^ s, Real.sqrt, Real.tan⟩ real_sqrt_laws (mat4_diag 1)
    (axis_camera ℝ 1 2 1 (mat4_diag 1))
    { blank_state ℝ 0 1 1 1024 true with
      m_light_direction := ⟨1, 0, 0⟩
      m_splits := fun _ => ⟨1, 1, 1, 1, ⟨0, 0, 0⟩, fun _ => ⟨0, 0, -1⟩⟩ } 0
    (by simp [blank_state]) le_rfl (by simp [blank_state]) rfl (by simp [blank_state])
    ⟨0, 0, -1⟩ (fun _ => rfl)

/-- C16, as stated, fails: for a split whose eight corners all are
`(0, 0, -1)` and `near_offset = 1` the radius is 0 and the call
`ortho(-0, 0, -0, 0, -1, 1)` divides by `right - left = 0` and by
`top - bottom = 0`. -/
theorem degenerate_split_counterexample :
    stable_radius ⟨fun r s : ℝ => r ^ s, Real.sqrt, Real.tan⟩ (fun _ : Fin 8 => (⟨0, 0, -1⟩ : Vec3 ℝ))
        (split_center (fun _ : Fin 8 => (⟨0, 0, -1⟩ : Vec3 ℝ))) = 0 ∧
      (stable_ortho_divisors (1 : ℝ)
        (stable_radius ⟨fun r s : ℝ => r ^ s, Real.sqrt, Real.tan⟩ (fun _ : Fin 8 => (⟨0, 0, -1⟩ : Vec3 ℝ))
          (split_center (fun _ : Fin 8 => (⟨0, 0, -1⟩ : Vec3 ℝ))))).1 = 0 ∧
      (stable_ortho_divisors (1 : ℝ)
        (stable_radius ⟨fun r s : ℝ => r ^ s, Real.sqrt, Real.tan⟩ (fun _ : Fin 8 => (⟨0, 0, -1⟩ : Vec3 ℝ))
          (split_center (fun _ : Fin 8 => (⟨0, 0, -1⟩ : Vec3 ℝ))))).2.1 = 0 := by
  have h := (stable_radius_degenerate ⟨fun r s : ℝ => r ^ s, Real.sqrt, Real.tan⟩ real_sqrt_laws
    (fun _ : Fin 8 => (⟨0, 0, -1⟩ : Vec3 ℝ)) ⟨0, 0, -1⟩ (fun _ => rfl)).2
  refine ⟨h, ?_, ?_⟩
  · rw [h]; simp [stable_ortho_divisors, glm_ortho_divisors, Vec3.neg, Vec3.sub]
  · rw [h]; simp [stable_ortho_divisors, glm_ortho_divisors, Vec3.neg, Vec3.sub]

end StableExamples

section StableUpdate

variable {K : Type} [LinearOrderedField K] [FloorRing K]

/-- In stable mode `update` returns and stores, for each split, the snapped
crop matrix built from the corners it has just written and the normalised
light direction. -/
theorem update_stable_crop (L : Libm K) (camera : Camera K) (dir : Vec3 K) (s : CSM K)
    (i : Int) (h1 : 1 ≤ s.m_split_count) (h8 : s.m_split_count ≤ 8) (hi0 : 0 ≤ i)
    (hi : i < s.m_split_count) (hst : s.m_stable_pssm = true) :
    ∃ s1, update L camera dir s = some s1 ∧
      s1.m_light_direction = glm_normalize L dir ∧
      s1.m_crop_matrices i =
        (stable_matrices L s.m_near_offset s.m_shadow_map_size s1.m_light_direction camera.m_up
          (s1.m_splits i).corners (split_center (s1.m_splits i).corners)).2 := by
  refine ⟨_, update_eq L camera dir s h1 h8, rfl, ?_⟩
  rw [uc_crop, if_pos ⟨hi0, hi⟩]
  simp only [crop_matrices_of, hst, if_true]
  rfl

/-- The same for `initialize`. -/
theorem initialize_stable_crop (L : Libm K) (lambda near_offset : K)
    (split_count shadow_map_size : Int) (camera : Camera K) (width height : Int)
    (dir : Vec3 K) (s : CSM K) (i : Int) (h1 : 1 ≤ split_count) (h8 : split_count ≤ 8)
    (hi0 : 0 ≤ i) (hi : i < split_count) (hst : s.m_stable_pssm = true) (s1 : CSM K)
    (hs1 : CSM_initialize L lambda near_offset split_count shadow_map_size camera width height
      dir s = some s1) :
    s1.m_crop_matrices i =
      (stable_matrices L near_offset shadow_map_size (glm_normalize L dir) camera.m_up
        (s1.m_splits i).corners (split_center (s1.m_splits i).corners)).2 := by
  rw [initialize_eq L lambda near_offset split_count shadow_map_size camera width height dir s
    h1 h8] at hs1
  simp only [Option.some.injEq] at hs1
  rw [← hs1, uc_crop]
  have hin : 0 ≤ i ∧ i < (initialize_pre lambda near_offset split_count shadow_map_size camera
      width height s).m_split_count := ⟨hi0, hi⟩
  rw [if_pos hin]
  have hst1 : (initialize_pre lambda near_offset split_count shadow_map_size camera
      width height s).m_stable_pssm = true := hst
  simp only [crop_matrices_of, hst1, if_true]
  rfl

end StableUpdate

section DepthCutoff

/-- C17 fails on the code: `initialize` in stable mode with `near_offset = 1/8`,
one split, a camera at the origin looking down `-z` with `near = 1`, `far = 2`,
`fov = 90` and up `(0,1,0)`, and the light shining along `(0,0,-1)`: the
near-bottom-left corner of the split lies `1/2` in front of the centroid
towards the light, more than `2 * near_offset`, and the stored crop matrix maps
it to a clip depth below `-1`, outside the orthographic volume. -/
theorem stable_depth_cutoff :
    ∃ s1, CSM_initialize ⟨fun r s : ℝ => r ^ s, Real.sqrt, Real.tan⟩ (1 / 2) (1 / 8) 1 1024
        (axis_camera ℝ 1 2 90 (mat4_diag 1)) 1024 1024 ⟨0, 0, -1⟩
        (blank_state ℝ 0 0 0 0 true) = some s1 ∧
      (project (s1.m_crop_matrices 0) ((s1.m_splits 0).corners 0)).z < -1 := by
  obtain ⟨s1, h, _, _, _, _, c0, c1, c2, c3, c4, c5, c6, c7⟩ :=
    initialize_axis_split ⟨fun r s : ℝ => r ^ s, Real.sqrt, Real.tan⟩ real_sqrt_laws (1 / 2) (1 / 8) 1024 90 (mat4_diag 1) 1024
      (by norm_num) ⟨0, 0, -1⟩ (blank_state ℝ 0 0 0 0 true) _ rfl
  have hcrop := initialize_stable_crop ⟨fun r s : ℝ => r ^ s, Real.sqrt, Real.tan⟩ (1 / 2) (1 / 8) 1 1024
    (axis_camera ℝ 1 2 90 (mat4_diag 1)) 1024 1024 ⟨0, 0, -1⟩ (blank_state ℝ 0 0 0 0 true) 0
    le_rfl (by norm_num) le_rfl (by norm_num) rfl s1 h
  have hd : glm_normalize ⟨fun r s : ℝ => r ^ s, Real.sqrt, Real.tan⟩ (⟨0, 0, -1⟩ : Vec3 ℝ) = ⟨0, 0, -1⟩ :=
    normalize_unit _ real_sqrt_laws _ (by simp [glm_dot])
  obtain ⟨hz, hpos⟩ := stable_crop_depth ⟨fun r s : ℝ => r ^ s, Real.sqrt, Real.tan⟩ real_sqrt_laws (1 / 8) 1024 ⟨0, 0, -1⟩
    (axis_camera ℝ 1 2 90 (mat4_diag 1)).m_up (s1.m_splits 0).corners
    ((s1.m_splits 0).corners 0) (by simp [glm_dot]) (by norm_num)
  have hctr : split_center (s1.m_splits 0).corners = ⟨0, 0, -3 / 2⟩ := by
    rw [split_center_eq, c0, c1, c2, c3, c4, c5, c6, c7]
    ext <;> simp only [Vec3.add, Vec3.divs] <;> ring
  refine ⟨s1, h, ?_⟩
  rw [hcrop, hd, hz, div_lt_iff₀ hpos, hctr, c0]
  simp only [glm_dot, Vec3.sub]
  linarith

end DepthCutoff

section SubTexel

variable {K : Type} [LinearOrderedField K] [FloorRing K]

/-- C `round` moves a value by at most one half. -/
theorem roundf_near (x : K) : x - 1 / 2 ≤ roundf x ∧ roundf x ≤ x + 1 / 2 := by
  unfold roundf
  split_ifs
  · constructor
    · have := Int.lt_floor_add_one (x + 1 / 2); linarith
    · exact Int.floor_le _
  · constructor
    · exact Int.le_ceil _
    · have := Int.ceil_lt_add_one (x - 1 / 2); linarith

/-- Two values less than 1 apart round to integers at most 1 apart. -/
theorem roundf_sub_texel (a b : K) (h : |a - b| < 1) : |roundf a - roundf b| ≤ 1 := by
  obtain ⟨na, hna⟩ := roundf_is_int a
  obtain ⟨nb, hnb⟩ := roundf_is_int b
  obtain ⟨a1, a2⟩ := roundf_near a
  obtain ⟨b1, b2⟩ := roundf_near b
  obtain ⟨h1, h2⟩ := abs_lt.mp h
  rw [hna] at a1 a2
  rw [hnb] at b1 b2
  rw [hna, hnb]
  have hlt : ((na - nb : Int) : K) < 2 := by push_cast; linarith
  have hgt : (-2 : K) < ((na - nb : Int) : K) := by push_cast; linarith
  have hlt1 : na - nb < 2 := by exact_mod_cast hlt
  have hgt1 : -2 < na - nb := by exact_mod_cast hgt
  have hle : na - nb ≤ 1 := by omega
  have hge : -1 ≤ na - nb := by omega
  rw [abs_le]
  constructor
  · have : ((-1 : Int) : K) ≤ ((na - nb : Int) : K) := by exact_mod_cast hge
    push_cast at this; linarith
  · have : ((na - nb : Int) : K) ≤ ((1 : Int) : K) := by exact_mod_cast hle
    push_cast at this; linarith

/-- After snapping, the texel coordinates of the world origin are the rounded
texel coordinates of the world origin before snapping. -/
theorem snapped_texel (L : Libm K) (near_offset : K) (shadow_map_size : Int) (d up : Vec3 K)
    (c : Fin 8 → Vec3 K) (hS : 0 < shadow_map_size) :
    ((stable_matrices L near_offset shadow_map_size d up c (split_center c)).2.mulVec
        ⟨0, 0, 0, 1⟩).x * ((shadow_map_size : K) / 2) =
      roundf (((stable_pre_crop L near_offset d up c).mulVec ⟨0, 0, 0, 1⟩).x *
        ((shadow_map_size : K) / 2)) ∧
    ((stable_matrices L near_offset shadow_map_size d up c (split_center c)).2.mulVec
        ⟨0, 0, 0, 1⟩).y * ((shadow_map_size : K) / 2) =
      roundf (((stable_pre_crop L near_offset d up c).mulVec ⟨0, 0, 0, 1⟩).y *
        ((shadow_map_size : K) / 2)) := by
  have hV : (stable_view L near_offset d (split_center c) up).c3.w = 1 := rfl
  have hSK : (shadow_map_size : K) ≠ 0 := by
    have : (0 : K) < (shadow_map_size : K) := by exact_mod_cast hS
    exact this.ne'
  simp only [stable_matrices, stable_pre_crop]
  rw [snap_origin _ _ _ hV]
  generalize (stable_ortho near_offset (stable_radius L c (split_center c))).mul
    (stable_view L near_offset d (split_center c) up) = pre
  simp only [round_offset, Vec4.add, Vec4.sub, Vec4.scale, glm_round]
  constructor <;> field_simp

/-- C14: stable mode, sub-texel camera motion: for two updates with the same
config and light direction (the two cameras may differ in any way, in
particular by a translation) whose pre-snap texel coordinates of the world
origin (`crop * origin` scaled by `shadow_map_size / 2`) differ by less than
one texel in x, respectively in y, the post-snap crop matrices map the world
origin to texel coordinates that differ by at most one texel in x,
respectively in y. -/
theorem sub_texel_motion (L : Libm K) (camera1 camera2 : Camera K) (dir : Vec3 K) (s : CSM K)
    (i : Int) (h1 : 1 ≤ s.m_split_count) (h8 : s.m_split_count ≤ 8) (hi0 : 0 ≤ i)
    (hi : i < s.m_split_count) (hst : s.m_stable_pssm = true) (hS : 0 < s.m_shadow_map_size) :
    ∃ s1 s2, update L camera1 dir s = some s1 ∧ update L camera2 dir s = some s2 ∧
      (|((stable_pre_crop L s.m_near_offset s1.m_light_direction camera1.m_up
              (s1.m_splits i).corners).mulVec ⟨0, 0, 0, 1⟩).x * ((s.m_shadow_map_size : K) / 2) -
          ((stable_pre_crop L s.m_near_offset s2.m_light_direction camera2.m_up
              (s2.m_splits i).corners).mulVec ⟨0, 0, 0, 1⟩).x * ((s.m_shadow_map_size : K) / 2)|
          < 1 →
        |((s1.m_crop_matrices i).mulVec ⟨0, 0, 0, 1⟩).x * ((s.m_shadow_map_size : K) / 2) -
          ((s2.m_crop_matrices i).mulVec ⟨0, 0, 0, 1⟩).x * ((s.m_shadow_map_size : K) / 2)|
          ≤ 1) ∧
      (|((stable_pre_crop L s.m_near_offset s1.m_light_direction camera1.m_up
              (s1.m_splits i).corners).mulVec ⟨0, 0, 0, 1⟩).y * ((s.m_shadow_map_size : K) / 2) -
          ((stable_pre_crop L s.m_near_offset s2.m_light_direction camera2.m_up
              (s2.m_splits i).corners).mulVec ⟨0, 0, 0, 1⟩).y * ((s.m_shadow_map_size : K) / 2)|
          < 1 →
        |((s1.m_crop_matrices i).mulVec ⟨0, 0, 0, 1⟩).y * ((s.m_shadow_map_size : K) / 2) -
          ((s2.m_crop_matrices i).mulVec ⟨0, 0, 0, 1⟩).y * ((s.m_shadow_map_size : K) / 2)|
          ≤ 1) := by
  obtain ⟨s1, hs1, _, hm1⟩ := update_stable_crop L camera1 dir s i h1 h8 hi0 hi hst
  obtain ⟨s2, hs2, _, hm2⟩ := update_stable_crop L camera2 dir s i h1 h8 hi0 hi hst
  refine ⟨s1, s2, hs1, hs2, ?_, ?_⟩
  · intro h
    rw [hm1, hm2, (snapped_texel L _ _ _ _ _ hS).1, (snapped_texel L _ _ _ _ _ hS).1]
    exact roundf_sub_texel _ _ h
  · intro h
    rw [hm1, hm2, (snapped_texel L _ _ _ _ _ hS).2, (snapped_texel L _ _ _ _ _ hS).2]
    exact roundf_sub_texel _ _ h

end SubTexel

section SubTexelExample

theorem sub_texel_motion_witness :
    ∃ s1 s2,
      update ⟨fun r s : ℝ => r ^ s, Real.sqrt, Real.tan⟩ (axis_camera ℝ 1 2 90 (mat4_diag 1)) ⟨1, -1, 0⟩
        (blank_state ℝ (1 / 2) 1 1 1024 true) = some s1 ∧
      update ⟨fun r s : ℝ => r ^ s, Real.sqrt, Real.tan⟩
        { axis_camera ℝ 1 2 90 (mat4_diag 1) with m_position := ⟨1 / 4096, 0, 0⟩ } ⟨1, -1, 0⟩
        (blank_state ℝ (1 / 2) 1 1 1024 true) = some s2 ∧
      (|((stable_pre_crop ⟨fun r s : ℝ => r ^ s, Real.sqrt, Real.tan⟩ 1 s1.m_light_direction
              (axis_camera ℝ 1 2 90 (mat4_diag 1)).m_up
              (s1.m_splits 0).corners).mulVec ⟨0, 0, 0, 1⟩).x * (((1024 : Int) : ℝ) / 2) -
          ((stable_pre_crop ⟨fun r s : ℝ => r ^ s, Real.sqrt, Real.tan⟩ 1 s2.m_light_direction
              { axis_camera ℝ 1 2 90 (mat4_diag 1) with m_position := ⟨1 / 4096, 0, 0⟩ }.m_up
              (s2.m_splits 0).corners).mulVec ⟨0, 0, 0, 1⟩).x * (((1024 : Int) : ℝ) / 2)| < 1 →
        |((s1.m_crop_matrices 0).mulVec ⟨0, 0, 0, 1⟩).x * (((1024 : Int) : ℝ) / 2) -
          ((s2.m_crop_matrices 0).mulVec ⟨0, 0, 0, 1⟩).x * (((1024 : Int) : ℝ) / 2)| ≤ 1) ∧
      (|((stable_pre_crop ⟨fun r s : ℝ => r ^ s, Real.sqrt, Real.tan⟩ 1 s1.m_light_direction
              (axis_camera ℝ 1 2 90 (mat4_diag 1)).m_up
              (s1.m_splits 0).corners).mulVec ⟨0, 0, 0, 1⟩).y * (((1024 : Int) : ℝ) / 2) -
          ((stable_pre_crop ⟨fun r s : ℝ => r ^ s, Real.sqrt, Real.tan⟩ 1 s2.m_light_direction
              { axis_camera ℝ 1 2 90 (mat4_diag 1) with m_position := ⟨1 / 4096, 0, 0⟩ }.m_up
              (s2.m_splits 0).corners).mulVec ⟨0, 0, 0, 1⟩).y * (((1024 : Int) : ℝ) / 2)| < 1 →
        |((s1.m_crop_matrices 0).mulVec ⟨0, 0, 0, 1⟩).y * (((1024 : Int) : ℝ) / 2) -
          ((s2.m_crop_matrices 0).mulVec ⟨0, 0, 0, 1⟩).y * (((1024 : Int) : ℝ) / 2)| ≤ 1) :=
  sub_texel_motion ⟨fun r s : ℝ => r ^ s, Real.sqrt, Real.tan⟩ (axis_camera ℝ 1 2 90 (mat4_diag 1))
    { axis_camera ℝ 1 2 90 (mat4_diag 1) with m_position := ⟨1 / 4096, 0, 0⟩ } ⟨1, -1, 0⟩
    (blank_state ℝ (1 / 2) 1 1 1024 true) 0 (by simp [blank_state]) (by simp [blank_state]) le_rfl
    (by simp [blank_state]) rfl (by simp [blank_state])

end SubTexelExample

section TightCropClaims
variable {K : Type} [LinearOrderedField K] [FloorRing K]

/-- The stored tight crop matrix keeps `w = 1` for an affine light view. -/
theorem tight_crop_w (near_offset : K) (mv : Mat4 K) (c : Fin 8 → Vec3 K) (p : Vec3 K)
    (h0 : mv.c0.w = 0) (h1 : mv.c1.w = 0) (h2 : mv.c2.w = 0) (h3 : mv.c3.w = 1) :
    ((tight_matrices near_offset mv c).2.mulVec (vec4_of p 1)).w = 1 := by
  have hw := ortho_mul_affine_w (-1) 1 (-1) 1 (-near_offset) (-(light_z_range mv c).1) mv p
    h0 h1 h2 h3
  simp only [tight_matrices, mul_mulVec]
  rw [← mul_mulVec (tight_ortho near_offset mv c) mv]
  change (((tight_ortho near_offset mv c).mul mv).mulVec (vec4_of p 1)).w = 1 at hw
  generalize ((tight_ortho near_offset mv c).mul mv).mulVec (vec4_of p 1) = V at hw ⊢
  simp only [tight_shad_crop, glm_transpose, mat4_diag, Mat4.mulVec, hw]
  ring

/-- C1 (amended): tight mode (`stable = false`): for a split whose light-space
depth range is non-zero (the divisor `zFar - zNear = near_offset - tmin.z` of
the `ortho` call of line 305 is not 0) and whose eight corners, transformed by
`ortho x light_view`, have a non-zero extent in x and in y (`tmax.x > tmin.x`,
`tmax.y > tmin.y`), and for an affine `light_view` (bottom row `0,0,0,1`), the
crop matrix stored by `update_crop_matrices` maps each of the eight corners of
that split to a vector with `w = 1` and, after the divide by `w`, to a point
with `x` in `[-1,1]` and `y` in `[-1,1]`. -/
theorem tight_crop_maps_corners_into_square (L : Libm K) (mv : Mat4 K) (camera : Camera K)
    (s : CSM K) (i : Int) (h8 : s.m_split_count ≤ 8) (hi0 : 0 ≤ i) (hi : i < s.m_split_count)
    (hst : s.m_stable_pssm = false)
    (h0 : mv.c0.w = 0) (h1 : mv.c1.w = 0) (h2 : mv.c2.w = 0) (h3 : mv.c3.w = 1)
    (_hz : (tight_ortho_divisors s.m_near_offset mv (s.m_splits i).corners).2.2 ≠ 0)
    (hx : (tight_extents ((tight_ortho s.m_near_offset mv (s.m_splits i).corners).mul mv)
        (s.m_splits i).corners).tmin_x.untop' 0 <
      (tight_extents ((tight_ortho s.m_near_offset mv (s.m_splits i).corners).mul mv)
        (s.m_splits i).corners).tmax_x.unbot' 0)
    (hy : (tight_extents ((tight_ortho s.m_near_offset mv (s.m_splits i).corners).mul mv)
        (s.m_splits i).corners).tmin_y.untop' 0 <
      (tight_extents ((tight_ortho s.m_near_offset mv (s.m_splits i).corners).mul mv)
        (s.m_splits i).corners).tmax_y.unbot' 0) :
    ∃ s1, update_crop_matrices L mv camera s = some s1 ∧
      ∀ j : Fin 8,
        ((s1.m_crop_matrices i).mulVec (vec4_of ((s1.m_splits i).corners j) 1)).w = 1 ∧
        -1 ≤ (project (s1.m_crop_matrices i) ((s1.m_splits i).corners j)).x ∧
        (project (s1.m_crop_matrices i) ((s1.m_splits i).corners j)).x ≤ 1 ∧
        -1 ≤ (project (s1.m_crop_matrices i) ((s1.m_splits i).corners j)).y ∧
        (project (s1.m_crop_matrices i) ((s1.m_splits i).corners j)).y ≤ 1 := by
  obtain ⟨s1, hs1, hc, hm⟩ := update_crop_matrices_tight L mv camera s i h8 hi0 hi hst
  refine ⟨s1, hs1, ?_⟩
  intro j
  rw [hc, hm]
  refine ⟨tight_crop_w s.m_near_offset mv (s.m_splits i).corners _ h0 h1 h2 h3, ?_⟩
  obtain ⟨xmax, xmin, ymax, ymin, e1, e2, e3, e4, a1, a2, a3, a4, _⟩ :=
    tight_extents_spec ((tight_ortho s.m_near_offset mv (s.m_splits i).corners).mul mv)
      (s.m_splits i).corners
  rw [e1, e2, WithBot.unbot'_coe, WithTop.untop'_coe] at hx
  rw [e3, e4, WithBot.unbot'_coe, WithTop.untop'_coe] at hy
  obtain ⟨px, py⟩ := tight_crop_project s.m_near_offset mv (s.m_splits i).corners
    ((s.m_splits i).corners j) h0 h1 h2 h3 xmax xmin ymax ymin e1 e2 e3 e4 hx hy
  rw [px, py]
  have hdx : 0 < xmax - xmin := by linarith
  have hdy : 0 < ymax - ymin := by linarith
  have b1 := a1 j
  have b2 := a2 j
  have b3 := a3 j
  have b4 := a4 j
  refine ⟨?_, ?_, ?_, ?_⟩
  · rw [le_div_iff₀ hdx]; linarith
  · rw [div_le_iff₀ hdx]; linarith
  · rw [le_div_iff₀ hdy]; linarith
  · rw [div_le_iff₀ hdy]; linarith

/-- C10 (amended): tight mode yields the tightest fit: under the preconditions
of the bound claim (non-zero x and y extents, affine `light_view`) and for a
non-zero light-space depth range (the divisor `zFar - zNear = near_offset -
tmin.z` of the `ortho` call of line 305 is not 0), among the eight
corners of a split mapped through the stored crop matrix the maximum x is
exactly 1 and the minimum x exactly -1, and the maximum y is exactly 1 and
the minimum y exactly -1 (each value is attained by a corner and bounds all
eight). -/
theorem tight_crop_extremes (L : Libm K) (mv : Mat4 K) (camera : Camera K)
    (s : CSM K) (i : Int) (h8 : s.m_split_count ≤ 8) (hi0 : 0 ≤ i) (hi : i < s.m_split_count)
    (hst : s.m_stable_pssm = false)
    (h0 : mv.c0.w = 0) (h1 : mv.c1.w = 0) (h2 : mv.c2.w = 0) (h3 : mv.c3.w = 1)
    (_hz : (tight_ortho_divisors s.m_near_offset mv (s.m_splits i).corners).2.2 ≠ 0)
    (hx : (tight_extents ((tight_ortho s.m_near_offset mv (s.m_splits i).corners).mul mv)
        (s.m_splits i).corners).tmin_x.untop' 0 <
      (tight_extents ((tight_ortho s.m_near_offset mv (s.m_splits i).corners).mul mv)
        (s.m_splits i).corners).tmax_x.unbot' 0)
    (hy : (tight_extents ((tight_ortho s.m_near_offset mv (s.m_splits i).corners).mul mv)
        (s.m_splits i).corners).tmin_y.untop' 0 <
      (tight_extents ((tight_ortho s.m_near_offset mv (s.m_splits i).corners).mul mv)
        (s.m_splits i).corners).tmax_y.unbot' 0) :
    ∃ s1, update_crop_matrices L mv camera s = some s1 ∧
      ((∃ j : Fin 8, (project (s1.m_crop_matrices i) ((s1.m_splits i).corners j)).x = 1) ∧
        (∀ j : Fin 8, (project (s1.m_crop_matrices i) ((s1.m_splits i).corners j)).x ≤ 1)) ∧
      ((∃ j : Fin 8, (project (s1.m_crop_matrices i) ((s1.m_splits i).corners j)).x = -1) ∧
        (∀ j : Fin 8, -1 ≤ (project (s1.m_crop_matrices i) ((s1.m_splits i).corners j)).x)) ∧
      ((∃ j : Fin 8, (project (s1.m_crop_matrices i) ((s1.m_splits i).corners j)).y = 1) ∧
        (∀ j : Fin 8, (project (s1.m_crop_matrices i) ((s1.m_splits i).corners j)).y ≤ 1)) ∧
      ((∃ j : Fin 8, (project (s1.m_crop_matrices i) ((s1.m_splits i).corners j)).y = -1) ∧
        (∀ j : Fin 8, -1 ≤ (project (s1.m_crop_matrices i) ((s1.m_splits i).corners j)).y)) := by
  obtain ⟨s1, hs1, hc, hm⟩ := update_crop_matrices_tight L mv camera s i h8 hi0 hi hst
  refine ⟨s1, hs1, ?_⟩
  rw [hc, hm]
  obtain ⟨xmax, xmin, ymax, ymin, e1, e2, e3, e4, a1, a2, a3, a4, ⟨j1, m1⟩, ⟨j2, m2⟩,
      ⟨j3, m3⟩, ⟨j4, m4⟩⟩ :=
    tight_extents_spec ((tight_ortho s.m_near_offset mv (s.m_splits i).corners).mul mv)
      (s.m_splits i).corners
  rw [e1, e2, WithBot.unbot'_coe, WithTop.untop'_coe] at hx
  rw [e3, e4, WithBot.unbot'_coe, WithTop.untop'_coe] at hy
  have hp := fun j => tight_crop_project s.m_near_offset mv (s.m_splits i).corners
    ((s.m_splits i).corners j) h0 h1 h2 h3 xmax xmin ymax ymin e1 e2 e3 e4 hx hy
  have hdx : 0 < xmax - xmin := by linarith
  have hdy : 0 < ymax - ymin := by linarith
  refine ⟨⟨⟨j1, ?_⟩, ?_⟩, ⟨⟨j2, ?_⟩, ?_⟩, ⟨⟨j3, ?_⟩, ?_⟩, ⟨⟨j4, ?_⟩, ?_⟩⟩
  · rw [(hp j1).1, m1, div_eq_one_iff_eq hdx.ne']; ring
  · intro j; rw [(hp j).1, div_le_iff₀ hdx]; linarith [a1 j]
  · rw [(hp j2).1, m2, div_eq_iff hdx.ne']; ring
  · intro j; rw [(hp j).1, le_div_iff₀ hdx]; linarith [a2 j]
  · rw [(hp j3).2, m3, div_eq_one_iff_eq hdy.ne']; ring
  · intro j; rw [(hp j).2, div_le_iff₀ hdy]; linarith [a3 j]
  · rw [(hp j4).2, m4, div_eq_iff hdy.ne']; ring
  · intro j; rw [(hp j).2, le_div_iff₀ hdy]; linarith [a4 j]

end TightCropClaims

section TightCropExamples

theorem slice_depth_divisor :
    (tight_ortho_divisors (1 : ℝ) (mat4_diag 1) (slice_corners ℝ)).2.2 ≠ 0 := by
  norm_num [tight_ortho_divisors, glm_ortho_divisors, light_z_range, List.range_succ, mat4_diag,
    slice_corners, Mat4.mulVec, vec4_of, Fin.ofNat]

theorem tight_crop_maps_corners_into_square_witness :
    ∃ s1, update_crop_matrices ⟨fun r s : ℝ => r ^ s, Real.sqrt, Real.tan⟩ (mat4_diag 1)
        (axis_camera ℝ 1 2 1 (mat4_diag 1)) (slice_state ℝ 1 1024 false) = some s1 ∧
      ∀ j : Fin 8,
        ((s1.m_crop_matrices 0).mulVec (vec4_of ((s1.m_splits 0).corners j) 1)).w = 1 ∧
        -1 ≤ (project (s1.m_crop_matrices 0) ((s1.m_splits 0).corners j)).x ∧
        (project (s1.m_crop_matrices 0) ((s1.m_splits 0).corners j)).x ≤ 1 ∧
        -1 ≤ (project (s1.m_crop_matrices 0) ((s1.m_splits 0).corners j)).y ∧
        (project (s1.m_crop_matrices 0) ((s1.m_splits 0).corners j)).y ≤ 1 :=
  tight_crop_maps_corners_into_square ⟨fun r s : ℝ => r ^ s, Real.sqrt, Real.tan⟩ (mat4_diag 1)
    (axis_camera ℝ 1 2 1 (mat4_diag 1)) (slice_state ℝ 1 1024 false) 0
    (by simp [slice_state, blank_state]) le_rfl (by simp [slice_state, blank_state]) rfl
    rfl rfl rfl rfl slice_depth_divisor slice_extent_x slice_extent_y

theorem tight_crop_extremes_witness :
    ∃ s1, update_crop_matrices ⟨fun r s : ℝ => r ^ s, Real.sqrt, Real.tan⟩ (mat4_diag 1)
        (axis_camera ℝ 1 2 1 (mat4_diag 1)) (slice_state ℝ 1 1024 false) = some s1 ∧
      ((∃ j : Fin 8, (project (s1.m_crop_matrices 0) ((s1.m_splits 0).corners j)).x = 1) ∧
        (∀ j : Fin 8, (project (s1.m_crop_matrices 0) ((s1.m_splits 0).corners j)).x ≤ 1)) ∧
      ((∃ j : Fin 8, (project (s1.m_crop_matrices 0) ((s1.m_splits 0).corners j)).x = -1) ∧
        (∀ j : Fin 8, -1 ≤ (project (s1.m_crop_matrices 0) ((s1.m_splits 0).corners j)).x)) ∧
      ((∃ j : Fin 8, (project (s1.m_crop_matrices 0) ((s1.m_splits 0).corners j)).y = 1) ∧
        (∀ j : Fin 8, (project (s1.m_crop_matrices 0) ((s1.m_splits 0).corners j)).y ≤ 1)) ∧
      ((∃ j : Fin 8, (project (s1.m_crop_matrices 0) ((s1.m_splits 0).corners j)).y = -1) ∧
        (∀ j : Fin 8, -1 ≤ (project (s1.m_crop_matrices 0) ((s1.m_splits 0).corners j)).y)) :=
  tight_crop_extremes ⟨fun r s : ℝ => r ^ s, Real.sqrt, Real.tan⟩ (mat4_diag 1)
    (axis_camera ℝ 1 2 1 (mat4_diag 1)) (slice_state ℝ 1 1024 false) 0
    (by simp [slice_state, blank_state]) le_rfl (by simp [slice_state, blank_state]) rfl
    rfl rfl rfl rfl slice_depth_divisor slice_extent_x slice_extent_y

/-- C1, as stated, fails: for the split with corners `slice_corners`, the
affine light view `back_view` (a light at the origin looking along `+z`, which
sees the corners at depths 1 and 2) and `near_offset = 1`, the extents in x
and in y are non-zero, and the call `ortho(-1, 1, -1, 1, -1, -tmin.z)` of line
305 has `tmin.z = 1`, so it divides by `zFar - zNear = 0`; the product
`t_shad_crop * t_ortho` then has undefined entries in its x and y rows. -/
theorem tight_crop_counterexample :
    (back_view ℝ).c0.w = 0 ∧ (back_view ℝ).c1.w = 0 ∧ (back_view ℝ).c2.w = 0 ∧
      (back_view ℝ).c3.w = 1 ∧
      (tight_extents ((tight_ortho 1 (back_view ℝ) (slice_corners ℝ)).mul (back_view ℝ))
          (slice_corners ℝ)).tmin_x.untop' 0 <
        (tight_extents ((tight_ortho 1 (back_view ℝ) (slice_corners ℝ)).mul (back_view ℝ))
          (slice_corners ℝ)).tmax_x.unbot' 0 ∧
      (tight_extents ((tight_ortho 1 (back_view ℝ) (slice_corners ℝ)).mul (back_view ℝ))
          (slice_corners ℝ)).tmin_y.untop' 0 <
        (tight_extents ((tight_ortho 1 (back_view ℝ) (slice_corners ℝ)).mul (back_view ℝ))
          (slice_corners ℝ)).tmax_y.unbot' 0 ∧
      (light_z_range (back_view ℝ) (slice_corners ℝ)).1 = 1 ∧
      (tight_ortho_divisors (1 : ℝ) (back_view ℝ) (slice_corners ℝ)).2.2 = 0 := by
  refine ⟨rfl, rfl, rfl, rfl, ?_, ?_, ?_, ?_⟩
  · exact (tight_extents_nondegenerate _ _).1 2 0
      (by norm_num [project, tight_ortho, glm_ortho, Mat4.mul, Mat4.mulVec, back_view, vec4_of,
        Vec4.divs, slice_corners])
  · exact (tight_extents_nondegenerate _ _).2 0 1
      (by norm_num [project, tight_ortho, glm_ortho, Mat4.mul, Mat4.mulVec, back_view, vec4_of,
        Vec4.divs, slice_corners])
  · norm_num [light_z_range, List.range_succ, back_view, slice_corners, Mat4.mulVec, vec4_of,
      Fin.ofNat]
  · norm_num [tight_ortho_divisors, glm_ortho_divisors, light_z_range, List.range_succ,
      back_view, slice_corners, Mat4.mulVec, vec4_of, Fin.ofNat]

/-- C10, as stated, fails: for the split with corners `slice_corners`, the
affine light view `behind_view` (a light at `(0,0,-3)` looking along `-z`,
which has the corners behind it, at view depths `z = 2` and `z = 1`) and
`near_offset = 1`, the extents in x and in y are non-zero, and the call
`ortho(-1, 1, -1, 1, -1, -tmin.z)` of line 305 has `tmin.z = 1`, so it divides
by `zFar - zNear = 0`; no corner is mapped to a defined extreme. -/
theorem tight_extremes_counterexample :
    (behind_view ℝ).c0.w = 0 ∧ (behind_view ℝ).c1.w = 0 ∧ (behind_view ℝ).c2.w = 0 ∧
      (behind_view ℝ).c3.w = 1 ∧
      (tight_extents ((tight_ortho 1 (behind_view ℝ) (slice_corners ℝ)).mul (behind_view ℝ))
          (slice_corners ℝ)).tmin_x.untop' 0 <
        (tight_extents ((tight_ortho 1 (behind_view ℝ) (slice_corners ℝ)).mul (behind_view ℝ))
          (slice_corners ℝ)).tmax_x.unbot' 0 ∧
      (tight_extents ((tight_ortho 1 (behind_view ℝ) (slice_corners ℝ)).mul (behind_view ℝ))
          (slice_corners ℝ)).tmin_y.untop' 0 <
        (tight_extents ((tight_ortho 1 (behind_view ℝ) (slice_corners ℝ)).mul (behind_view ℝ))
          (slice_corners ℝ)).tmax_y.unbot' 0 ∧
      (light_z_range (behind_view ℝ) (slice_corners ℝ)).1 = 1 ∧
      (tight_ortho_divisors (1 : ℝ) (behind_view ℝ) (slice_corners ℝ)).2.2 = 0 := by
  refine ⟨rfl, rfl, rfl, rfl, ?_, ?_, ?_, ?_⟩
  · exact (tight_extents_nondegenerate _ _).1 0 2
      (by norm_num [project, tight_ortho, glm_ortho, Mat4.mul, Mat4.mulVec, behind_view, vec4_of,
        Vec4.divs, slice_corners])
  · exact (tight_extents_nondegenerate _ _).2 0 1
      (by norm_num [project, tight_ortho, glm_ortho, Mat4.mul, Mat4.mulVec, behind_view, vec4_of,
        Vec4.divs, slice_corners])
  · norm_num [light_z_range, List.range_succ, behind_view, slice_corners, Mat4.mulVec, vec4_of,
      Fin.ofNat]
  · norm_num [tight_ortho_divisors, glm_ortho_divisors, light_z_range, List.range_succ,
      behind_view, slice_corners, Mat4.mulVec, vec4_of, Fin.ofNat]

end TightCropExamples

section StableSnapClaim
variable {K : Type} [LinearOrderedField K] [FloorRing K]

/-- C7 (amended): stable mode texel snapping: for `shadow_map_size > 0`,
`near_offset > 0`, a light direction not parallel to the camera up (so that
the look-at view is defined and affine) and a bounding radius `r > 0`, the
final crop matrix stored for a split (`snapped_ortho x view`, `view` a look-at
matrix) maps the world origin `(0,0,0,1)` to a point whose x and y, multiplied by
`shadow_map_size / 2`, are integers, while its z and w are those of the crop
matrix `ortho x view` before snapping. -/
theorem stable_crop_snaps_origin (L : Libm K) (mv : Mat4 K) (camera : Camera K) (s : CSM K)
    (i : Int) (h8 : s.m_split_count ≤ 8) (hi0 : 0 ≤ i) (hi : i < s.m_split_count)
    (hst : s.m_stable_pssm = true) (hS : 0 < s.m_shadow_map_size)
    (_hsq : SqrtLaws L.sqrt) (_hno : 0 < s.m_near_offset)
    (_hup : glm_cross s.m_light_direction camera.m_up ≠ ⟨0, 0, 0⟩)
    (_hr : 0 < stable_radius L (s.m_splits i).corners (split_center (s.m_splits i).corners)) :
    ∃ s1, update_crop_matrices L mv camera s = some s1 ∧
      (∃ n : Int, ((s1.m_crop_matrices i).mulVec ⟨0, 0, 0, 1⟩).x *
        ((s.m_shadow_map_size : K) / 2) = (n : K)) ∧
      (∃ n : Int, ((s1.m_crop_matrices i).mulVec ⟨0, 0, 0, 1⟩).y *
        ((s.m_shadow_map_size : K) / 2) = (n : K)) ∧
      ((s1.m_crop_matrices i).mulVec ⟨0, 0, 0, 1⟩).z =
        (((stable_ortho s.m_near_offset
            (stable_radius L (s.m_splits i).corners (split_center (s.m_splits i).corners))).mul
          (stable_view L s.m_near_offset s.m_light_direction
            (split_center (s.m_splits i).corners) camera.m_up)).mulVec ⟨0, 0, 0, 1⟩).z ∧
      ((s1.m_crop_matrices i).mulVec ⟨0, 0, 0, 1⟩).w =
        (((stable_ortho s.m_near_offset
            (stable_radius L (s.m_splits i).corners (split_center (s.m_splits i).corners))).mul
          (stable_view L s.m_near_offset s.m_light_direction
            (split_center (s.m_splits i).corners) camera.m_up)).mulVec ⟨0, 0, 0, 1⟩).w := by
  obtain ⟨s1, hs1, _, hm⟩ := update_crop_matrices_stable L mv camera s i h8 hi0 hi hst
  refine ⟨s1, hs1, ?_⟩
  rw [hm]
  have hV : (stable_view L s.m_near_offset s.m_light_direction
      (split_center (s.m_splits i).corners) camera.m_up).c3.w = 1 := rfl
  simp only [stable_matrices]
  rw [snap_origin _ _ _ hV]
  generalize (stable_ortho s.m_near_offset
      (stable_radius L (s.m_splits i).corners (split_center (s.m_splits i).corners))).mul
    (stable_view L s.m_near_offset s.m_light_direction
      (split_center (s.m_splits i).corners) camera.m_up) = pre
  have hSK : (s.m_shadow_map_size : K) ≠ 0 := by
    have : (0 : K) < (s.m_shadow_map_size : K) := by exact_mod_cast hS
    exact this.ne'
  obtain ⟨nx, hnx⟩ := roundf_is_int ((pre.mulVec ⟨0, 0, 0, 1⟩).x * ((s.m_shadow_map_size : K) / 2))
  obtain ⟨ny, hny⟩ := roundf_is_int ((pre.mulVec ⟨0, 0, 0, 1⟩).y * ((s.m_shadow_map_size : K) / 2))
  refine ⟨⟨nx, ?_⟩, ⟨ny, ?_⟩, ?_, ?_⟩
  · rw [← hnx]
    simp only [round_offset, Vec4.add, Vec4.sub, Vec4.scale, glm_round]
    field_simp
  · rw [← hny]
    simp only [round_offset, Vec4.add, Vec4.sub, Vec4.scale, glm_round]
    field_simp
  · simp only [round_offset, Vec4.add, add_zero]
  · simp only [round_offset, Vec4.add, add_zero]

end StableSnapClaim

section StableSnapExamples

theorem stable_crop_snaps_origin_witness :
    ∃ s1, update_crop_matrices ⟨fun r s : ℝ => r ^ s, Real.sqrt, Real.tan⟩ (mat4_diag 1)
        (axis_camera ℝ 1 2 1 (mat4_diag 1))
        { slice_state ℝ 1 1024 true with m_light_direction := ⟨1, 0, 0⟩ } = some s1 ∧
      (∃ n : Int, ((s1.m_crop_matrices 0).mulVec ⟨0, 0, 0, 1⟩).x *
        (((1024 : Int) : ℝ) / 2) = (n : ℝ)) ∧
      (∃ n : Int, ((s1.m_crop_matrices 0).mulVec ⟨0, 0, 0, 1⟩).y *
        (((1024 : Int) : ℝ) / 2) = (n : ℝ)) ∧
      ((s1.m_crop_matrices 0).mulVec ⟨0, 0, 0, 1⟩).z =
        (((stable_ortho (1 : ℝ)
            (stable_radius ⟨fun r s : ℝ => r ^ s, Real.sqrt, Real.tan⟩ (slice_corners ℝ)
              (split_center (slice_corners ℝ)))).mul
          (stable_view ⟨fun r s : ℝ => r ^ s, Real.sqrt, Real.tan⟩ 1 ⟨1, 0, 0⟩
            (split_center (slice_corners ℝ)) ⟨0, 1, 0⟩)).mulVec ⟨0, 0, 0, 1⟩).z ∧
      ((s1.m_crop_matrices 0).mulVec ⟨0, 0, 0, 1⟩).w =
        (((stable_ortho (1 : ℝ)
            (stable_radius ⟨fun r s : ℝ => r ^ s, Real.sqrt, Real.tan⟩ (slice_corners ℝ)
              (split_center (slice_corners ℝ)))).mul
          (stable_view ⟨fun r s : ℝ => r ^ s, Real.sqrt, Real.tan⟩ 1 ⟨1, 0, 0⟩
            (split_center (slice_corners ℝ)) ⟨0, 1, 0⟩)).mulVec ⟨0, 0, 0, 1⟩).w :=
  stable_crop_snaps_origin ⟨fun r s : ℝ => r ^ s, Real.sqrt, Real.tan⟩ (mat4_diag 1)
    (axis_camera ℝ 1 2 1 (mat4_diag 1))
    { slice_state ℝ 1 1024 true with m_light_direction := ⟨1, 0, 0⟩ } 0
    (by simp [slice_state, blank_state]) le_rfl (by simp [slice_state, blank_state]) rfl
    (by simp [slice_state, blank_state]) real_sqrt_laws (by simp [slice_state, blank_state])
    (by
      intro h
      have hz := congrArg Vec3.z h
      norm_num [glm_cross, axis_camera] at hz)
    slice_radius_pos

/-- C7, as stated, fails: for a split whose eight corners all are `(2, 3, -5)`,
`near_offset = 1/2`, `shadow_map_size > 0`, light direction `(1, 0, 0)` and
camera up `(0, 1, 0)` (the look-at view is defined and affine: the light is not
parallel to the up vector) the bounding radius is 0 and the call
`ortho(-0, 0, -0, 0, -1/2, 1/2)` divides by `right - left = 0` and by
`top - bottom = 0`, so the x and y the crop matrix gives the world origin are
undefined. -/
theorem stable_snap_counterexample :
    glm_cross (⟨1, 0, 0⟩ : Vec3 ℝ) ⟨0, 1, 0⟩ = ⟨0, 0, 1⟩ ∧
      stable_radius ⟨fun r s : ℝ => r ^ s, Real.sqrt, Real.tan⟩ (fun _ : Fin 8 => (⟨2, 3, -5⟩ : Vec3 ℝ))
        (split_center (fun _ : Fin 8 => (⟨2, 3, -5⟩ : Vec3 ℝ))) = 0 ∧
      (stable_ortho_divisors (1 / 2 : ℝ)
        (stable_radius ⟨fun r s : ℝ => r ^ s, Real.sqrt, Real.tan⟩ (fun _ : Fin 8 => (⟨2, 3, -5⟩ : Vec3 ℝ))
          (split_center (fun _ : Fin 8 => (⟨2, 3, -5⟩ : Vec3 ℝ))))).1 = 0 ∧
      (stable_ortho_divisors (1 / 2 : ℝ)
        (stable_radius ⟨fun r s : ℝ => r ^ s, Real.sqrt, Real.tan⟩ (fun _ : Fin 8 => (⟨2, 3, -5⟩ : Vec3 ℝ))
          (split_center (fun _ : Fin 8 => (⟨2, 3, -5⟩ : Vec3 ℝ))))).2.1 = 0 := by
  have h := (stable_radius_degenerate ⟨fun r s : ℝ => r ^ s, Real.sqrt, Real.tan⟩ real_sqrt_laws
    (fun _ : Fin 8 => (⟨2, 3, -5⟩ : Vec3 ℝ)) ⟨2, 3, -5⟩ (fun _ => rfl)).2
  refine ⟨?_, h, ?_, ?_⟩
  · ext <;> simp [glm_cross]
  · rw [h]; simp [stable_ortho_divisors, glm_ortho_divisors, Vec3.neg, Vec3.sub]
  · rw [h]; simp [stable_ortho_divisors, glm_ortho_divisors, Vec3.neg, Vec3.sub]

end StableSnapExamples

section UniformSplitsClaim
variable {K : Type} [LinearOrderedField K]

/-- C11 (amended): with `lambda = 0`, camera `near > 0` and `far >= 0` (so
that `ratio = far / near` and its power are defined) the split boundaries are
uniform:
`near_plane[i] = near + (far - near) * i / split_count` for every
`i < split_count`, consecutive near planes differ by exactly
`(far - near) / split_count`, the last split has width
`far_plane - near_plane = (far - near) / split_count`, and every other split
has width `(far - near) / split_count + 0.005 * near_plane[i+1]`. -/
theorem uniform_splits (L : Libm K) (camera : Camera K) (s : CSM K)
    (h1 : 1 ≤ s.m_split_count) (h8 : s.m_split_count ≤ 8) (hl : s.m_lambda = 0)
    (_hnear : 0 < camera.m_near) (_hfar : 0 ≤ camera.m_far) :
    ∃ s1, update_splits L camera s = some s1 ∧
      (∀ i : Int, 0 ≤ i → i < s.m_split_count →
        (s1.m_splits i).near_plane =
          camera.m_near + (camera.m_far - camera.m_near) * (i : K) / (s.m_split_count : K)) ∧
      (∀ i : Int, 0 ≤ i → i + 1 < s.m_split_count →
        (s1.m_splits (i + 1)).near_plane - (s1.m_splits i).near_plane =
          (camera.m_far - camera.m_near) / (s.m_split_count : K)) ∧
      (s1.m_splits (s.m_split_count - 1)).far_plane -
          (s1.m_splits (s.m_split_count - 1)).near_plane =
        (camera.m_far - camera.m_near) / (s.m_split_count : K) ∧
      (∀ i : Int, 0 ≤ i → i < s.m_split_count - 1 →
        (s1.m_splits i).far_plane - (s1.m_splits i).near_plane =
          (camera.m_far - camera.m_near) / (s.m_split_count : K) +
            0.005 * (s1.m_splits (i + 1)).near_plane) := by
  have hn : (s.m_split_count : K) ≠ 0 := by
    have : (0 : K) < (s.m_split_count : K) := by exact_mod_cast (by omega : 0 < s.m_split_count)
    exact this.ne'
  have hnear : ∀ i : Int, 0 ≤ i → i < s.m_split_count →
      ((splits_after L camera s) i).near_plane =
        camera.m_near + (camera.m_far - camera.m_near) * (i : K) / (s.m_split_count : K) := by
    intro i h0 hi
    by_cases hz : i = 0
    · subst hz; simp [splits_after]
    · have hin : 1 ≤ i ∧ i < s.m_split_count := ⟨by omega, hi⟩
      simp only [splits_after, hz, hin, if_false, if_true, and_self, hl, t_near_lambda_zero]
  have hlast : ((splits_after L camera s) (s.m_split_count - 1)).far_plane = camera.m_far := by
    simp [splits_after]
  have hfar : ∀ i : Int, 0 ≤ i → i < s.m_split_count - 1 →
      ((splits_after L camera s) i).far_plane =
        ((splits_after L camera s) (i + 1)).near_plane * 1.005 := by
    intro i h0 hi
    have hne : i ≠ s.m_split_count - 1 := by omega
    have hz : i + 1 ≠ 0 := by omega
    have hin : 1 ≤ i + 1 ∧ i + 1 < s.m_split_count := ⟨by omega, by omega⟩
    simp only [splits_after, hne, hz, hin, h0, hi, if_false, if_true, and_self]
  refine ⟨_, update_splits_eq L camera s h1 h8, hnear, ?_, ?_, ?_⟩
  · intro i h0 hi
    show ((splits_after L camera s) (i + 1)).near_plane - ((splits_after L camera s) i).near_plane
      = _
    rw [hnear i h0 (by omega), hnear (i + 1) (by omega) hi]
    push_cast
    field_simp
    ring
  · show ((splits_after L camera s) (s.m_split_count - 1)).far_plane -
      ((splits_after L camera s) (s.m_split_count - 1)).near_plane = _
    rw [hlast, hnear _ (by omega) (by omega)]
    push_cast
    field_simp
    ring
  · intro i h0 hi
    show ((splits_after L camera s) i).far_plane - ((splits_after L camera s) i).near_plane =
      _ + 0.005 * ((splits_after L camera s) (i + 1)).near_plane
    rw [hfar i h0 hi, hnear i h0 (by omega), hnear (i + 1) (by omega) (by omega)]
    have e1 : (1.005 : K) = 201 / 200 := by norm_num
    have e2 : (0.005 : K) = 1 / 200 := by norm_num
    rw [e1, e2]
    push_cast
    field_simp
    ring

end UniformSplitsClaim

section UniformSplitsExamples

theorem uniform_splits_witness :
    ∃ s1, update_splits ⟨fun r s : ℝ => r ^ s, Real.sqrt, Real.tan⟩
        (axis_camera ℝ 1 100 1 (mat4_diag 1)) (blank_state ℝ 0 1 4 1024 true) = some s1 ∧
      (∀ i : Int, 0 ≤ i → i < 4 →
        (s1.m_splits i).near_plane = 1 + (100 - 1) * (i : ℝ) / ((4 : Int) : ℝ)) ∧
      (∀ i : Int, 0 ≤ i → i + 1 < 4 →
        (s1.m_splits (i + 1)).near_plane - (s1.m_splits i).near_plane =
          (100 - 1) / ((4 : Int) : ℝ)) ∧
      (s1.m_splits (4 - 1)).far_plane - (s1.m_splits (4 - 1)).near_plane =
        (100 - 1) / ((4 : Int) : ℝ) ∧
      (∀ i : Int, 0 ≤ i → i < 4 - 1 →
        (s1.m_splits i).far_plane - (s1.m_splits i).near_plane =
          (100 - 1) / ((4 : Int) : ℝ) + 0.005 * (s1.m_splits (i + 1)).near_plane) :=
  uniform_splits ⟨fun r s : ℝ => r ^ s, Real.sqrt, Real.tan⟩
    (axis_camera ℝ 1 100 1 (mat4_diag 1)) (blank_state ℝ 0 1 4 1024 true)
    (by simp [blank_state]) (by simp [blank_state]) rfl
    (by norm_num [axis_camera]) (by norm_num [axis_camera])

/-- C11, as stated, fails: for `lambda = 0`, four splits and a camera with
`near = 0` and `far = 100`, `update_splits` divides by `nd = 0` in
`ratio = fd / nd` (line 114) and its loop body runs (for `i = 1, 2, 3`),
multiplying `lambda = 0` by the undefined `nd * powf(ratio, si)`: the inner
near planes are undefined, not `25, 50, 75`. -/
theorem uniform_splits_counterexample :
    (blank_state ℝ 0 1 4 1024 true).m_lambda = 0 ∧
      1 < (blank_state ℝ 0 1 4 1024 true).m_split_count ∧
      (update_splits_divisors (axis_camera ℝ 0 100 1 (mat4_diag 1))
        (blank_state ℝ 0 1 4 1024 true)).1 = 0 := by
  refine ⟨rfl, ?_, rfl⟩
  simp [blank_state]

end UniformSplitsExamples

section SplitCenterClaim
variable {K : Type} [LinearOrderedField K] [FloorRing K]

/-- C20 (amended): for every camera position, forward vector not parallel to
the world up `(0,1,0)`, fov, ratio and split planes, the split center computed
in `update_crop_matrices` (the mean of the eight corners written by
`update_frustum_corners`) is `position + forward * (near_plane + far_plane) / 2`:
the up and right offsets of the corners cancel, so the center lies on the view
axis and does not depend on fov or aspect ratio.  The two methods run in the
order in which `update` calls them and leave the split planes as they find
them. -/
theorem split_center_on_view_axis (L : Libm K) (mv : Mat4 K) (camera : Camera K) (s : CSM K)
    (i : Int) (h8 : s.m_split_count ≤ 8) (hi0 : 0 ≤ i) (hi : i < s.m_split_count)
    (_hsq : SqrtLaws L.sqrt)
    (_hnp : glm_cross camera.m_forward ⟨0, 1, 0⟩ ≠ ⟨0, 0, 0⟩) :
    ∃ s1 s2, update_frustum_corners L camera s = some s1 ∧
      update_crop_matrices L mv camera s1 = some s2 ∧
      (s2.m_splits i).near_plane = (s.m_splits i).near_plane ∧
      (s2.m_splits i).far_plane = (s.m_splits i).far_plane ∧
      (s2.m_splits i).center = split_center (s1.m_splits i).corners ∧
      (s2.m_splits i).center =
        camera.m_position.add (camera.m_forward.scale
          (((s2.m_splits i).near_plane + (s2.m_splits i).far_plane) / 2)) := by
  have hin : 0 ≤ i ∧ i < 0 + (s.m_split_count.toNat : Int) := by omega
  refine ⟨_, _, update_frustum_corners_eq L camera s h8,
    update_crop_matrices_eq L mv camera _ h8, ?_, ?_, ?_, ?_⟩
  · simp only [crop_after_loop, hin, and_self, if_true, corners_after, hi0, hi]
  · simp only [crop_after_loop, hin, and_self, if_true, corners_after, hi0, hi]
  · simp only [crop_after_loop, hin, and_self, if_true]
  · simp only [crop_after_loop, hin, and_self, if_true, corners_after, hi0, hi]
    exact split_center_frustum_corners L _ _ _ _ _

end SplitCenterClaim

section SplitCenterExamples

theorem split_center_on_view_axis_witness :
    ∃ s1 s2,
      update_frustum_corners ⟨fun r s : ℝ => r ^ s, Real.sqrt, Real.tan⟩
        { axis_camera ℝ 1 100 1 (mat4_diag 1) with m_position := ⟨1, 2, 3⟩ }
        { blank_state ℝ (1 / 2) 1 4 1024 true with
          m_splits := fun j => ⟨(j : ℝ) + 1, (j : ℝ) + 2, 1, 4 / 3, ⟨0, 0, 0⟩,
            fun _ => ⟨0, 0, 0⟩⟩ } = some s1 ∧
      update_crop_matrices ⟨fun r s : ℝ => r ^ s, Real.sqrt, Real.tan⟩ (mat4_diag 1)
        { axis_camera ℝ 1 100 1 (mat4_diag 1) with m_position := ⟨1, 2, 3⟩ } s1 = some s2 ∧
      (s2.m_splits 2).near_plane = ((2 : Int) : ℝ) + 1 ∧
      (s2.m_splits 2).far_plane = ((2 : Int) : ℝ) + 2 ∧
      (s2.m_splits 2).center = split_center (s1.m_splits 2).corners ∧
      (s2.m_splits 2).center =
        (⟨1, 2, 3⟩ : Vec3 ℝ).add ((⟨0, 0, -1⟩ : Vec3 ℝ).scale
          (((s2.m_splits 2).near_plane + (s2.m_splits 2).far_plane) / 2)) :=
  split_center_on_view_axis ⟨fun r s : ℝ => r ^ s, Real.sqrt, Real.tan⟩ (mat4_diag 1)
    { axis_camera ℝ 1 100 1 (mat4_diag 1) with m_position := ⟨1, 2, 3⟩ }
    { blank_state ℝ (1 / 2) 1 4 1024 true with
      m_splits := fun j => ⟨(j : ℝ) + 1, (j : ℝ) + 2, 1, 4 / 3, ⟨0, 0, 0⟩,
        fun _ => ⟨0, 0, 0⟩⟩ } 2
    (by simp [blank_state]) (by norm_num) (by simp [blank_state]) real_sqrt_laws
    (by
      intro h
      have hx := congrArg Vec3.x h
      norm_num [glm_cross, axis_camera] at hx)

/-- C20, as stated, fails: for a camera whose forward vector is the world up
`(0, 1, 0)` the vector `right = cross(view_dir, up)` of
`update_frustum_corners` is the zero vector and `glm::normalize(right)`
divides by its length 0: the corners it writes, and their mean, are undefined,
not a point of the view axis. -/
theorem split_center_counterexample :
    glm_cross ({ axis_camera ℝ 1 100 1 (mat4_diag 1) with m_forward := ⟨0, 1, 0⟩ } :
        Camera ℝ).m_forward ⟨0, 1, 0⟩ = ⟨0, 0, 0⟩ ∧
      frustum_right_divisor ⟨fun r s : ℝ => r ^ s, Real.sqrt, Real.tan⟩
        { axis_camera ℝ 1 100 1 (mat4_diag 1) with m_forward := ⟨0, 1, 0⟩ } = 0 := by
  constructor
  · ext <;> simp [glm_cross]
  · simp [frustum_right_divisor, glm_length, glm_cross, glm_dot]

end SplitCenterExamples

end CascadedShadowMaps
